import Mathlib

/-!
# Android nine-patch processor: a verification development

A shallow embedding of `src/lib/ninePatchProcessor.js` and `src/lib/pngParser.js`.

Conventions of the embedding.

* A `Uint8Array` / `Uint8ClampedArray` is a `List Nat` of bytes.
* An index computed by the program is an `Int`; reading outside the array gives
  `none` (JavaScript's `undefined`), see `readByte`.
* Numbers that the program subtracts from (coordinates, offsets) are `Int`.
* A function that can throw returns `Except String _`.
* Integer sums and differences are computed in `Int`; the one quotient of the program,
  `availableSpace / stretchableCount`, is the double quotient `float64Div`.
-/

namespace NinePatch

/-! ## Data model -/

/-- The browser's `ImageData`: dimensions and the row-major RGBA bytes. -/
structure ImageData where
  width : Nat
  height : Nat
  data : List Nat
  deriving DecidableEq, Repr

/-- Class `StretchRegion` (`start`, `end`); `stop` stands for the field `end`. -/
structure StretchRegion where
  start : Int
  stop : Int
  deriving DecidableEq, Repr

/-- Class `ContentRegion`. -/
structure ContentRegion where
  left : Int
  top : Int
  right : Int
  bottom : Int
  deriving DecidableEq, Repr

/-- The object literal returned by `calculatePadding`. -/
structure PaddingBox where
  left : Int
  top : Int
  right : Int
  bottom : Int
  deriving DecidableEq, Repr

/-- Class `NinePatchInfo`, with every field populated as `parseSourceNinePatch` leaves it. -/
structure NinePatchInfo where
  imageData : ImageData
  stretchRegionsX : List StretchRegion
  stretchRegionsY : List StretchRegion
  contentRegion : ContentRegion
  paddingBox : PaddingBox
  isValid : Bool
  errors : List String
  deriving DecidableEq, Repr

/-! ## Pixel access -/

/-- The read `data[i]` of a typed array: `none` is JavaScript's `undefined`. -/
def readByte (data : List Nat) (i : Int) : Option Nat :=
  if i < 0 then none else data[i.toNat]?

/-- The function `isBlackPixel(data, index)`: `r === 0 && g === 0 && b === 0 && a === 255`. -/
def isBlackPixel (data : List Nat) (index : Int) : Bool :=
  readByte data index == some 0 && readByte data (index + 1) == some 0 &&
    readByte data (index + 2) == some 0 && readByte data (index + 3) == some 255

/-! ## Stretch regions -/

/-- The loop variables of `parseStretchRegions`: the array `regions` and `currentRegion`
(`none` is `null`, `some s` is the object `{ start: s }`). -/
structure ScanState where
  regions : List StretchRegion
  currentRegion : Option Int
  deriving DecidableEq, Repr

/-- One iteration of either loop of `parseStretchRegions` at border position `pos`. -/
def scanStep (isBlack : Bool) (pos : Nat) (s : ScanState) : ScanState :=
  if isBlack then
    match s.currentRegion with
    | none => { s with currentRegion := some ((pos : Int) - 1) }
    | some _ => s
  else
    match s.currentRegion with
    | some st => { regions := s.regions ++ [⟨st, (pos : Int) - 2⟩], currentRegion := none }
    | none => s

/-- The function `parseStretchRegions(imageData, direction)`. The loop
`for (let x = 1; x < width - 1; x++)` visits `1, …, width - 2`. -/
def parseStretchRegions (imageData : ImageData) (direction : String) : List StretchRegion :=
  let width := imageData.width
  let height := imageData.height
  let data := imageData.data
  let init : ScanState := { regions := [], currentRegion := none }
  let s :=
    if direction = "horizontal" then
      (List.range' 1 (width - 2)).foldl
        (fun s (x : Nat) => scanStep (isBlackPixel data ((x : Int) * 4)) x s) init
    else
      (List.range' 1 (height - 2)).foldl
        (fun s (y : Nat) => scanStep (isBlackPixel data ((y : Int) * (width : Int) * 4)) y s) init
  match s.currentRegion with
  | some st =>
    if direction = "horizontal" then s.regions ++ [⟨st, (width : Int) - 3⟩]
    else s.regions ++ [⟨st, (height : Int) - 3⟩]
  | none => s.regions

/-! ## Content region and padding -/

/-- One iteration of a loop of `parseContentRegion`: the pair `(start, end)` of
`rightStart/rightEnd` or `bottomStart/bottomEnd`. -/
def contentStep (isBlack : Bool) (pos : Nat) (s : Option Int × Option Int) :
    Option Int × Option Int :=
  if isBlack then
    ((if s.1 = none then some ((pos : Int) - 1) else s.1), some ((pos : Int) - 1))
  else s

/-- The function `parseContentRegion(imageData)`. -/
def parseContentRegion (imageData : ImageData) : ContentRegion :=
  let width := imageData.width
  let height := imageData.height
  let data := imageData.data
  let r := (List.range' 1 (height - 2)).foldl
    (fun s (y : Nat) =>
      contentStep (isBlackPixel data (((y : Int) * width + ((width : Int) - 1)) * 4)) y s)
    (none, none)
  let b := (List.range' 1 (width - 2)).foldl
    (fun s (x : Nat) =>
      contentStep (isBlackPixel data ((((height : Int) - 1) * width + x) * 4)) x s)
    (none, none)
  let left := match b.1 with | some v => v | none => 0
  let top := match r.1 with | some v => v | none => 0
  let right := match b.2 with | some v => v | none => (width : Int) - 3
  let bottom := match r.2 with | some v => v | none => (height : Int) - 3
  ⟨left, top, right, bottom⟩

/-- The loop variables of one loop of `calculatePadding`: the first offset, the last
offset and `foundStart`. -/
structure PadState where
  first : Int
  last : Int
  foundStart : Bool
  deriving DecidableEq, Repr

/-- One iteration of a loop of `calculatePadding`. -/
def padStep (isBlack : Bool) (pos : Nat) (s : PadState) : PadState :=
  let s1 : PadState :=
    if isBlack && !s.foundStart then { s with first := (pos : Int) - 1, foundStart := true }
    else s
  if isBlack then { s1 with last := (pos : Int) - 1 } else s1

/-- The function `calculatePadding(imageData)`. -/
def calculatePadding (imageData : ImageData) : PaddingBox :=
  let width := imageData.width
  let height := imageData.height
  let data := imageData.data
  let r := (List.range' 1 (height - 2)).foldl
    (fun s (y : Nat) =>
      padStep (isBlackPixel data (((y : Int) * width + ((width : Int) - 1)) * 4)) y s)
    ⟨0, 0, false⟩
  let b := (List.range' 1 (width - 2)).foldl
    (fun s (x : Nat) =>
      padStep (isBlackPixel data ((((height : Int) - 1) * width + x) * 4)) x s)
    ⟨0, 0, false⟩
  { left := b.first
    top := r.first
    right := ((width : Int) - 3) - b.last
    bottom := ((height : Int) - 3) - r.last }

/-! ## Validation -/

/-- The function `validateBorderPixels(imageData, errors)`: returns `errors` after the pushes. -/
def validateBorderPixels (imageData : ImageData) (errors : List String) : List String :=
  let width : Int := imageData.width
  let height : Int := imageData.height
  let data := imageData.data
  let corners : List (Int × Int) :=
    [(0, 0), (width - 1, 0), (0, height - 1), (width - 1, height - 1)]
  let cornerNames : List String := ["左上", "右上", "左下", "右下"]
  (List.zip corners cornerNames).foldl
    (fun errs c =>
      let pixelIndex := (c.1.2 * width + c.1.1) * 4
      let a := readByte data (pixelIndex + 3)
      if a ≠ some 0 then errs ++ [c.2 ++ "角必须为透明像素"] else errs)
    errors

/-- The function `validateNinePatch(ninePatchInfo)`: returns the document with `errors` set. -/
def validateNinePatch (ninePatchInfo : NinePatchInfo) : NinePatchInfo :=
  let errors : List String := []
  let errors :=
    if ninePatchInfo.stretchRegionsX.length = 0 then errors ++ ["缺少水平拉伸区域标记（顶部边缘）"]
    else errors
  let errors :=
    if ninePatchInfo.stretchRegionsY.length = 0 then errors ++ ["缺少垂直拉伸区域标记（左侧边缘）"]
    else errors
  let width := ninePatchInfo.imageData.width
  let height := ninePatchInfo.imageData.height
  let errors :=
    if width < 3 ∨ height < 3 then errors ++ ["图片尺寸太小，至少需要3x3像素"] else errors
  let errors := validateBorderPixels ninePatchInfo.imageData errors
  { ninePatchInfo with errors := errors }

/-! ## CRC-32 -/

/-- Entry `i` of the table built by `NinePatchProcessor.calculateCRC32`. A 32-bit register is
the natural number of its bit pattern; `>>>`, `^` and `&` act on bit patterns. -/
def crcTableEntry (i : Nat) : Nat :=
  (List.range 8).foldl
    (fun crc _ => if crc &&& 1 ≠ 0 then (crc >>> 1) ^^^ 0xEDB88320 else crc >>> 1) i

/-- The `Uint32Array(256)` filled by the first loop of `calculateCRC32`. -/
def crcTable : List Nat := (List.range 256).map crcTableEntry

/-- The function `NinePatchProcessor.calculateCRC32(data)`. -/
def calculateCRC32 (data : List Nat) : Nat :=
  let crc := data.foldl
    (fun crc byte => crcTable.getD ((crc ^^^ byte) &&& 0xFF) 0 ^^^ (crc >>> 8)) 0xFFFFFFFF
  crc ^^^ 0xFFFFFFFF

/-! ## Typed-array writes -/

/-- The four bytes a `DataView` stores for a 32-bit value, big-endian. `setInt32` and
`setUint32` store the same bit pattern, the value modulo `2^32`. -/
def be32 (value : Int) : List Nat :=
  let v := (value % 4294967296).toNat
  [v / 16777216 % 256, v / 65536 % 256, v / 256 % 256, v % 256]

/-- The call `view.setUint8(offset, value)`: a `RangeError` outside the buffer. -/
def setUint8 (chunk : List Nat) (offset : Nat) (value : Int) : Except String (List Nat) :=
  if offset + 1 > chunk.length then throw "RangeError"
  else pure (chunk.set offset (value % 256).toNat)

/-- The call `view.setUint32(offset, value, false)`: a `RangeError` outside the buffer. -/
def setUint32 (chunk : List Nat) (offset : Nat) (value : Int) : Except String (List Nat) :=
  if offset + 4 > chunk.length then throw "RangeError"
  else
    let b := be32 value
    pure ((((chunk.set offset (b.getD 0 0)).set (offset + 1) (b.getD 1 0)).set
      (offset + 2) (b.getD 2 0)).set (offset + 3) (b.getD 3 0))

/-- The call `view.setInt32(offset, value, false)`. -/
def setInt32 (chunk : List Nat) (offset : Nat) (value : Int) : Except String (List Nat) :=
  setUint32 chunk offset value

/-- The call `target.set(source, offset)` of a typed array: a `RangeError` when the source
does not fit. -/
def arraySet (target source : List Nat) (offset : Nat) : Except String (List Nat) :=
  if offset + source.length > target.length then throw "RangeError"
  else pure (target.take offset ++ source ++ target.drop (offset + source.length))

/-! ## The `npTc` chunk -/

/-- The array `xDivs` (or `yDivs`) of `createNpTcChunk`: two pushes per region. -/
def divsOf (regions : List StretchRegion) : List Int :=
  regions.foldl (fun divs region => divs ++ [region.start, region.stop + 1]) []

/-- The loops `xDivs.forEach` and `yDivs.forEach` of `createNpTcChunk`: the state is the
buffer and `offset`; `label` names the array in the error message, whose interpolated
offsets are left out. -/
def writeDivs (label : String) (divs : List Int) (st : List Nat × Nat) :
    Except String (List Nat × Nat) :=
  divs.foldlM
    (fun (st : List Nat × Nat) div =>
      if st.2 + 4 > st.1.length then throw (label ++ "写入越界")
      else do
        let chunk ← setInt32 st.1 st.2 div
        pure (chunk, st.2 + 4))
    st

/-- The loop `for (let i = 0; i < numColors; i++)` of `createNpTcChunk`; the error message
is kept without its interpolated offsets. -/
def writeColors (numColors : Nat) (st : List Nat × Nat) : Except String (List Nat × Nat) :=
  (List.range numColors).foldlM
    (fun (st : List Nat × Nat) i =>
      if st.2 + 4 > st.1.length then throw "colors写入越界"
      else do
        let colorValue : Int := if i = numColors / 2 then 0xFF06070A else 0x00000001
        let chunk ← setUint32 st.1 st.2 colorValue
        pure (chunk, st.2 + 4))
    st

/-- The body of the `try` block of `createNpTcChunk`. The quotient `xDivs.length / 2` is
exact, since every region pushes two entries. -/
def createNpTcChunkBody (ninePatchInfo : NinePatchInfo) : Except String (List Nat) := do
  let xDivs := divsOf ninePatchInfo.stretchRegionsX
  let yDivs := divsOf ninePatchInfo.stretchRegionsY
  let numXRegions := xDivs.length / 2 + 1
  let numYRegions := yDivs.length / 2 + 1
  let numColors := numXRegions * numYRegions
  let chunkDataSize := 4 + 8 + 16 + 4 + xDivs.length * 4 + yDivs.length * 4 + numColors * 4
  let chunkSize := 4 + 4 + chunkDataSize + 4
  let chunk := List.replicate chunkSize 0
  let offset := 0
  let chunk ← setUint32 chunk offset chunkDataSize
  let offset := offset + 4
  let chunk := chunk.set offset 0x6E
  let chunk := chunk.set (offset + 1) 0x70
  let chunk := chunk.set (offset + 2) 0x54
  let chunk := chunk.set (offset + 3) 0x63
  let offset := offset + 4
  let chunk ← setUint8 chunk offset 0
  let offset := offset + 1
  let chunk ← setUint8 chunk offset xDivs.length
  let offset := offset + 1
  let chunk ← setUint8 chunk offset yDivs.length
  let offset := offset + 1
  let chunk ← setUint8 chunk offset numColors
  let offset := offset + 1
  let chunk ← setUint32 chunk offset 32
  let offset := offset + 4
  let chunk ← setUint32 chunk offset 40
  let offset := offset + 4
  let chunk ← setInt32 chunk offset ninePatchInfo.paddingBox.left
  let offset := offset + 4
  let chunk ← setInt32 chunk offset ninePatchInfo.paddingBox.right
  let offset := offset + 4
  let chunk ← setInt32 chunk offset ninePatchInfo.paddingBox.top
  let offset := offset + 4
  let chunk ← setInt32 chunk offset ninePatchInfo.paddingBox.bottom
  let offset := offset + 4
  let chunk ← setUint32 chunk offset 48
  let offset := offset + 4
  let (chunk, offset) ← writeDivs "xDivs" xDivs (chunk, offset)
  let (chunk, offset) ← writeDivs "yDivs" yDivs (chunk, offset)
  let (chunk, offset) ← writeColors numColors (chunk, offset)
  let crc := calculateCRC32 ((chunk.take offset).drop 4)
  let chunk ← setUint32 chunk offset crc
  pure chunk

/-- The function `createNpTcChunk(ninePatchInfo)`: the `catch` block rethrows with a prefix. -/
def createNpTcChunk (ninePatchInfo : NinePatchInfo) : Except String (List Nat) :=
  match createNpTcChunkBody ninePatchInfo with
  | .ok chunk => .ok chunk
  | .error message => .error ("创建npTc chunk失败: " ++ message)

/-- The search loop of `insertNpTcChunk`: the first `i` with `8 ≤ i < length - 4` at which
the bytes `49 44 41 54` start, turned into `idatPos = i - 4`; `none` is `idatPos === -1`. -/
def findIdatPos (pngData : List Nat) : Option Nat :=
  ((List.range' 8 (pngData.length - 4 - 8)).find?
    (fun i => pngData[i]? == some 0x49 && pngData[i + 1]? == some 0x44 &&
      pngData[i + 2]? == some 0x41 && pngData[i + 3]? == some 0x54)).map (fun i => i - 4)

/-- The function `insertNpTcChunk(pngData, ninePatchInfo)`. -/
def insertNpTcChunk (pngData : List Nat) (ninePatchInfo : NinePatchInfo) :
    Except String (List Nat) := do
  let npTcChunk ← createNpTcChunk ninePatchInfo
  match findIdatPos pngData with
  | none => pure pngData
  | some idatPos =>
    let newPNG := List.replicate (pngData.length + npTcChunk.length) 0
    let newPNG ← arraySet newPNG (pngData.take idatPos) 0
    let newPNG ← arraySet newPNG npTcChunk idatPos
    let newPNG ← arraySet newPNG (pngData.drop idatPos) (idatPos + npTcChunk.length)
    pure newPNG

/-! ## Compilation -/

/-- The canvas call `ctx.createImageData(sw, sh)` of the HTML standard: an `IndexSizeError`
when a side is zero, otherwise a transparent-black image of the absolute magnitudes. -/
def createImageData (sw sh : Int) : Except String ImageData :=
  if sw = 0 ∨ sh = 0 then throw "IndexSizeError"
  else pure ⟨sw.natAbs, sh.natAbs, List.replicate (4 * sw.natAbs * sh.natAbs) 0⟩

/-- The store `newData[i] = v` of a `Uint8ClampedArray`: `undefined` is stored as `0`, a
store outside the array is ignored. -/
def storeClamped (newData : List Nat) (i : Int) (v : Option Nat) : List Nat :=
  if i < 0 then newData else newData.set i.toNat (v.getD 0)

/-- The function `removeNinePatchBorders(imageData)`. -/
def removeNinePatchBorders (imageData : ImageData) : Except String ImageData := do
  let width : Int := imageData.width
  let height : Int := imageData.height
  let data := imageData.data
  let newWidth := width - 2
  let newHeight := height - 2
  let newImageData ← createImageData newWidth newHeight
  let newData := (List.range newHeight.toNat).foldl
    (fun newData (y : Nat) =>
      (List.range newWidth.toNat).foldl
        (fun newData (x : Nat) =>
          let oldIndex := (((y : Int) + 1) * width + ((x : Int) + 1)) * 4
          let newIndex := ((y : Int) * newWidth + (x : Int)) * 4
          let newData := storeClamped newData newIndex (readByte data oldIndex)
          let newData := storeClamped newData (newIndex + 1) (readByte data (oldIndex + 1))
          let newData := storeClamped newData (newIndex + 2) (readByte data (oldIndex + 2))
          storeClamped newData (newIndex + 3) (readByte data (oldIndex + 3)))
        newData)
    newImageData.data
  pure { newImageData with data := newData }

/-- The function `createCompiledPNG(cleanImageData, ninePatchInfo)`. The parameter
`encodePNG` is the browser's encoder: `canvas.toDataURL` followed by `base64ToUint8Array`. -/
def createCompiledPNG (encodePNG : ImageData → List Nat) (cleanImageData : ImageData)
    (ninePatchInfo : NinePatchInfo) : Except String (List Nat) :=
  let pngData := encodePNG cleanImageData
  insertNpTcChunk pngData ninePatchInfo

/-- The object returned by `compileToAAP`. -/
structure CompileResult where
  cleanImageData : ImageData
  compiledPNG : List Nat
  isCompiled : Bool
  deriving DecidableEq, Repr

/-- The function `compileToAAP(ninePatchInfo)`. -/
def compileToAAP (encodePNG : ImageData → List Nat) (ninePatchInfo : NinePatchInfo) :
    Except String CompileResult := do
  let cleanImageData ← removeNinePatchBorders ninePatchInfo.imageData
  let compiledPNG ← createCompiledPNG encodePNG cleanImageData ninePatchInfo
  pure { cleanImageData := cleanImageData, compiledPNG := compiledPNG, isCompiled := true }

/-! ## PNG chunk parsing (`pngParser.js`) -/

/-- Class `PNGChunk`; `type` is named `type_`. -/
structure PNGChunk where
  length : Nat
  type_ : String
  data : List Nat
  crc : Nat
  deriving DecidableEq, Repr

/-- The call `view.getUint32(offset)`: big-endian, a `RangeError` outside the buffer. -/
def getUint32 (view : List Nat) (offset : Nat) : Except String Nat :=
  if offset + 4 > view.length then throw "RangeError"
  else pure (view.getD offset 0 * 16777216 + view.getD (offset + 1) 0 * 65536 +
    view.getD (offset + 2) 0 * 256 + view.getD (offset + 3) 0)

/-- The constructor call `new Uint8Array(view.buffer, offset, length)`: a `RangeError` when
the range leaves the buffer. -/
def subView (view : List Nat) (offset length : Nat) : Except String (List Nat) :=
  if offset + length > view.length then throw "RangeError"
  else pure ((view.drop offset).take length)

/-- The `while` loop of `parseChunks`. Every iteration moves `offset` forward by at least
12 bytes; `fuel` bounds the number of iterations. -/
def parseChunksLoop (view : List Nat) :
    Nat → Nat → List PNGChunk → Except String (List PNGChunk)
  | fuel, offset, chunks =>
    if offset < view.length then
      match fuel with
      | 0 => throw "out of fuel"
      | fuel + 1 => do
        let length ← getUint32 view offset
        let offset := offset + 4
        let typeBytes ← subView view offset 4
        let type_ := String.mk (typeBytes.map Char.ofNat)
        let offset := offset + 4
        let data ← subView view offset length
        let offset := offset + length
        let crc ← getUint32 view offset
        let offset := offset + 4
        let chunks := chunks ++ [PNGChunk.mk length type_ data crc]
        if type_ = "IEND" then pure chunks
        else parseChunksLoop view fuel offset chunks
    else pure chunks

/-- The function `PNGParser.parseChunks(view)`. -/
def parseChunks (view : List Nat) : Except String (List PNGChunk) :=
  parseChunksLoop view view.length 8 []

/-! ## Specification-side definitions and proof scaffolding -/

/-- The loop of `parseStretchRegions` over the border positions `1, …, n`, for a marker
predicate `f` on positions. -/
def scanLoop (f : Nat → Bool) (n : Nat) : ScanState :=
  (List.range' 1 n).foldl (fun s (x : Nat) => scanStep (f x) x s) ⟨[], none⟩

/-- The epilogue of `parseStretchRegions`: a region still open is closed at `last`. -/
def closeScan (s : ScanState) (last : Int) : List StretchRegion :=
  match s.currentRegion with
  | some st => s.regions ++ [⟨st, last⟩]
  | none => s.regions

/-- The invariant of the scanner after the positions `1, …, k`. -/
structure ScanInv (f : Nat → Bool) (k : Nat) (s : ScanState) : Prop where
  bounds : ∀ r ∈ s.regions, 0 ≤ r.start ∧ r.start ≤ r.stop ∧ r.stop + 2 ≤ k
  marked : ∀ r ∈ s.regions, ∀ p : Nat, r.start + 1 ≤ p → (p : Int) ≤ r.stop + 1 → f p = true
  leftEnd : ∀ r ∈ s.regions, ∀ p : Nat, (p : Int) = r.start → 1 ≤ p → f p = false
  rightEnd : ∀ r ∈ s.regions, ∀ p : Nat, (p : Int) = r.stop + 2 → f p = false
  sorted : s.regions.Pairwise (fun a b => a.stop + 2 ≤ b.start)
  curBounds : ∀ st, s.currentRegion = some st → 0 ≤ st ∧ st + 1 ≤ k
  curMarked : ∀ st, s.currentRegion = some st →
    ∀ p : Nat, st + 1 ≤ p → p ≤ k → f p = true
  curLeft : ∀ st, s.currentRegion = some st → ∀ p : Nat, (p : Int) = st → 1 ≤ p → f p = false
  curAfter : ∀ st, s.currentRegion = some st → ∀ r ∈ s.regions, r.stop + 2 ≤ st
  closedLast : s.currentRegion = none → ∀ p : Nat, p = k → 1 ≤ p → f p = false
  covered : ∀ p : Nat, 1 ≤ p → p ≤ k → f p = true →
    (∃ r ∈ s.regions, r.start + 1 ≤ p ∧ (p : Int) ≤ r.stop + 1) ∨
      ∃ st, s.currentRegion = some st ∧ st + 1 ≤ p

/-- The facts about the list returned by the scanner over the positions `1, …, n`. -/
structure ScanFinal (f : Nat → Bool) (n : Nat) (l : List StretchRegion) : Prop where
  bounds : ∀ r ∈ l, 0 ≤ r.start ∧ r.start ≤ r.stop ∧ r.stop + 1 ≤ n
  marked : ∀ r ∈ l, ∀ p : Nat, r.start + 1 ≤ p → (p : Int) ≤ r.stop + 1 → f p = true
  leftEnd : ∀ r ∈ l, ∀ p : Nat, (p : Int) = r.start → 1 ≤ p → f p = false
  rightEnd : ∀ r ∈ l, ∀ p : Nat, (p : Int) = r.stop + 2 → p ≤ n → f p = false
  sorted : l.Pairwise (fun a b => a.stop + 2 ≤ b.start)
  covered : ∀ p : Nat, 1 ≤ p → p ≤ n → f p = true →
    ∃ r ∈ l, r.start + 1 ≤ p ∧ (p : Int) ≤ r.stop + 1

/-- Following the specification's words: the positions `a, …, b` form a maximal run of
consecutive marker positions among `1, …, n`. -/
def IsMarkerRun (f : Nat → Bool) (n a b : Nat) : Prop :=
  1 ≤ a ∧ a ≤ b ∧ b ≤ n ∧ (∀ x, a ≤ x → x ≤ b → f x = true) ∧
    (a = 1 ∨ f (a - 1) = false) ∧ (b = n ∨ f (b + 1) = false)

/-- No position among `1, …, n` is a marker. -/
def NoMarker (f : Nat → Bool) (n : Nat) : Prop :=
  ∀ x, 1 ≤ x → x ≤ n → f x = false

/-- Position `a` is the first marker among `1, …, n`. -/
def IsFirstMarker (f : Nat → Bool) (n a : Nat) : Prop :=
  1 ≤ a ∧ a ≤ n ∧ f a = true ∧ ∀ x, 1 ≤ x → x < a → f x = false

/-- Position `b` is the last marker among `1, …, n`. -/
def IsLastMarker (f : Nat → Bool) (n b : Nat) : Prop :=
  1 ≤ b ∧ b ≤ n ∧ f b = true ∧ ∀ x, b < x → x ≤ n → f x = false

/-- A loop of `parseContentRegion` over the positions `1, …, n`. -/
def contentLoop (f : Nat → Bool) (n : Nat) : Option Int × Option Int :=
  (List.range' 1 n).foldl (fun s (x : Nat) => contentStep (f x) x s) (none, none)

/-- A loop of `calculatePadding` over the positions `1, …, n`. -/
def padLoop (f : Nat → Bool) (n : Nat) : PadState :=
  (List.range' 1 n).foldl (fun s (x : Nat) => padStep (f x) x s) ⟨0, 0, false⟩

/-- Following the specification's words (`isMarkerPixel(buffer, x, y)`): the pixel in
column `x` of row `y` is exactly black and fully opaque. -/
def isMarkerPixel (img : ImageData) (x y : Nat) : Bool :=
  isBlackPixel img.data (((y : Int) * (img.width : Int) + (x : Int)) * 4)

/-- Following the specification's words: `l` lists, in ascending order, exactly one region
`{start: a-1, end: b-1}` for each maximal run `[a, b]` of marker positions among
`1, …, n`, and a content position is inside a region iff its border pixel is a marker. -/
def RegionsAreRuns (f : Nat → Bool) (n : Nat) (l : List StretchRegion) : Prop :=
  (∀ r, r ∈ l ↔ ∃ a b : Nat, IsMarkerRun f n a b ∧ r = ⟨(a : Int) - 1, (b : Int) - 1⟩) ∧
    l.Pairwise (fun r1 r2 => r1.start < r2.start) ∧
    ∀ p : Nat, p + 1 ≤ n → (f (p + 1) = true ↔ ∃ r ∈ l, r.start ≤ p ∧ (p : Int) ≤ r.stop)

/-- An image one pixel wide and three high whose pixel `(0, 1)` is a marker. -/
def narrowImage : ImageData := ⟨1, 3, [0, 0, 0, 0, 0, 0, 0, 255, 0, 0, 0, 0]⟩

/-- Following the specification's words: `(lo, hi)` is the marker extent of an edge in
content space, the first and last marker offsets, or the full content extent `(0, full)`
when the edge has no marker. -/
def IsMarkerExtent (f : Nat → Bool) (n : Nat) (full lo hi : Int) : Prop :=
  (NoMarker f n ∧ lo = 0 ∧ hi = full) ∨
    ∃ a b : Nat, IsFirstMarker f n a ∧ IsLastMarker f n b ∧
      lo = (a : Int) - 1 ∧ hi = (b : Int) - 1

/-- The alpha byte of pixel `(x, y)` of a well-sized image (`0` outside the array). -/
def alphaAt (img : ImageData) (x y : Nat) : Nat :=
  img.data.getD ((y * img.width + x) * 4 + 3) 0

/-- Following the specification's words: the errors of the fixed sequence that are kept
for the given stretch-region lists and image. -/
def expectedErrors (doc : NinePatchInfo) : List String :=
  let img := doc.imageData
  (if doc.stretchRegionsX = [] then ["缺少水平拉伸区域标记（顶部边缘）"] else []) ++
  (if doc.stretchRegionsY = [] then ["缺少垂直拉伸区域标记（左侧边缘）"] else []) ++
  (if img.width < 3 ∨ img.height < 3 then ["图片尺寸太小，至少需要3x3像素"] else []) ++
  (if alphaAt img 0 0 ≠ 0 then ["左上角必须为透明像素"] else []) ++
  (if alphaAt img (img.width - 1) 0 ≠ 0 then ["右上角必须为透明像素"] else []) ++
  (if alphaAt img 0 (img.height - 1) ≠ 0 then ["左下角必须为透明像素"] else []) ++
  (if alphaAt img (img.width - 1) (img.height - 1) ≠ 0 then ["右下角必须为透明像素"] else [])

/-- The bytes of the `colors` array: entry `i` is `0xFF06070A` when `i = ⌊numColors / 2⌋` and
`0x00000001` otherwise. -/
def colorsOf (numColors : Nat) : List Nat :=
  (List.range numColors).flatMap
    (fun i => be32 (if i = numColors / 2 then 0xFF06070A else 0x00000001))

/-- The payload written by `createNpTcChunk`, in the quantities of the program. -/
def payloadBytes (info : NinePatchInfo) : List Nat :=
  let xDivs := divsOf info.stretchRegionsX
  let yDivs := divsOf info.stretchRegionsY
  let numColors := (xDivs.length / 2 + 1) * (yDivs.length / 2 + 1)
  [0, ((xDivs.length : Int) % 256).toNat, ((yDivs.length : Int) % 256).toNat,
      ((numColors : Int) % 256).toNat] ++
    be32 32 ++ be32 40 ++ be32 info.paddingBox.left ++ be32 info.paddingBox.right ++
    be32 info.paddingBox.top ++ be32 info.paddingBox.bottom ++ be32 48 ++
    xDivs.flatMap be32 ++ yDivs.flatMap be32 ++ colorsOf numColors

/-- Following the specification's words: the flattening of `(start, end + 1)` over the
regions in list order. -/
def flattenRegions (regions : List StretchRegion) : List Int :=
  regions.flatMap (fun r => [r.start, r.stop + 1])

/-- The data payload inside a chunk: the bytes after the 4-byte length and the 4 type
bytes, before the trailing 4 CRC bytes. -/
def chunkPayload (chunk : List Nat) : List Nat :=
  (chunk.drop 8).take (chunk.length - 12)

/-- Following the specification's words: the payload layout of §4.5 for a document with
`nx` horizontal and `ny` vertical stretch regions. -/
def expectedPayload (info : NinePatchInfo) : List Nat :=
  let nx := info.stretchRegionsX.length
  let ny := info.stretchRegionsY.length
  [0, 2 * nx, 2 * ny, (nx + 1) * (ny + 1)] ++ be32 32 ++ be32 40 ++
    be32 info.paddingBox.left ++ be32 info.paddingBox.right ++
    be32 info.paddingBox.top ++ be32 info.paddingBox.bottom ++ be32 48 ++
    (flattenRegions info.stretchRegionsX).flatMap be32 ++
    (flattenRegions info.stretchRegionsY).flatMap be32 ++
    colorsOf ((nx + 1) * (ny + 1))

/-- A decoder's read of a big-endian signed 32-bit integer at `offset`. -/
def decodeInt32 (bytes : List Nat) (offset : Nat) : Int :=
  let u := bytes.getD offset 0 * 16777216 + bytes.getD (offset + 1) 0 * 65536 +
    bytes.getD (offset + 2) 0 * 256 + bytes.getD (offset + 3) 0
  if u ≥ 2147483648 then (u : Int) - 4294967296 else (u : Int)

/-- A decoder's read of `count` consecutive signed 32-bit integers from `offset`. -/
def decodeDivs (payload : List Nat) (offset count : Nat) : List Int :=
  (List.range count).map (fun i => decodeInt32 payload (offset + 4 * i))

/-- Decoding the `xDivs` field: `numXDivs` (byte 1) entries from payload offset 32. -/
def decodeXDivs (payload : List Nat) : List Int :=
  decodeDivs payload 32 (payload.getD 1 0)

/-- Decoding the `yDivs` field: `numYDivs` (byte 2) entries after the `xDivs` field. -/
def decodeYDivs (payload : List Nat) : List Int :=
  decodeDivs payload (32 + 4 * payload.getD 1 0) (payload.getD 2 0)

/-- A value fits in a signed 32-bit integer. -/
@[reducible] def FitsInt32 (v : Int) : Prop := -2147483648 ≤ v ∧ v ≤ 2147483647

deriving instance DecidableEq for Except

/-- A 3×3 nine-patch source: transparent corners, markers at `(1, 0)` and `(0, 1)`. -/
def sampleImage : ImageData :=
  ⟨3, 3, [0, 0, 0, 0, 0, 0, 0, 255, 0, 0, 0, 0,
          0, 0, 0, 255, 9, 9, 9, 9, 0, 0, 0, 0,
          0, 0, 0, 0, 0, 0, 0, 0, 0, 0, 0, 0]⟩

/-- The document that the analysis of `sampleImage` produces. -/
def sampleDoc : NinePatchInfo :=
  { imageData := sampleImage
    stretchRegionsX := [⟨0, 0⟩]
    stretchRegionsY := [⟨0, 0⟩]
    contentRegion := ⟨0, 0, 0, 0⟩
    paddingBox := ⟨0, 0, 0, 0⟩
    isValid := true
    errors := [] }

/-- The chunk `createNpTcChunk(sampleDoc)`. -/
def sampleChunk : List Nat :=
  [0, 0, 0, 64, 110, 112, 84, 99, 0, 2, 2, 4, 0, 0, 0, 32, 0, 0, 0, 40,
   0, 0, 0, 0, 0, 0, 0, 0, 0, 0, 0, 0, 0, 0, 0, 0, 0, 0, 0, 48,
   0, 0, 0, 0, 0, 0, 0, 1, 0, 0, 0, 0, 0, 0, 0, 1,
   0, 0, 0, 1, 0, 0, 0, 1, 255, 6, 7, 10, 0, 0, 0, 1, 35, 129, 86, 210]

/-- A well-formed PNG: `IHDR`, a `tEXt` chunk with keyword `Title` and text `IDAT`, an
`IDAT` chunk and `IEND`, every CRC correct. The `IDAT` chunk starts at offset 55. -/
def pngWithText : List Nat :=
  [137, 80, 78, 71, 13, 10, 26, 10,
   0, 0, 0, 13, 73, 72, 68, 82, 0, 0, 0, 1, 0, 0, 0, 1, 8, 6, 0, 0, 0, 31, 21, 196, 137,
   0, 0, 0, 10, 116, 69, 88, 116, 84, 105, 116, 108, 101, 0, 73, 68, 65, 84, 158, 183, 133, 127,
   0, 0, 0, 11, 73, 68, 65, 84, 120, 156, 99, 96, 0, 2, 0, 0, 5, 0, 1, 122, 94, 171, 63,
   0, 0, 0, 0, 73, 69, 78, 68, 174, 66, 96, 130]

/-- The bytes `insertNpTcChunk(pngWithText, sampleDoc)` returns: `sampleChunk` sits at
offset 43, inside the data of the `tEXt` chunk. -/
def pngWithTextInserted : List Nat :=
  [137, 80, 78, 71, 13, 10, 26, 10,
   0, 0, 0, 13, 73, 72, 68, 82, 0, 0, 0, 1, 0, 0, 0, 1, 8, 6, 0, 0, 0, 31, 21, 196, 137,
   0, 0, 0, 10, 116, 69, 88, 116, 84, 105] ++ sampleChunk ++
  [116, 108, 101, 0, 73, 68, 65, 84, 158, 183, 133, 127,
   0, 0, 0, 11, 73, 68, 65, 84, 120, 156, 99, 96, 0, 2, 0, 0, 5, 0, 1, 122, 94, 171, 63,
   0, 0, 0, 0, 73, 69, 78, 68, 174, 66, 96, 130]

/-- A well-formed PNG without an `IDAT` chunk: `IHDR` and `IEND` only. -/
def pngNoIdat : List Nat :=
  [137, 80, 78, 71, 13, 10, 26, 10,
   0, 0, 0, 13, 73, 72, 68, 82, 0, 0, 0, 1, 0, 0, 0, 1, 8, 6, 0, 0, 0, 31, 21, 196, 137,
   0, 0, 0, 0, 73, 69, 78, 68, 174, 66, 96, 130]

/-- A well-formed PNG of one transparent pixel: `IHDR`, `IDAT`, `IEND`. -/
def tinyPng : List Nat :=
  [137, 80, 78, 71, 13, 10, 26, 10,
   0, 0, 0, 13, 73, 72, 68, 82, 0, 0, 0, 1, 0, 0, 0, 1, 8, 6, 0, 0, 0, 31, 21, 196, 137,
   0, 0, 0, 11, 73, 68, 65, 84, 120, 156, 99, 96, 0, 2, 0, 0, 5, 0, 1, 122, 94, 171, 63,
   0, 0, 0, 0, 73, 69, 78, 68, 174, 66, 96, 130]

/-- A 3×3 image of transparent pixels: no marker on any edge. -/
def blankImage : ImageData := ⟨3, 3, List.replicate 36 0⟩

/-- The document that the analysis of `blankImage` produces: both stretch-region lists
are empty, so it carries two errors and is not valid. -/
def blankDoc : NinePatchInfo :=
  { imageData := blankImage
    stretchRegionsX := []
    stretchRegionsY := []
    contentRegion := ⟨0, 0, 0, 0⟩
    paddingBox := ⟨0, 0, 0, 0⟩
    isValid := false
    errors := ["缺少水平拉伸区域标记（顶部边缘）", "缺少垂直拉伸区域标记（左侧边缘）"] }

/-- The chunk `createNpTcChunk(blankDoc)`. -/
def blankChunk : List Nat :=
  [0, 0, 0, 36, 110, 112, 84, 99, 0, 0, 0, 1, 0, 0, 0, 32, 0, 0, 0, 40,
   0, 0, 0, 0, 0, 0, 0, 0, 0, 0, 0, 0, 0, 0, 0, 0, 0, 0, 0, 48,
   255, 6, 7, 10, 59, 239, 69, 202]

/-- Following the specification's words: the four bytes `49 44 41 54` (`IDAT`) start at
index `i` of the array. -/
def idatBytesAt (pngData : List Nat) (i : Nat) : Prop :=
  pngData[i]? = some 0x49 ∧ pngData[i + 1]? = some 0x44 ∧
    pngData[i + 2]? = some 0x41 ∧ pngData[i + 3]? = some 0x54

/-- The bytes `insertNpTcChunk(tinyPng, blankDoc)` returns. -/
def tinyPngCompiled : List Nat :=
  [137, 80, 78, 71, 13, 10, 26, 10,
   0, 0, 0, 13, 73, 72, 68, 82, 0, 0, 0, 1, 0, 0, 0, 1, 8, 6, 0, 0, 0, 31, 21, 196, 137] ++
  blankChunk ++
  [0, 0, 0, 11, 73, 68, 65, 84, 120, 156, 99, 96, 0, 2, 0, 0, 5, 0, 1, 122, 94, 171, 63,
   0, 0, 0, 0, 73, 69, 78, 68, 174, 66, 96, 130]

/-- A 3×3 image with markers on all four edges: `(1, 0)`, `(0, 1)`, `(2, 1)`, `(1, 2)`. -/
def framedImage : ImageData :=
  ⟨3, 3, [0, 0, 0, 0, 0, 0, 0, 255, 0, 0, 0, 0,
          0, 0, 0, 255, 9, 9, 9, 9, 0, 0, 0, 255,
          0, 0, 0, 0, 0, 0, 0, 255, 0, 0, 0, 0]⟩

/-! ## The analysis pipeline (`parseSourceNinePatch`) -/

/-- The function `parseSourceNinePatch(image, canvas)`, from the pixel data that
`ctx.getImageData` returns for the drawn image: the decode of the image is the browser's. -/
def parseSourceNinePatch (imageData : ImageData) : NinePatchInfo :=
  let ninePatchInfo : NinePatchInfo :=
    { imageData := imageData
      stretchRegionsX := parseStretchRegions imageData "horizontal"
      stretchRegionsY := parseStretchRegions imageData "vertical"
      contentRegion := parseContentRegion imageData
      paddingBox := calculatePadding imageData
      isValid := false
      errors := [] }
  let ninePatchInfo := validateNinePatch ninePatchInfo
  { ninePatchInfo with isValid := decide (ninePatchInfo.errors.length = 0) }

/-! ## The nine-grid scaling engine (`previewRenderer.js`) -/

/-- The object literal `{ start, end, stretchable }` pushed by `getRegionBoundaries`;
`stop` stands for the field `end`. -/
structure Boundary where
  start : Int
  stop : Int
  stretchable : Bool
  deriving DecidableEq, Repr

/-- One iteration of the `forEach` of `getRegionBoundaries`: the state is the array
`boundaries` and `currentPos`. -/
def boundaryStep (s : List Boundary × Int) (region : StretchRegion) : List Boundary × Int :=
  let boundaries :=
    if s.2 < region.start then s.1 ++ [⟨s.2, region.start, false⟩] else s.1
  let boundaries := boundaries ++ [⟨region.start, region.stop + 1, true⟩]
  (boundaries, region.stop + 1)

/-- The function `getRegionBoundaries(stretchRegions, totalSize)`. -/
def getRegionBoundaries (stretchRegions : List StretchRegion) (totalSize : Int) :
    List Boundary :=
  let s := stretchRegions.foldl boundaryStep ([], 0)
  if s.2 < totalSize then s.1 ++ [⟨s.2, totalSize, false⟩] else s.1

/-- The first `forEach` of `calculateTargetSizes`: the pair `(staticSize, stretchableCount)`. -/
def countSizes (regions : List Boundary) : Int × Nat :=
  regions.foldl
    (fun (c : Int × Nat) region =>
      let regionSize := region.stop - region.start
      if region.stretchable then (c.1, c.2 + 1) else (c.1 + regionSize, c.2))
    (0, 0)

/-- Rounding of a rational to the nearest integer, a tie going to the even neighbour: the
rounding of IEEE-754 arithmetic in its default mode. -/
def roundHalfEven (x : ℚ) : Int :=
  let f := ⌊x⌋
  if x - f < 1 / 2 then f
  else if 1 / 2 < x - f then f + 1
  else if f % 2 = 0 then f else f + 1

/-- The double nearest to the rational `q`: the value an IEEE-754 binary64 operation with
the exact result `q` returns (round to nearest, ties to even). With
`2 ^ e ≤ |q| < 2 ^ (e + 1)` the doubles around `q` are the multiples of `2 ^ (e - 52)`
(53 significant bits), and `e` is held at `-1022` in the subnormal range. Overflow to
`Infinity` is left out: the quotient of a finite double by a count `≥ 1` does not
overflow. -/
def roundToDouble (q : ℚ) : ℚ :=
  if q = 0 then 0
  else
    let e := max (Int.log 2 |q|) (-1022)
    let ulp : ℚ := 2 ^ (e - 52)
    roundHalfEven (q / ulp) * ulp

/-- The JavaScript quotient `a / b` of two numbers that hold the integers `a` and `b`: the
exact quotient rounded to a double. -/
def float64Div (a : Int) (b : Nat) : ℚ := roundToDouble ((a : ℚ) / (b : ℚ))

/-- The function `calculateTargetSizes(regions, targetSize)` for an integer `targetSize`.
`staticSize` and `targetSize - staticSize` are sums and differences of integers; the
quotient `availableSpace / stretchableCount` leaves the integers and is the double
quotient `float64Div`; `Math.floor` is `⌊·⌋`. -/
def calculateTargetSizes (regions : List Boundary) (targetSize : Int) : List Int :=
  let staticSize := (countSizes regions).1
  let stretchableCount := (countSizes regions).2
  let availableSpace : Int := max 0 (targetSize - staticSize)
  let stretchableSize : ℚ :=
    if stretchableCount > 0 then float64Div availableSpace stretchableCount else 0
  regions.foldl
    (fun sizes region =>
      if region.stretchable then sizes ++ [max 1 ⌊stretchableSize⌋]
      else sizes ++ [region.stop - region.start])
    []

/-- The object literal pushed by `calculateNineGridRegions`. -/
structure GridRegion where
  sourceX : Int
  sourceY : Int
  sourceWidth : Int
  sourceHeight : Int
  targetX : Int
  targetY : Int
  targetWidth : Int
  targetHeight : Int
  deriving DecidableEq, Repr

/-- The inner loop `for (let col = 0; col < xRegions.length; col++)` of
`calculateNineGridRegions` for the row `row`: the state is `regions` and `targetX`. The
reads `xRegions[col]` and `xTargetSizes[col]` are inside their arrays. -/
def gridRow (xRegions yRegions : List Boundary) (xTargetSizes yTargetSizes : List Int)
    (row : Nat) (targetY : Int) (regions : List GridRegion) : List GridRegion × Int :=
  (List.range xRegions.length).foldl
    (fun (t : List GridRegion × Int) col =>
      (t.1 ++
        [{ sourceX := (xRegions.getD col ⟨0, 0, false⟩).start
           sourceY := (yRegions.getD row ⟨0, 0, false⟩).start
           sourceWidth := (xRegions.getD col ⟨0, 0, false⟩).stop -
             (xRegions.getD col ⟨0, 0, false⟩).start
           sourceHeight := (yRegions.getD row ⟨0, 0, false⟩).stop -
             (yRegions.getD row ⟨0, 0, false⟩).start
           targetX := t.2
           targetY := targetY
           targetWidth := xTargetSizes.getD col 0
           targetHeight := yTargetSizes.getD row 0 }],
        t.2 + xTargetSizes.getD col 0))
    (regions, 0)

/-- The function `calculateNineGridRegions(ninePatchInfo, sourceWidth, sourceHeight,
targetWidth, targetHeight)`. -/
def calculateNineGridRegions (ninePatchInfo : NinePatchInfo)
    (sourceWidth sourceHeight targetWidth targetHeight : Int) : List GridRegion :=
  let xRegions := getRegionBoundaries ninePatchInfo.stretchRegionsX sourceWidth
  let yRegions := getRegionBoundaries ninePatchInfo.stretchRegionsY sourceHeight
  let xTargetSizes := calculateTargetSizes xRegions targetWidth
  let yTargetSizes := calculateTargetSizes yRegions targetHeight
  ((List.range yRegions.length).foldl
    (fun (s : List GridRegion × Int) row =>
      ((gridRow xRegions yRegions xTargetSizes yTargetSizes row s.2 s.1).1,
        s.2 + yTargetSizes.getD row 0))
    ([], 0)).1

/-! ## PNG buffer parsing (`pngParser.js`) -/

/-- The constant `PNG_SIGNATURE`. -/
def PNG_SIGNATURE : List Nat := [137, 80, 78, 71, 13, 10, 26, 10]

/-- The call `view.getUint8(offset)`: a `RangeError` outside the buffer. -/
def getUint8 (view : List Nat) (offset : Nat) : Except String Nat :=
  if offset + 1 > view.length then throw "RangeError" else pure (view.getD offset 0)

/-- The loop of `validateSignature` over the remaining indices. -/
def validateSignatureLoop (view : List Nat) : List Nat → Except String Bool
  | [] => pure true
  | i :: rest => do
    let byte ← getUint8 view i
    if byte ≠ PNG_SIGNATURE.getD i 0 then pure false
    else validateSignatureLoop view rest

/-- The function `PNGParser.validateSignature(view)`. -/
def validateSignature (view : List Nat) : Except String Bool :=
  validateSignatureLoop view (List.range PNG_SIGNATURE.length)

/-- The object returned by `parseIHDR`. -/
structure ImageInfo where
  width : Nat
  height : Nat
  bitDepth : Nat
  colorType : Nat
  compressionMethod : Nat
  filterMethod : Nat
  interlaceMethod : Nat
  deriving DecidableEq, Repr

/-- The function `PNGParser.parseIHDR(data)`: the reads of a `DataView` over `data`. -/
def parseIHDR (data : List Nat) : Except String ImageInfo := do
  let width ← getUint32 data 0
  let height ← getUint32 data 4
  let bitDepth ← getUint8 data 8
  let colorType ← getUint8 data 9
  let compressionMethod ← getUint8 data 10
  let filterMethod ← getUint8 data 11
  let interlaceMethod ← getUint8 data 12
  pure { width := width, height := height, bitDepth := bitDepth, colorType := colorType,
         compressionMethod := compressionMethod, filterMethod := filterMethod,
         interlaceMethod := interlaceMethod }

/-- The object returned by `parseBuffer`; `ninePatchChunk` is `none` for `undefined`. -/
structure ParseResult where
  imageInfo : ImageInfo
  chunks : List PNGChunk
  ninePatchChunk : Option PNGChunk
  isNinePatch : Bool
  buffer : List Nat
  deriving DecidableEq, Repr

/-- The function `PNGParser.parseBuffer(buffer)`. -/
def parseBuffer (buffer : List Nat) : Except String ParseResult := do
  let view := buffer
  let valid ← validateSignature view
  if !valid then throw "无效的PNG文件格式"
  let chunks ← parseChunks view
  let ihdr := chunks.find? (fun chunk => chunk.type_ = "IHDR")
  let npTc := chunks.find? (fun chunk => chunk.type_ = "npTc")
  match ihdr with
  | none => throw "缺少IHDR chunk"
  | some ihdr =>
    let imageInfo ← parseIHDR ihdr.data
    pure { imageInfo := imageInfo, chunks := chunks, ninePatchChunk := npTc,
           isNinePatch := npTc.isSome, buffer := buffer }

/-! ## Specification-side definitions and proof scaffolding, continued -/

/-- The four bytes of pixel `(x, y)`, as far as the array holds them. -/
def rgbaAt (img : ImageData) (x y : Nat) : List Nat :=
  (img.data.drop ((y * img.width + x) * 4)).take 4

/-- The array holds pixel `(x, y)` and its alpha byte is `0`. -/
def hasAlphaZero (img : ImageData) (x y : Nat) : Prop :=
  img.data[(y * img.width + x) * 4 + 3]? = some 0

/-- The segments that `getRegionBoundaries` emits from the cursor `cur` on: a recursive
reading of its loop and epilogue. -/
def boundariesFrom (total : Int) : Int → List StretchRegion → List Boundary
  | cur, [] => if cur < total then [⟨cur, total, false⟩] else []
  | cur, r :: t =>
    (if cur < r.start then [⟨cur, r.start, false⟩] else []) ++
      ⟨r.start, r.stop + 1, true⟩ :: boundariesFrom total (r.stop + 1) t

/-- Following the specification's words: the stretch regions lie within `[0, totalSize)`
with `start ≤ end`, are sorted ascending and do not overlap. -/
def ValidRegions (totalSize : Int) (regions : List StretchRegion) : Prop :=
  (∀ r ∈ regions, 0 ≤ r.start ∧ r.start ≤ r.stop ∧ r.stop < totalSize) ∧
    regions.Pairwise (fun a b => a.start < b.start ∧ a.stop < b.start)

/-- Following the specification's words: the segments partition `[0, totalSize)` with no
gaps and no overlaps. -/
structure IsPartition (totalSize : Int) (segs : List Boundary) : Prop where
  nonempty : segs ≠ []
  first : ∀ s ∈ segs.head?, s.start = 0
  positive : ∀ s ∈ segs, s.start < s.stop
  contiguous : segs.Chain' (fun a b => a.stop = b.start)
  last : ∀ s ∈ segs.getLast?, s.stop = totalSize
  total : (segs.map (fun s => s.stop - s.start)).sum = totalSize

/-- The hypotheses of the induction over the regions from the cursor `cur` on. -/
def RegionsFrom (cur total : Int) (regions : List StretchRegion) : Prop :=
  (∀ r ∈ regions, cur ≤ r.start ∧ r.start ≤ r.stop ∧ r.stop < total) ∧
    regions.Pairwise (fun a b => a.stop < b.start)

/-- Two adjacent stretch regions, `[0, 1]` and `[2, 3]`. -/
def adjacentRegions : List StretchRegion := [⟨0, 1⟩, ⟨2, 3⟩]

/-- Following the specification's words: no two consecutive segments have the same
stretchable flag. -/
def Alternates (segs : List Boundary) : Prop :=
  segs.Chain' (fun a b => a.stretchable ≠ b.stretchable)

/-- Two separated stretch regions, `[0, 0]` and `[2, 2]`. -/
def separatedRegions : List StretchRegion := [⟨0, 0⟩, ⟨2, 2⟩]

/-- Following the specification's words: `staticSize`, the sum of the lengths of the static
segments. -/
def staticSizeOf (segs : List Boundary) : Int :=
  ((segs.filter (fun s => !s.stretchable)).map (fun s => s.stop - s.start)).sum

/-- Following the specification's words: `stretchableCount`, the number of stretchable
segments. -/
def stretchableCountOf (segs : List Boundary) : Nat :=
  (segs.filter (fun s => s.stretchable)).length

/-- Following the specification's words: the size a segment receives, its own length when
static and `max(1, floor(max(0, targetSize - staticSize) / stretchableCount))` when
stretchable. -/
def targetSizeOf (segs : List Boundary) (targetSize : Int) (s : Boundary) : Int :=
  if s.stretchable then
    max 1 ⌊(((max 0 (targetSize - staticSizeOf segs) : Int) : ℚ)) /
      ((stretchableCountOf segs : Nat) : ℚ)⌋
  else s.stop - s.start

/-- The size `Math.max(1, Math.floor(stretchableSize))` that `calculateTargetSizes` pushes
for each stretchable segment. -/
def stretchedSizeOf (segs : List Boundary) (targetSize : Int) : Int :=
  max 1 ⌊(if stretchableCountOf segs > 0 then
    float64Div (max 0 (targetSize - staticSizeOf segs)) (stretchableCountOf segs) else 0 : ℚ)⌋

/-- Three stretchable segments `[0, 1)`, `[1, 2)`, `[2, 3)` and no static one. -/
def threeStretchable : List Boundary := [⟨0, 1, true⟩, ⟨1, 2, true⟩, ⟨2, 3, true⟩]

/-- Following the specification's words: the sum of `sizes[c]` for `c < k`. -/
def prefixSum (sizes : List Int) (k : Nat) : Int :=
  ((List.range k).map (fun c => sizes.getD c 0)).sum

/-- Following the specification's words: the cell of `(row, col)`, its source rectangle
from the two axis segments and its target rectangle from the distributed sizes. -/
def gridCell (xRegions yRegions : List Boundary) (xTargetSizes yTargetSizes : List Int)
    (row col : Nat) : GridRegion :=
  { sourceX := (xRegions.getD col ⟨0, 0, false⟩).start
    sourceY := (yRegions.getD row ⟨0, 0, false⟩).start
    sourceWidth := (xRegions.getD col ⟨0, 0, false⟩).stop -
      (xRegions.getD col ⟨0, 0, false⟩).start
    sourceHeight := (yRegions.getD row ⟨0, 0, false⟩).stop -
      (yRegions.getD row ⟨0, 0, false⟩).start
    targetX := prefixSum xTargetSizes col
    targetY := prefixSum yTargetSizes row
    targetWidth := xTargetSizes.getD col 0
    targetHeight := yTargetSizes.getD row 0 }

/-! ## PNG serialisation and the bit-by-bit CRC (`pngParser.js`) -/

/-- The UTF-8 bytes of one code point, as `TextEncoder.encode` emits them. -/
def utf8EncodeChar (v : Nat) : List Nat :=
  if v ≤ 0x7F then [v]
  else if v ≤ 0x7FF then [0xC0 + v / 64, 0x80 + v % 64]
  else if v ≤ 0xFFFF then [0xE0 + v / 4096, 0x80 + v / 64 % 64, 0x80 + v % 64]
  else [0xF0 + v / 262144, 0x80 + v / 4096 % 64, 0x80 + v / 64 % 64, 0x80 + v % 64]

/-- The call `new TextEncoder().encode(type)`: the UTF-8 bytes of the string. -/
def textEncode (s : String) : List Nat :=
  s.toList.flatMap (fun c => utf8EncodeChar c.toNat)

/-- The first `forEach` of `createPNG`: the four pushes for one chunk. -/
def pushChunk (buffers : List (List Nat)) (chunk : PNGChunk) : List (List Nat) :=
  buffers ++ [be32 chunk.length] ++ [textEncode chunk.type_] ++ [chunk.data] ++
    [be32 chunk.crc]

/-- The function `PNGParser.createPNG(imageData, chunks)`; `imageData` is not used by the
source either. -/
def createPNG (_imageData : List Nat) (chunks : List PNGChunk) : Except String (List Nat) := do
  let buffers : List (List Nat) := [PNG_SIGNATURE]
  let buffers := chunks.foldl pushChunk buffers
  let totalLength := buffers.foldl (fun sum buf => sum + buf.length) 0
  let result := List.replicate totalLength 0
  let (result, _) ← buffers.foldlM
    (fun (st : List Nat × Nat) buf => do
      let result ← arraySet st.1 buf st.2
      pure (result, st.2 + buf.length))
    (result, 0)
  pure result

/-- The function `PNGParser.calculateCRC32(data)`, the bit-by-bit implementation. A 32-bit
register is the natural number of its bit pattern. -/
def PNGParser.calculateCRC32 (data : List Nat) : Nat :=
  let crc := data.foldl
    (fun crc byte =>
      (List.range 8).foldl
        (fun crc _ => (crc >>> 1) ^^^ (if crc &&& 1 ≠ 0 then 0xEDB88320 else 0))
        (crc ^^^ byte))
    0xFFFFFFFF
  crc ^^^ 0xFFFFFFFF

/-! ## Specification-side definitions and proof scaffolding: container, CRC, chunk counts -/

/-- The big-endian unsigned 32-bit value of four bytes. -/
def u32be (b0 b1 b2 b3 : Nat) : Nat :=
  b0 * 16777216 + b1 * 65536 + b2 * 256 + b3

/-- Following the specification's words: the encoding of a chunk in the container, its
4-byte big-endian length, its type bytes, its data bytes and its 4-byte big-endian CRC. -/
def encodeChunk (c : PNGChunk) : List Nat :=
  be32 c.length ++ c.type_.toList.map Char.toNat ++ c.data ++ be32 c.crc

/-- Following the specification's words: a chunk whose encoding holds 4 type bytes and
`length` data bytes, the length and the CRC being 32-bit values. -/
@[reducible] def WellFormedChunk (c : PNGChunk) : Prop :=
  c.length = c.data.length ∧ c.length < 4294967296 ∧ c.type_.length = 4 ∧ c.crc < 4294967296

/-- Following the specification's words: the chunks up to and including the first one of
type `IEND`, or all of them when none is `IEND`. -/
def upToIEND : List PNGChunk → List PNGChunk
  | [] => []
  | c :: cs => if c.type_ = "IEND" then [c] else c :: upToIEND cs

/-- Following the specification's words: the data length that the header at the start of
`fragment` declares, its first four bytes read big-endian. -/
def declaredLength (fragment : List Nat) : Nat :=
  u32be (fragment.getD 0 0) (fragment.getD 1 0) (fragment.getD 2 0) (fragment.getD 3 0)

/-- A container of two well-formed chunks, `tEXt` and `IEND`, for the examples. -/
def sampleChunks : List PNGChunk :=
  [⟨1, "tEXt", [65], 5⟩, ⟨0, "IEND", [], 2923585666⟩]

/-- The chunks of `sampleChunks` followed by a further `tEXt` chunk. -/
def sampleChunksExtended : List PNGChunk :=
  sampleChunks ++ [⟨1, "tEXt", [66], 6⟩]

/-- The start of an `IDAT` chunk that declares 5 data bytes and holds 2 of them. -/
def truncatedFragment : List Nat := [0, 0, 0, 5, 73, 68, 65, 84, 1, 2]

/-- The bytes that `createPNG` pushes for one chunk: the stored length, the encoded type,
the data and the stored CRC. -/
def serializeChunk (c : PNGChunk) : List Nat :=
  be32 c.length ++ textEncode c.type_ ++ c.data ++ be32 c.crc

/-- Following the specification's words: the type code is made of ASCII characters. -/
@[reducible] def AsciiType (c : PNGChunk) : Prop :=
  ∀ ch ∈ c.type_.toList, ch.toNat < 128

/-- An `IEND` chunk whose stored CRC is 0, not the CRC-32 of its type bytes. -/
def iendZeroCrc : PNGChunk := ⟨0, "IEND", [], 0⟩

/-- The same `IEND` chunk with the stored CRC 1. -/
def iendOneCrc : PNGChunk := ⟨0, "IEND", [], 1⟩

/-- Following the specification's words: one shift of the CRC register for the reflected
polynomial `poly`: shift right by one bit and, when the bit shifted out is 1, add `poly`. -/
def crcShift (poly reg : Nat) : Nat :=
  if reg % 2 = 1 then (reg / 2) ^^^ poly else reg / 2

/-- Following the specification's words: the CRC with reflected polynomial `poly`, initial
register `init` and final XOR `xorOut`: every byte is added to the low bits of the register,
which is then shifted eight times. -/
def crcReference (poly init xorOut : Nat) (data : List Nat) : Nat :=
  (data.foldl (fun reg byte => (crcShift poly)^[8] (reg ^^^ byte)) init) ^^^ xorOut

/-- Following the specification's words: `numColors = (nx + 1) * (ny + 1)` for a document
with `nx` horizontal and `ny` vertical stretch regions. -/
def numColorsOf (info : NinePatchInfo) : Nat :=
  (info.stretchRegionsX.length + 1) * (info.stretchRegionsY.length + 1)

/-- The offset of the `colors` array inside the chunk: the 8 bytes of length and type, the
32 bytes of the fixed payload fields, and 4 bytes for each of the `2 * nx` entries of
`xDivs` and the `2 * ny` entries of `yDivs`. -/
def colorsOffset (info : NinePatchInfo) : Nat :=
  8 + 32 + 4 * (2 * info.stretchRegionsX.length) + 4 * (2 * info.stretchRegionsY.length)

/-- Byte `i` of `wideImage`: the alpha byte `255` of pixel `(x, 0)` for every odd `x`, the
alpha byte `255` of pixel `(0, 1)`, and `0` everywhere else. -/
def wideImageByte (i : Nat) : Nat :=
  if (i < 1020 ∧ i % 8 = 7) ∨ i = 1023 then 255 else 0

/-- A 255×3 image: the top row has an opaque black marker at every odd `x`, the left column
one at `y = 1`; every other pixel is transparent. It has 127 horizontal stretch regions and
one vertical stretch region. -/
def wideImage : ImageData := ⟨255, 3, (List.range 3060).map wideImageByte⟩

/-- The regions `{start: 2i, end: 2i}` for `i < n`. -/
def alternatingRegions (n : Nat) : List StretchRegion :=
  (List.range n).map (fun (i : Nat) => StretchRegion.mk (2 * (i : Int)) (2 * (i : Int)))

/-- The chunks of `pngNoIdat`: `IHDR` and `IEND`. -/
def pngNoIdatChunks : List PNGChunk :=
  [⟨13, "IHDR", [0, 0, 0, 1, 0, 0, 0, 1, 8, 6, 0, 0, 0], 521520265⟩,
   ⟨0, "IEND", [], 2923585666⟩]

/-- The chunks of `tinyPngCompiled`: `IHDR`, `npTc`, `IDAT` and `IEND`. -/
def tinyPngCompiledChunks : List PNGChunk :=
  [⟨13, "IHDR", [0, 0, 0, 1, 0, 0, 0, 1, 8, 6, 0, 0, 0], 521520265⟩,
   ⟨36, "npTc", [0, 0, 0, 1, 0, 0, 0, 32, 0, 0, 0, 40, 0, 0, 0, 0, 0, 0, 0, 0, 0, 0, 0, 0,
     0, 0, 0, 0, 0, 0, 0, 48, 255, 6, 7, 10], 1005536714⟩,
   ⟨11, "IDAT", [120, 156, 99, 96, 0, 2, 0, 0, 5, 0, 1], 2053024575⟩,
   ⟨0, "IEND", [], 2923585666⟩]

/-! ## Border stripping for the preview (`previewRenderer.js`) -/

/-- The function `PreviewRenderer.getCleanImageData(ninePatchInfo)`. -/
def getCleanImageData (ninePatchInfo : NinePatchInfo) : Except String ImageData := do
  let width : Int := ninePatchInfo.imageData.width
  let height : Int := ninePatchInfo.imageData.height
  let data := ninePatchInfo.imageData.data
  let cleanWidth := width - 2
  let cleanHeight := height - 2
  let cleanImageData ← createImageData cleanWidth cleanHeight
  let cleanData := (List.range cleanHeight.toNat).foldl
    (fun cleanData (y : Nat) =>
      (List.range cleanWidth.toNat).foldl
        (fun cleanData (x : Nat) =>
          let oldIndex := (((y : Int) + 1) * width + ((x : Int) + 1)) * 4
          let newIndex := ((y : Int) * cleanWidth + (x : Int)) * 4
          let cleanData := storeClamped cleanData newIndex (readByte data oldIndex)
          let cleanData := storeClamped cleanData (newIndex + 1) (readByte data (oldIndex + 1))
          let cleanData := storeClamped cleanData (newIndex + 2) (readByte data (oldIndex + 2))
          storeClamped cleanData (newIndex + 3) (readByte data (oldIndex + 3)))
        cleanData)
    cleanImageData.data
  pure { cleanImageData with data := cleanData }

/-! ## Specification-side definitions and proof scaffolding: bounds, margins, stripping -/

/-- Following the specification's words: `⌈(n - 8) / 12⌉` for a buffer of `n` bytes, and 0
when `n < 8`. -/
def iterationBound (n : Nat) : Nat := (n - 8 + 11) / 12

/-- A decoder's read of the `numColors` field: byte 3 of the payload. -/
def decodeNumColors (payload : List Nat) : Nat := payload.getD 3 0

/-- A 4×4 nine-patch source with stretch markers only: markers at `(1, 0)` and `(0, 1)`,
no marker on the bottom row or the right column, every other pixel transparent. -/
def stretchOnlyImage : ImageData :=
  ⟨4, 4, [0, 0, 0, 0, 0, 0, 0, 255] ++ List.replicate 8 0 ++
    ([0, 0, 0, 255] ++ List.replicate 12 0) ++ List.replicate 32 0⟩

/-- The quantity `chunkDataSize` of `createNpTcChunk`. -/
def chunkDataSizeOf (info : NinePatchInfo) : Nat :=
  4 + 8 + 16 + 4 + (divsOf info.stretchRegionsX).length * 4 +
    (divsOf info.stretchRegionsY).length * 4 +
    (((divsOf info.stretchRegionsX).length / 2 + 1) *
      ((divsOf info.stretchRegionsY).length / 2 + 1)) * 4

/-- The buffer `chunk` of `createNpTcChunk` when the `xDivs` loop starts, at offset 40: the
length field, the type, the four count bytes and the seven fixed 32-bit fields are written,
the remaining `12 + chunkDataSize - 40` bytes are still zero. -/
def headerBuffer (info : NinePatchInfo) : List Nat :=
  be32 (chunkDataSizeOf info : Nat) ++ [0x6E, 0x70, 0x54, 0x63] ++
    [0, (((divsOf info.stretchRegionsX).length : Int) % 256).toNat,
      (((divsOf info.stretchRegionsY).length : Int) % 256).toNat,
      (((((divsOf info.stretchRegionsX).length / 2 + 1) *
        ((divsOf info.stretchRegionsY).length / 2 + 1) : Nat) : Int) % 256).toNat] ++
    be32 32 ++ be32 40 ++ be32 info.paddingBox.left ++ be32 info.paddingBox.right ++
    be32 info.paddingBox.top ++ be32 info.paddingBox.bottom ++ be32 48 ++
    List.replicate (12 + chunkDataSizeOf info - 40) 0

/-- The first `k` iterations of the `colors` loop of `createNpTcChunk`; the whole loop
`writeColors numColors` is `writeColorsUpTo numColors numColors`. -/
def writeColorsUpTo (numColors k : Nat) (st : List Nat × Nat) :
    Except String (List Nat × Nat) :=
  (List.range k).foldlM
    (fun (st : List Nat × Nat) i =>
      if st.2 + 4 > st.1.length then throw "colors写入越界"
      else do
        let colorValue : Int := if i = numColors / 2 then 0xFF06070A else 0x00000001
        let chunk ← setUint32 st.1 st.2 colorValue
        pure (chunk, st.2 + 4))
    st

/-- Byte `i` of the stripped image: channel `i % 4` of the input pixel `(x + 1, y + 1)`,
where `(x, y)` is pixel `i / 4` of the `(width - 2)`-wide output in row-major order. -/
def strippedByte (img : ImageData) (i : Nat) : Nat :=
  img.data.getD
    (((i / 4 / (img.width - 2) + 1) * img.width + (i / 4 % (img.width - 2) + 1)) * 4 + i % 4) 0

/-- The pixel bytes of the stripped image, `4 * (width - 2) * (height - 2)` of them. -/
def strippedData (img : ImageData) : List Nat :=
  (List.range (4 * (img.width - 2) * (img.height - 2))).map (strippedByte img)

/-! ## Theorems -/

theorem scanLoop_zero (f : Nat → Bool) : scanLoop f 0 = ⟨[], none⟩ := rfl

theorem scanLoop_succ (f : Nat → Bool) (n : Nat) :
    scanLoop f (n + 1) = scanStep (f (n + 1)) (n + 1) (scanLoop f n) := by
  unfold scanLoop
  rw [List.range'_concat, List.foldl_append]
  simp [Nat.add_comm]

theorem parseStretchRegions_horizontal (img : ImageData) :
    parseStretchRegions img "horizontal" =
      closeScan (scanLoop (fun x => isBlackPixel img.data ((x : Int) * 4)) (img.width - 2))
        ((img.width : Int) - 3) := by
  simp [parseStretchRegions, closeScan, scanLoop]

theorem parseStretchRegions_vertical (img : ImageData) :
    parseStretchRegions img "vertical" =
      closeScan
        (scanLoop (fun y => isBlackPixel img.data ((y : Int) * (img.width : Int) * 4))
          (img.height - 2))
        ((img.height : Int) - 3) := by
  simp [parseStretchRegions, closeScan, scanLoop]

theorem scanInv_zero (f : Nat → Bool) : ScanInv f 0 ⟨[], none⟩ := by
  constructor <;> simp
  intro p h1 h2; omega

theorem scanInv_step (f : Nat → Bool) (k : Nat) (s : ScanState) (h : ScanInv f k s) :
    ScanInv f (k + 1) (scanStep (f (k + 1)) (k + 1) s) := by
  obtain ⟨regions, cur⟩ := s
  obtain ⟨hb, hm, hl, hr, hs, hcb, hcm, hcl, hca, hcn, hcov⟩ := h
  simp only at hb hm hl hr hs hcb hcm hcl hca hcn hcov
  cases cur with
  | none =>
    cases hf : f (k + 1) with
    | false =>
      simp only [scanStep, Bool.false_eq_true, if_false]
      refine ⟨fun r hr0 => ?_, hm, hl, hr, hs, ?_, ?_, ?_, ?_, ?_, ?_⟩
      · have := hb r hr0; omega
      · intro st h0; simp at h0
      · intro st h0; simp at h0
      · intro st h0; simp at h0
      · intro st h0; simp at h0
      · intro _ p hp _; subst hp; exact hf
      · intro p h1 h2 h3
        have hne : p ≠ k + 1 := by rintro rfl; rw [hf] at h3; simp at h3
        rcases hcov p h1 (by omega) h3 with h4 | ⟨st, h4, _⟩
        · exact Or.inl h4
        · simp at h4
    | true =>
      simp only [scanStep, if_true]
      refine ⟨fun r hr0 => ?_, hm, hl, hr, hs, ?_, ?_, ?_, ?_, ?_, ?_⟩
      · have := hb r hr0; omega
      · intro st h0; simp only [Option.some.injEq] at h0; subst h0; push_cast; omega
      · intro st h0 p h1 h2
        simp only [Option.some.injEq] at h0; subst h0
        have : p = k + 1 := by push_cast at h1; omega
        subst this; exact hf
      · intro st h0 p h1 h2
        simp only [Option.some.injEq] at h0; subst h0
        exact hcn rfl p (by push_cast at h1; omega) h2
      · intro st h0 r hr0
        simp only [Option.some.injEq] at h0; subst h0
        have := hb r hr0; push_cast; omega
      · intro h0; simp at h0
      · intro p h1 h2 h3
        by_cases hp : p = k + 1
        · exact Or.inr ⟨_, rfl, by subst hp; push_cast; omega⟩
        · rcases hcov p h1 (by omega) h3 with h4 | ⟨st, h4, _⟩
          · exact Or.inl h4
          · simp at h4
  | some st =>
    have hst := hcb st rfl
    cases hf : f (k + 1) with
    | false =>
      simp only [scanStep, Bool.false_eq_true, if_false]
      refine ⟨?_, ?_, ?_, ?_, ?_, ?_, ?_, ?_, ?_, ?_, ?_⟩
      · intro r hr0
        rcases List.mem_append.1 hr0 with h0 | h0
        · have := hb r h0; omega
        · simp only [List.mem_singleton] at h0; subst h0
          simp only; push_cast; omega
      · intro r hr0 p h1 h2
        rcases List.mem_append.1 hr0 with h0 | h0
        · exact hm r h0 p h1 h2
        · simp only [List.mem_singleton] at h0; subst h0
          simp only at h1 h2
          exact hcm st rfl p h1 (by push_cast at h2; omega)
      · intro r hr0 p h1 h2
        rcases List.mem_append.1 hr0 with h0 | h0
        · exact hl r h0 p h1 h2
        · simp only [List.mem_singleton] at h0; subst h0
          exact hcl st rfl p h1 h2
      · intro r hr0 p h1
        rcases List.mem_append.1 hr0 with h0 | h0
        · exact hr r h0 p h1
        · simp only [List.mem_singleton] at h0; subst h0
          simp only at h1
          have : p = k + 1 := by push_cast at h1; omega
          subst this; exact hf
      · rw [List.pairwise_append]
        refine ⟨hs, List.pairwise_singleton _ _, ?_⟩
        intro a ha b hb0
        simp only [List.mem_singleton] at hb0; subst hb0
        exact hca st rfl a ha
      · intro st0 h0; simp at h0
      · intro st0 h0; simp at h0
      · intro st0 h0; simp at h0
      · intro st0 h0; simp at h0
      · intro _ p hp _; subst hp; exact hf
      · intro p h1 h2 h3
        have hne : p ≠ k + 1 := by rintro rfl; rw [hf] at h3; simp at h3
        rcases hcov p h1 (by omega) h3 with ⟨r, h4, h5⟩ | ⟨st0, h4, h5⟩
        · exact Or.inl ⟨r, List.mem_append_left _ h4, h5⟩
        · simp only [Option.some.injEq] at h4; subst h4
          refine Or.inl ⟨⟨st, ((k + 1 : Nat) : Int) - 2⟩, by simp, h5, ?_⟩
          simp only; push_cast; omega
    | true =>
      simp only [scanStep, if_true]
      refine ⟨fun r hr0 => ?_, hm, hl, hr, hs, ?_, ?_, hcl, hca, ?_, ?_⟩
      · have := hb r hr0; omega
      · intro st0 h0; have := hcb st0 h0; push_cast; omega
      · intro st0 h0 p h1 h2
        by_cases hp : p = k + 1
        · subst hp; exact hf
        · exact hcm st0 h0 p h1 (by omega)
      · intro h0; simp at h0
      · intro p h1 h2 h3
        by_cases hp : p = k + 1
        · refine Or.inr ⟨st, rfl, ?_⟩
          subst hp; push_cast; omega
        · exact hcov p h1 (by omega) h3

theorem scanInv_loop (f : Nat → Bool) (n : Nat) : ScanInv f n (scanLoop f n) := by
  induction n with
  | zero => exact scanInv_zero f
  | succ k ih => rw [scanLoop_succ]; exact scanInv_step f k _ ih

theorem scanFinal_close (f : Nat → Bool) (n : Nat) (last : Int)
    (hlast : 1 ≤ n → last = (n : Int) - 1) :
    ScanFinal f n (closeScan (scanLoop f n) last) := by
  have h := scanInv_loop f n
  generalize scanLoop f n = s at h
  obtain ⟨regions, cur⟩ := s
  obtain ⟨hb, hm, hl, hr, hs, hcb, hcm, hcl, hca, hcn, hcov⟩ := h
  simp only at hb hm hl hr hs hcb hcm hcl hca hcn hcov
  cases cur with
  | none =>
    simp only [closeScan]
    refine ⟨fun r hr0 => ?_, hm, hl, fun r hr0 p hp _ => hr r hr0 p hp, hs, ?_⟩
    · have := hb r hr0; omega
    · intro p h1 h2 h3
      rcases hcov p h1 h2 h3 with h4 | ⟨st, h4, _⟩
      · exact h4
      · simp at h4
  | some st =>
    have hst := hcb st rfl
    have hn : last = (n : Int) - 1 := hlast (by omega)
    subst hn
    simp only [closeScan]
    refine ⟨?_, ?_, ?_, ?_, ?_, ?_⟩
    · intro r hr0
      rcases List.mem_append.1 hr0 with h0 | h0
      · have := hb r h0; omega
      · simp only [List.mem_singleton] at h0; subst h0
        simp only; omega
    · intro r hr0 p h1 h2
      rcases List.mem_append.1 hr0 with h0 | h0
      · exact hm r h0 p h1 h2
      · simp only [List.mem_singleton] at h0; subst h0
        simp only at h1 h2
        exact hcm st rfl p h1 (by omega)
    · intro r hr0 p h1 h2
      rcases List.mem_append.1 hr0 with h0 | h0
      · exact hl r h0 p h1 h2
      · simp only [List.mem_singleton] at h0; subst h0
        exact hcl st rfl p h1 h2
    · intro r hr0 p h1 h2
      rcases List.mem_append.1 hr0 with h0 | h0
      · exact hr r h0 p h1
      · simp only [List.mem_singleton] at h0; subst h0
        simp only at h1
        omega
    · rw [List.pairwise_append]
      refine ⟨hs, List.pairwise_singleton _ _, ?_⟩
      intro a ha b hb0
      simp only [List.mem_singleton] at hb0; subst hb0
      exact hca st rfl a ha
    · intro p h1 h2 h3
      rcases hcov p h1 h2 h3 with ⟨r, h4, h5⟩ | ⟨st0, h4, h5⟩
      · exact ⟨r, List.mem_append_left _ h4, h5⟩
      · simp only [Option.some.injEq] at h4; subst h4
        refine ⟨⟨st, (n : Int) - 1⟩, by simp, h5, ?_⟩
        simp only; omega

theorem scanFinal_mem_iff_run {f : Nat → Bool} {n : Nat} {l : List StretchRegion}
    (h : ScanFinal f n l) (r : StretchRegion) :
    r ∈ l ↔ ∃ a b : Nat, IsMarkerRun f n a b ∧ r = ⟨(a : Int) - 1, (b : Int) - 1⟩ := by
  constructor
  · intro hr
    obtain ⟨hb1, hb2, hb3⟩ := h.bounds r hr
    refine ⟨(r.start + 1).toNat, (r.stop + 1).toNat, ⟨by omega, by omega, by omega, ?_, ?_, ?_⟩, ?_⟩
    · intro x hx1 hx2
      exact h.marked r hr x (by omega) (by omega)
    · by_cases h0 : r.start = 0
      · left; omega
      · right
        exact h.leftEnd r hr _ (by omega) (by omega)
    · by_cases h0 : r.stop + 1 = n
      · left; omega
      · right
        exact h.rightEnd r hr _ (by omega) (by omega)
    · obtain ⟨s, e⟩ := r
      simp only at hb1 hb2 hb3
      simp only [StretchRegion.mk.injEq]
      omega
  · rintro ⟨a, b, ⟨ha1, hab, hbn, hrun, hleft, hright⟩, rfl⟩
    obtain ⟨r, hr, hr1, hr2⟩ := h.covered a ha1 (by omega) (hrun a le_rfl hab)
    obtain ⟨hb1, hb2, hb3⟩ := h.bounds r hr
    have hs : r.start = (a : Int) - 1 := by
      by_contra hne
      have hlt : r.start + 1 < a := by omega
      rcases hleft with h1 | h1
      · omega
      · have := h.marked r hr (a - 1) (by omega) (by omega)
        rw [h1] at this; simp at this
    have he : r.stop = (b : Int) - 1 := by
      by_contra hne
      rcases lt_or_gt_of_ne hne with hlt | hgt
      · have h2 := h.rightEnd r hr (r.stop + 2).toNat (by omega) (by omega)
        have h3 := hrun (r.stop + 2).toNat (by omega) (by omega)
        rw [h2] at h3; simp at h3
      · rcases hright with h1 | h1
        · omega
        · have := h.marked r hr (b + 1) (by omega) (by push_cast; omega)
          rw [h1] at this; simp at this
    obtain ⟨s, e⟩ := r
    simp only at hs he
    subst hs; subst he
    exact hr

theorem scanFinal_covered_iff {f : Nat → Bool} {n : Nat} {l : List StretchRegion}
    (h : ScanFinal f n l) (p : Nat) (hp : p + 1 ≤ n) :
    f (p + 1) = true ↔ ∃ r ∈ l, r.start ≤ p ∧ (p : Int) ≤ r.stop := by
  constructor
  · intro hf
    obtain ⟨r, hr, h1, h2⟩ := h.covered (p + 1) (by omega) hp hf
    exact ⟨r, hr, by push_cast at h1; omega, by push_cast at h2; omega⟩
  · rintro ⟨r, hr, h1, h2⟩
    exact h.marked r hr (p + 1) (by push_cast; omega) (by push_cast; omega)

theorem contentLoop_succ (f : Nat → Bool) (n : Nat) :
    contentLoop f (n + 1) = contentStep (f (n + 1)) (n + 1) (contentLoop f n) := by
  unfold contentLoop
  rw [List.range'_concat, List.foldl_append]
  simp [Nat.add_comm]

theorem padLoop_succ (f : Nat → Bool) (n : Nat) :
    padLoop f (n + 1) = padStep (f (n + 1)) (n + 1) (padLoop f n) := by
  unfold padLoop
  rw [List.range'_concat, List.foldl_append]
  simp [Nat.add_comm]

theorem noMarker_step {f : Nat → Bool} {k : Nat} (h : NoMarker f k) (hf : f (k + 1) = false) :
    NoMarker f (k + 1) := by
  intro x h1 h2
  by_cases hx : x = k + 1
  · subst hx; exact hf
  · exact h x h1 (by omega)

theorem isFirstMarker_step {f : Nat → Bool} {k a : Nat} (h : IsFirstMarker f k a) :
    IsFirstMarker f (k + 1) a :=
  ⟨h.1, by have := h.2.1; omega, h.2.2.1, h.2.2.2⟩

theorem isFirstMarker_new {f : Nat → Bool} {k : Nat} (h : NoMarker f k)
    (hf : f (k + 1) = true) : IsFirstMarker f (k + 1) (k + 1) :=
  ⟨by omega, le_rfl, hf, fun x h1 h2 => h x h1 (by omega)⟩

theorem isLastMarker_keep {f : Nat → Bool} {k b : Nat} (h : IsLastMarker f k b)
    (hf : f (k + 1) = false) : IsLastMarker f (k + 1) b := by
  refine ⟨h.1, by have := h.2.1; omega, h.2.2.1, fun x h1 h2 => ?_⟩
  by_cases hx : x = k + 1
  · subst hx; exact hf
  · exact h.2.2.2 x h1 (by omega)

theorem isLastMarker_new {f : Nat → Bool} {k : Nat} (hf : f (k + 1) = true) :
    IsLastMarker f (k + 1) (k + 1) :=
  ⟨by omega, le_rfl, hf, fun x h1 h2 => by omega⟩

theorem isFirstMarker_unique {f : Nat → Bool} {n a a' : Nat} (h : IsFirstMarker f n a)
    (h' : IsFirstMarker f n a') : a = a' := by
  rcases Nat.lt_trichotomy a a' with hlt | heq | hgt
  · have := h'.2.2.2 a h.1 hlt; rw [h.2.2.1] at this; simp at this
  · exact heq
  · have := h.2.2.2 a' h'.1 hgt; rw [h'.2.2.1] at this; simp at this

theorem isLastMarker_unique {f : Nat → Bool} {n b b' : Nat} (h : IsLastMarker f n b)
    (h' : IsLastMarker f n b') : b = b' := by
  rcases Nat.lt_trichotomy b b' with hlt | heq | hgt
  · have := h.2.2.2 b' hlt h'.2.1; rw [h'.2.2.1] at this; simp at this
  · exact heq
  · have := h'.2.2.2 b hgt h.2.1; rw [h.2.2.1] at this; simp at this

theorem first_le_last {f : Nat → Bool} {n a b : Nat} (h : IsFirstMarker f n a)
    (h' : IsLastMarker f n b) : a ≤ b := by
  by_contra hlt
  have := h.2.2.2 b h'.1 (by omega); rw [h'.2.2.1] at this; simp at this

theorem exists_first_last_or_none (f : Nat → Bool) (n : Nat) :
    NoMarker f n ∨ ∃ a b, IsFirstMarker f n a ∧ IsLastMarker f n b := by
  induction n with
  | zero => left; intro x h1 h2; omega
  | succ k ih =>
    cases hf : f (k + 1) with
    | false =>
      rcases ih with h | ⟨a, b, ha, hb⟩
      · exact Or.inl (noMarker_step h hf)
      · exact Or.inr ⟨a, b, isFirstMarker_step ha, isLastMarker_keep hb hf⟩
    | true =>
      rcases ih with h | ⟨a, b, ha, _⟩
      · exact Or.inr ⟨_, _, isFirstMarker_new h hf, isLastMarker_new hf⟩
      · exact Or.inr ⟨a, _, isFirstMarker_step ha, isLastMarker_new hf⟩

theorem contentLoop_spec (f : Nat → Bool) (n : Nat) :
    (NoMarker f n ∧ contentLoop f n = (none, none)) ∨
      ∃ a b : Nat, IsFirstMarker f n a ∧ IsLastMarker f n b ∧
        contentLoop f n = (some ((a : Int) - 1), some ((b : Int) - 1)) := by
  induction n with
  | zero => left; exact ⟨fun x h1 h2 => by omega, rfl⟩
  | succ k ih =>
    rw [contentLoop_succ]
    cases hf : f (k + 1) with
    | false =>
      simp only [contentStep, Bool.false_eq_true, if_false]
      rcases ih with ⟨h, hs⟩ | ⟨a, b, ha, hb, hs⟩
      · exact Or.inl ⟨noMarker_step h hf, hs⟩
      · exact Or.inr ⟨a, b, isFirstMarker_step ha, isLastMarker_keep hb hf, hs⟩
    | true =>
      simp only [contentStep, if_true]
      rcases ih with ⟨h, hs⟩ | ⟨a, b, ha, _, hs⟩
      · refine Or.inr ⟨_, _, isFirstMarker_new h hf, isLastMarker_new hf, ?_⟩
        rw [hs]; simp
      · refine Or.inr ⟨a, _, isFirstMarker_step ha, isLastMarker_new hf, ?_⟩
        rw [hs]; simp

theorem padLoop_spec (f : Nat → Bool) (n : Nat) :
    (NoMarker f n ∧ padLoop f n = ⟨0, 0, false⟩) ∨
      ∃ a b : Nat, IsFirstMarker f n a ∧ IsLastMarker f n b ∧
        padLoop f n = ⟨(a : Int) - 1, (b : Int) - 1, true⟩ := by
  induction n with
  | zero => left; exact ⟨fun x h1 h2 => by omega, rfl⟩
  | succ k ih =>
    rw [padLoop_succ]
    cases hf : f (k + 1) with
    | false =>
      simp only [padStep, Bool.false_and, Bool.false_eq_true, if_false]
      rcases ih with ⟨h, hs⟩ | ⟨a, b, ha, hb, hs⟩
      · exact Or.inl ⟨noMarker_step h hf, hs⟩
      · exact Or.inr ⟨a, b, isFirstMarker_step ha, isLastMarker_keep hb hf, hs⟩
    | true =>
      rcases ih with ⟨h, hs⟩ | ⟨a, b, ha, _, hs⟩
      · refine Or.inr ⟨_, _, isFirstMarker_new h hf, isLastMarker_new hf, ?_⟩
        rw [hs]; simp [padStep]
      · refine Or.inr ⟨a, _, isFirstMarker_step ha, isLastMarker_new hf, ?_⟩
        rw [hs]; simp [padStep]

theorem scanFinal_regionsAreRuns {f : Nat → Bool} {n : Nat} {l : List StretchRegion}
    (h : ScanFinal f n l) : RegionsAreRuns f n l := by
  refine ⟨scanFinal_mem_iff_run h, ?_, scanFinal_covered_iff h⟩
  have hs := h.sorted
  have hb := h.bounds
  clear h
  induction l with
  | nil => exact List.Pairwise.nil
  | cons a t ih =>
    rw [List.pairwise_cons] at hs ⊢
    refine ⟨fun b hbt => ?_, ih hs.2 (fun r hr => hb r (List.mem_cons_of_mem _ hr))⟩
    have h1 := hs.1 b hbt
    have h2 := hb a (List.mem_cons_self _ _)
    omega

theorem horizontal_scanFinal (img : ImageData) :
    ScanFinal (fun x => isMarkerPixel img x 0) (img.width - 2)
      (parseStretchRegions img "horizontal") := by
  rw [parseStretchRegions_horizontal]
  have hf : (fun x : Nat => isMarkerPixel img x 0) =
      fun x : Nat => isBlackPixel img.data ((x : Int) * 4) := by
    funext x; simp [isMarkerPixel]
  rw [hf]
  exact scanFinal_close _ _ _ (by omega)

theorem vertical_scanFinal (img : ImageData) :
    ScanFinal (fun y => isMarkerPixel img 0 y) (img.height - 2)
      (parseStretchRegions img "vertical") := by
  rw [parseStretchRegions_vertical]
  have hf : (fun y : Nat => isMarkerPixel img 0 y) =
      fun y : Nat => isBlackPixel img.data ((y : Int) * (img.width : Int) * 4) := by
    funext y; simp [isMarkerPixel]
  rw [hf]
  exact scanFinal_close _ _ _ (by omega)

/-- C5. For an image with `data.length = 4 * width * height`: when `width ≥ 3`, the list
returned by `parseStretchRegions(img, 'horizontal')` holds, in ascending order, exactly the
regions `{start: a-1, end: b-1}` of the maximal runs `[a, b]` of marker pixels among the
top-row pixels `(x, 0)`, `1 ≤ x ≤ width-2`, and a content position `p ≤ width-3` is inside
a returned region iff pixel `(p+1, 0)` is a marker; when `height ≥ 3` the same holds for
`'vertical'` with the left-column pixels `(0, y)`, `1 ≤ y ≤ height-2`. -/
theorem parseStretchRegions_maximal_runs (img : ImageData)
    (_hlen : img.data.length = 4 * img.width * img.height) :
    (3 ≤ img.width →
      RegionsAreRuns (fun x => isMarkerPixel img x 0) (img.width - 2)
        (parseStretchRegions img "horizontal")) ∧
    (3 ≤ img.height →
      RegionsAreRuns (fun y => isMarkerPixel img 0 y) (img.height - 2)
        (parseStretchRegions img "vertical")) :=
  ⟨fun _ => scanFinal_regionsAreRuns (horizontal_scanFinal img),
    fun _ => scanFinal_regionsAreRuns (vertical_scanFinal img)⟩

/-- C6. For every image and either axis, every region returned by `parseStretchRegions`
has `0 ≤ start ≤ end ≤ dimension - 3`, and the list is sorted ascending by `start` with no
two regions overlapping (an earlier region ends before a later one starts). -/
theorem parseStretchRegions_invariant (img : ImageData) :
    ((∀ r ∈ parseStretchRegions img "horizontal",
        0 ≤ r.start ∧ r.start ≤ r.stop ∧ r.stop ≤ (img.width : Int) - 3) ∧
      (parseStretchRegions img "horizontal").Pairwise
        (fun r1 r2 => r1.start < r2.start ∧ r1.stop < r2.start)) ∧
    ((∀ r ∈ parseStretchRegions img "vertical",
        0 ≤ r.start ∧ r.start ≤ r.stop ∧ r.stop ≤ (img.height : Int) - 3) ∧
      (parseStretchRegions img "vertical").Pairwise
        (fun r1 r2 => r1.start < r2.start ∧ r1.stop < r2.start)) := by
  have key : ∀ (f : Nat → Bool) (n : Nat) (l : List StretchRegion), ScanFinal f n l →
      l.Pairwise (fun r1 r2 => r1.start < r2.start ∧ r1.stop < r2.start) := by
    intro f n l h
    have hs := h.sorted
    have hb := h.bounds
    clear h
    induction l with
    | nil => exact List.Pairwise.nil
    | cons a t ih =>
      rw [List.pairwise_cons] at hs ⊢
      refine ⟨fun b hbt => ?_, ih hs.2 (fun r hr => hb r (List.mem_cons_of_mem _ hr))⟩
      have h1 := hs.1 b hbt
      have h2 := hb a (List.mem_cons_self _ _)
      omega
  refine ⟨⟨fun r hr => ?_, key _ _ _ (horizontal_scanFinal img)⟩,
    ⟨fun r hr => ?_, key _ _ _ (vertical_scanFinal img)⟩⟩
  · have := (horizontal_scanFinal img).bounds r hr; omega
  · have := (vertical_scanFinal img).bounds r hr; omega

/-- C7, counterexample. The image `narrowImage` has `width < 3`, yet
`parseStretchRegions(img, 'vertical')` returns the region `{start: 0, end: 0}`. -/
theorem parseStretchRegions_narrow_nonempty :
    narrowImage.data.length = 4 * narrowImage.width * narrowImage.height ∧
      (narrowImage.width < 3 ∨ narrowImage.height < 3) ∧
      parseStretchRegions narrowImage "vertical" = [⟨0, 0⟩] ∧
      ¬ (parseStretchRegions narrowImage "horizontal" = [] ∧
        parseStretchRegions narrowImage "vertical" = []) := by
  decide

/-- C7, amended. Each axis is empty when its own dimension is below 3: `width < 3` gives
an empty horizontal list and `height < 3` gives an empty vertical list. -/
theorem parseStretchRegions_small_axis (img : ImageData) :
    (img.width < 3 → parseStretchRegions img "horizontal" = []) ∧
    (img.height < 3 → parseStretchRegions img "vertical" = []) := by
  constructor
  · intro h
    have h0 : img.width - 2 = 0 := by omega
    rw [parseStretchRegions_horizontal, h0]; rfl
  · intro h
    have h0 : img.height - 2 = 0 := by omega
    rw [parseStretchRegions_vertical, h0]; rfl

theorem parseContentRegion_eq (img : ImageData) (hw : 1 ≤ img.width) (hh : 1 ≤ img.height) :
    parseContentRegion img =
      let r := contentLoop (fun y => isMarkerPixel img (img.width - 1) y) (img.height - 2)
      let b := contentLoop (fun x => isMarkerPixel img x (img.height - 1)) (img.width - 2)
      ⟨b.1.getD 0, r.1.getD 0, b.2.getD ((img.width : Int) - 3),
        r.2.getD ((img.height : Int) - 3)⟩ := by
  have h1 : (fun y : Nat => isMarkerPixel img (img.width - 1) y) =
      fun y : Nat =>
        isBlackPixel img.data (((y : Int) * img.width + ((img.width : Int) - 1)) * 4) := by
    funext y; simp only [isMarkerPixel]; congr 2; omega
  have h2 : (fun x : Nat => isMarkerPixel img x (img.height - 1)) =
      fun x : Nat =>
        isBlackPixel img.data ((((img.height : Int) - 1) * img.width + x) * 4) := by
    funext x; simp only [isMarkerPixel]
    have : ((img.height - 1 : Nat) : Int) = (img.height : Int) - 1 := by omega
    rw [this]
  rw [h1, h2]
  simp only [parseContentRegion, contentLoop]
  congr 1 <;> split <;> simp_all

theorem calculatePadding_eq (img : ImageData) (hw : 1 ≤ img.width) (hh : 1 ≤ img.height) :
    calculatePadding img =
      let r := padLoop (fun y => isMarkerPixel img (img.width - 1) y) (img.height - 2)
      let b := padLoop (fun x => isMarkerPixel img x (img.height - 1)) (img.width - 2)
      ⟨b.first, r.first, ((img.width : Int) - 3) - b.last,
        ((img.height : Int) - 3) - r.last⟩ := by
  have h1 : (fun y : Nat => isMarkerPixel img (img.width - 1) y) =
      fun y : Nat =>
        isBlackPixel img.data (((y : Int) * img.width + ((img.width : Int) - 1)) * 4) := by
    funext y; simp only [isMarkerPixel]; congr 2; omega
  have h2 : (fun x : Nat => isMarkerPixel img x (img.height - 1)) =
      fun x : Nat =>
        isBlackPixel img.data ((((img.height : Int) - 1) * img.width + x) * 4) := by
    funext x; simp only [isMarkerPixel]
    have : ((img.height - 1 : Nat) : Int) = (img.height : Int) - 1 := by omega
    rw [this]
  rw [h1, h2]
  simp only [calculatePadding, padLoop]

theorem contentLoop_extent (f : Nat → Bool) (n : Nat) (full : Int) :
    IsMarkerExtent f n full ((contentLoop f n).1.getD 0) ((contentLoop f n).2.getD full) := by
  rcases contentLoop_spec f n with ⟨h, hs⟩ | ⟨a, b, ha, hb, hs⟩
  · left; rw [hs]; exact ⟨h, rfl, rfl⟩
  · right; rw [hs]; exact ⟨a, b, ha, hb, rfl, rfl⟩

theorem isMarkerExtent_le {f : Nat → Bool} {n : Nat} {full lo hi : Int}
    (h : IsMarkerExtent f n full lo hi) (hfull : 0 ≤ full) : lo ≤ hi := by
  rcases h with ⟨_, h1, h2⟩ | ⟨a, b, ha, hb, h1, h2⟩
  · omega
  · have := first_le_last ha hb; omega

/-- C8. For an image with `width ≥ 3` and `height ≥ 3`, `parseContentRegion` returns as
`(left, right)` the first and last marker offsets (pixel coordinate minus 1) of the bottom
row among `x = 1..width-2`, or `(0, width-3)` when that row has no marker, and as
`(top, bottom)` the same for the right column among `y = 1..height-2`, defaulting to
`(0, height-3)`; in every case `left ≤ right` and `top ≤ bottom`. -/
theorem parseContentRegion_extent (img : ImageData) (hw : 3 ≤ img.width)
    (hh : 3 ≤ img.height) :
    IsMarkerExtent (fun x => isMarkerPixel img x (img.height - 1)) (img.width - 2)
        ((img.width : Int) - 3) (parseContentRegion img).left (parseContentRegion img).right ∧
      IsMarkerExtent (fun y => isMarkerPixel img (img.width - 1) y) (img.height - 2)
        ((img.height : Int) - 3) (parseContentRegion img).top
        (parseContentRegion img).bottom ∧
      (parseContentRegion img).left ≤ (parseContentRegion img).right ∧
      (parseContentRegion img).top ≤ (parseContentRegion img).bottom := by
  rw [parseContentRegion_eq img (by omega) (by omega)]
  simp only
  have hb := contentLoop_extent (fun x => isMarkerPixel img x (img.height - 1))
    (img.width - 2) ((img.width : Int) - 3)
  have hr := contentLoop_extent (fun y => isMarkerPixel img (img.width - 1) y)
    (img.height - 2) ((img.height : Int) - 3)
  exact ⟨hb, hr, isMarkerExtent_le hb (by omega), isMarkerExtent_le hr (by omega)⟩

/-- C9. For an image with `width ≥ 3` and `height ≥ 3` whose bottom row has a marker among
`x = 1..width-2` and whose right column has a marker among `y = 1..height-2`: with `a`, `b`
the first and last marker positions of the bottom row and `c`, `d` those of the right
column, `calculatePadding` returns `left = a-1`, `right = (width-3) - (b-1)`, `top = c-1`,
`bottom = (height-3) - (d-1)`; all four are `≥ 0`, `left + right ≤ width-3` and
`top + bottom ≤ height-3`. -/
theorem calculatePadding_margins (img : ImageData) (hw : 3 ≤ img.width) (hh : 3 ≤ img.height)
    (hbottom : ∃ x, 1 ≤ x ∧ x ≤ img.width - 2 ∧ isMarkerPixel img x (img.height - 1) = true)
    (hright : ∃ y, 1 ≤ y ∧ y ≤ img.height - 2 ∧ isMarkerPixel img (img.width - 1) y = true) :
    ∃ a b c d : Nat,
      IsFirstMarker (fun x => isMarkerPixel img x (img.height - 1)) (img.width - 2) a ∧
      IsLastMarker (fun x => isMarkerPixel img x (img.height - 1)) (img.width - 2) b ∧
      IsFirstMarker (fun y => isMarkerPixel img (img.width - 1) y) (img.height - 2) c ∧
      IsLastMarker (fun y => isMarkerPixel img (img.width - 1) y) (img.height - 2) d ∧
      calculatePadding img =
        { left := (a : Int) - 1
          top := (c : Int) - 1
          right := ((img.width : Int) - 3) - ((b : Int) - 1)
          bottom := ((img.height : Int) - 3) - ((d : Int) - 1) } ∧
      0 ≤ (calculatePadding img).left ∧ 0 ≤ (calculatePadding img).right ∧
      0 ≤ (calculatePadding img).top ∧ 0 ≤ (calculatePadding img).bottom ∧
      (calculatePadding img).left + (calculatePadding img).right ≤ (img.width : Int) - 3 ∧
      (calculatePadding img).top + (calculatePadding img).bottom ≤ (img.height : Int) - 3 := by
  obtain ⟨x, hx1, hx2, hx3⟩ := hbottom
  obtain ⟨y, hy1, hy2, hy3⟩ := hright
  rcases padLoop_spec (fun x => isMarkerPixel img x (img.height - 1)) (img.width - 2) with
    ⟨h, _⟩ | ⟨a, b, ha, hb, hsb⟩
  · have := h x hx1 hx2; simp only at this; rw [hx3] at this; simp at this
  rcases padLoop_spec (fun y => isMarkerPixel img (img.width - 1) y) (img.height - 2) with
    ⟨h, _⟩ | ⟨c, d, hc, hd, hsr⟩
  · have := h y hy1 hy2; simp only at this; rw [hy3] at this; simp at this
  have hab := first_le_last ha hb
  have hcd := first_le_last hc hd
  have ha1 := ha.1
  have hb2 := hb.2.1
  have hc1 := hc.1
  have hd2 := hd.2.1
  refine ⟨a, b, c, d, ha, hb, hc, hd, ?_⟩
  rw [calculatePadding_eq img (by omega) (by omega)]
  simp only [hsb, hsr]
  refine ⟨trivial, ?_, ?_, ?_, ?_, ?_, ?_⟩ <;> omega

theorem push_if {α : Type} (c : Prop) [Decidable c] (l : List α) (x : α) :
    (if c then l ++ [x] else l) = l ++ (if c then [x] else []) := by
  split <;> simp

theorem readByte_alpha (img : ImageData)
    (hlen : img.data.length = 4 * img.width * img.height) (x y : Nat) (hx : x < img.width)
    (hy : y < img.height) (i : Int) (hi : i = ((y : Int) * img.width + x) * 4 + 3) :
    readByte img.data i = some (alphaAt img x y) := by
  have hidx : (y * img.width + x) * 4 + 3 < img.data.length := by
    rw [hlen]
    have h1 : y * img.width + x < img.height * img.width := by
      calc y * img.width + x < y * img.width + img.width := by omega
        _ = (y + 1) * img.width := by ring
        _ ≤ img.height * img.width := Nat.mul_le_mul_right _ hy
    have h2 : 4 * img.width * img.height = img.height * img.width * 4 := by ring
    omega
  have hnat : i = (((y * img.width + x) * 4 + 3 : Nat) : Int) := by
    rw [hi]; push_cast; ring
  subst hnat
  unfold readByte alphaAt
  rw [if_neg (by omega)]
  simp only [Int.toNat_ofNat]
  rw [List.getD_eq_getElem?_getD, List.getElem?_eq_getElem hidx]
  rfl

theorem validateBorderPixels_eq (img : ImageData) (errors : List String) :
    validateBorderPixels img errors =
      errors ++
      (if readByte img.data (((0 : Int) * img.width + 0) * 4 + 3) ≠ some 0
        then ["左上角必须为透明像素"] else []) ++
      (if readByte img.data (((0 : Int) * img.width + ((img.width : Int) - 1)) * 4 + 3) ≠ some 0
        then ["右上角必须为透明像素"] else []) ++
      (if readByte img.data ((((img.height : Int) - 1) * img.width + 0) * 4 + 3) ≠ some 0
        then ["左下角必须为透明像素"] else []) ++
      (if readByte img.data
          ((((img.height : Int) - 1) * img.width + ((img.width : Int) - 1)) * 4 + 3) ≠ some 0
        then ["右下角必须为透明像素"] else []) := by
  have e1 : "左上" ++ "角必须为透明像素" = "左上角必须为透明像素" := by decide
  have e2 : "右上" ++ "角必须为透明像素" = "右上角必须为透明像素" := by decide
  have e3 : "左下" ++ "角必须为透明像素" = "左下角必须为透明像素" := by decide
  have e4 : "右下" ++ "角必须为透明像素" = "右下角必须为透明像素" := by decide
  simp only [validateBorderPixels, List.zip_cons_cons, List.zip_nil_right, List.foldl_cons,
    List.foldl_nil, push_if, e1, e2, e3, e4]

/-- C10. For a document whose image has `data.length = 4 * width * height` and
`width, height ≥ 1`, the errors list set by `validateNinePatch` is exactly the sub-list of
the fixed sequence (missing horizontal stretch, missing vertical stretch, image too small,
top-left, top-right, bottom-left, bottom-right corner) that keeps the first iff
`stretchRegionsX` is empty, the second iff `stretchRegionsY` is empty, the third iff
`width < 3` or `height < 3`, and each corner error iff the alpha of that corner pixel is
not 0; all rules are evaluated and the order is fixed. -/
theorem validateNinePatch_errors (doc : NinePatchInfo)
    (hlen : doc.imageData.data.length = 4 * doc.imageData.width * doc.imageData.height)
    (hw : 1 ≤ doc.imageData.width) (hh : 1 ≤ doc.imageData.height) :
    (validateNinePatch doc).errors = expectedErrors doc := by
  have a1 := readByte_alpha doc.imageData hlen 0 0 (by omega) (by omega)
    (((0 : Int) * doc.imageData.width + 0) * 4 + 3) (by push_cast; ring)
  have a2 := readByte_alpha doc.imageData hlen (doc.imageData.width - 1) 0 (by omega) (by omega)
    (((0 : Int) * doc.imageData.width + ((doc.imageData.width : Int) - 1)) * 4 + 3)
    (by have : ((doc.imageData.width - 1 : Nat) : Int) = (doc.imageData.width : Int) - 1 := by
          omega
        rw [this]; push_cast; ring)
  have a3 := readByte_alpha doc.imageData hlen 0 (doc.imageData.height - 1) (by omega)
    (by omega) ((((doc.imageData.height : Int) - 1) * doc.imageData.width + 0) * 4 + 3)
    (by have : ((doc.imageData.height - 1 : Nat) : Int) = (doc.imageData.height : Int) - 1 := by
          omega
        rw [this]; push_cast; ring)
  have a4 := readByte_alpha doc.imageData hlen (doc.imageData.width - 1)
    (doc.imageData.height - 1) (by omega) (by omega)
    ((((doc.imageData.height : Int) - 1) * doc.imageData.width +
      ((doc.imageData.width : Int) - 1)) * 4 + 3)
    (by have h1 : ((doc.imageData.height - 1 : Nat) : Int) =
          (doc.imageData.height : Int) - 1 := by omega
        have h2 : ((doc.imageData.width - 1 : Nat) : Int) =
          (doc.imageData.width : Int) - 1 := by omega
        rw [h1, h2])
  simp only [validateNinePatch, validateBorderPixels_eq, a1, a2, a3, a4, expectedErrors,
    List.length_eq_zero, List.nil_append, push_if, ne_eq, Option.some.injEq,
    List.append_assoc]
  split <;> simp only [List.append_assoc, List.append_nil, List.nil_append]

theorem be32_length (v : Int) : (be32 v).length = 4 := rfl

theorem except_ok_bind {ε α β : Type} (a : α) (f : α → Except ε β) :
    (Except.ok a >>= f) = f a := rfl

theorem set_zeros (pre : List Nat) (n off x : Nat) (ho : off = pre.length) (hn : 1 ≤ n) :
    (pre ++ List.replicate n 0).set off x = (pre ++ [x]) ++ List.replicate (n - 1) 0 := by
  subst ho
  obtain ⟨m, rfl⟩ : ∃ m, n = m + 1 := ⟨n - 1, by omega⟩
  simp [List.replicate_succ]

theorem setUint8_zeros (pre : List Nat) (n off : Nat) (v : Int) (ho : off = pre.length)
    (hn : 1 ≤ n) :
    setUint8 (pre ++ List.replicate n 0) off v =
      .ok ((pre ++ [(v % 256).toNat]) ++ List.replicate (n - 1) 0) := by
  unfold setUint8
  rw [if_neg (by simp; omega), set_zeros pre n off _ ho hn]
  rfl

theorem setUint32_zeros (pre : List Nat) (n off : Nat) (v : Int) (ho : off = pre.length)
    (hn : 4 ≤ n) :
    setUint32 (pre ++ List.replicate n 0) off v =
      .ok ((pre ++ be32 v) ++ List.replicate (n - 4) 0) := by
  unfold setUint32
  rw [if_neg (by simp; omega)]
  simp only
  rw [set_zeros pre n off _ ho (by omega),
    set_zeros _ _ _ _ (by simp; omega) (by omega),
    set_zeros _ _ _ _ (by simp; omega) (by omega),
    set_zeros _ _ _ _ (by simp; omega) (by omega)]
  have h4 : n - 1 - 1 - 1 - 1 = n - 4 := by omega
  rw [h4]
  simp [be32, pure, Except.pure]

theorem setInt32_zeros (pre : List Nat) (n off : Nat) (v : Int) (ho : off = pre.length)
    (hn : 4 ≤ n) :
    setInt32 (pre ++ List.replicate n 0) off v =
      .ok ((pre ++ be32 v) ++ List.replicate (n - 4) 0) :=
  setUint32_zeros pre n off v ho hn

theorem writeDivs_zeros (label : String) (divs : List Int) (pre : List Nat) (n off : Nat)
    (ho : off = pre.length) (hn : 4 * divs.length ≤ n) :
    writeDivs label divs (pre ++ List.replicate n 0, off) =
      .ok ((pre ++ divs.flatMap be32) ++ List.replicate (n - 4 * divs.length) 0,
        off + 4 * divs.length) := by
  induction divs generalizing pre n off with
  | nil => simp [writeDivs, pure, Except.pure]
  | cons d t ih =>
    simp only [List.length_cons] at hn
    unfold writeDivs at ih ⊢
    rw [List.foldlM_cons]
    simp only
    rw [if_neg (by simp; omega), setInt32_zeros pre n off d ho (by omega)]
    simp only [except_ok_bind, bind_assoc, pure_bind]
    rw [ih (pre ++ be32 d) (n - 4) (off + 4) (by simp [be32_length]; omega) (by omega)]
    have e1 : n - 4 - 4 * t.length = n - 4 * (t.length + 1) := by omega
    have e2 : off + 4 + 4 * t.length = off + 4 * (t.length + 1) := by omega
    simp only [List.flatMap_cons, List.append_assoc, List.length_cons, e1, e2]

theorem writeColors_list (numColors : Nat) (is : List Nat) (pre : List Nat) (n off : Nat)
    (ho : off = pre.length) (hn : 4 * is.length ≤ n) :
    List.foldlM
      (fun (st : List Nat × Nat) i =>
        if st.2 + 4 > st.1.length then (throw "colors写入越界" : Except String (List Nat × Nat))
        else do
          let colorValue : Int := if i = numColors / 2 then 0xFF06070A else 0x00000001
          let chunk ← setUint32 st.1 st.2 colorValue
          pure (chunk, st.2 + 4))
      (pre ++ List.replicate n 0, off) is =
      .ok ((pre ++ is.flatMap
          (fun i => be32 (if i = numColors / 2 then 0xFF06070A else 0x00000001))) ++
        List.replicate (n - 4 * is.length) 0, off + 4 * is.length) := by
  induction is generalizing pre n off with
  | nil => simp [pure, Except.pure]
  | cons d t ih =>
    simp only [List.length_cons] at hn
    rw [List.foldlM_cons]
    simp only
    rw [if_neg (by simp; omega), setUint32_zeros pre n off _ ho (by omega)]
    simp only [except_ok_bind, bind_assoc, pure_bind]
    rw [ih (pre ++ be32 _) (n - 4) (off + 4) (by simp [be32_length]; omega) (by omega)]
    have e1 : n - 4 - 4 * t.length = n - 4 * (t.length + 1) := by omega
    have e2 : off + 4 + 4 * t.length = off + 4 * (t.length + 1) := by omega
    simp only [List.flatMap_cons, List.append_assoc, List.length_cons, e1, e2]

theorem writeColors_zeros (numColors : Nat) (pre : List Nat) (n off : Nat)
    (ho : off = pre.length) (hn : 4 * numColors ≤ n) :
    writeColors numColors (pre ++ List.replicate n 0, off) =
      .ok ((pre ++ colorsOf numColors) ++ List.replicate (n - 4 * numColors) 0,
        off + 4 * numColors) := by
  have := writeColors_list numColors (List.range numColors) pre n off ho
    (by simpa using hn)
  simpa [writeColors, colorsOf] using this

theorem flatMap_be32_length (divs : List Int) : (divs.flatMap be32).length = 4 * divs.length := by
  induction divs with
  | nil => rfl
  | cons d t ih => simp only [List.flatMap_cons, List.length_append, be32_length, ih,
      List.length_cons]; omega

theorem colorsOf_length (numColors : Nat) : (colorsOf numColors).length = 4 * numColors := by
  unfold colorsOf
  have : ∀ l : List Nat, (l.flatMap
      (fun i => be32 (if i = numColors / 2 then 0xFF06070A else 0x00000001))).length =
      4 * l.length := by
    intro l
    induction l with
    | nil => rfl
    | cons d t ih => simp only [List.flatMap_cons, List.length_append, be32_length, ih,
        List.length_cons]; omega
  simp only [this, List.length_range]

theorem payloadBytes_length (info : NinePatchInfo) :
    (payloadBytes info).length =
      32 + 4 * (divsOf info.stretchRegionsX).length + 4 * (divsOf info.stretchRegionsY).length +
        4 * (((divsOf info.stretchRegionsX).length / 2 + 1) *
          ((divsOf info.stretchRegionsY).length / 2 + 1)) := by
  simp only [payloadBytes, List.length_append, List.length_cons, List.length_nil, be32_length,
    flatMap_be32_length, colorsOf_length]

theorem createNpTcChunkBody_eq (info : NinePatchInfo) :
    createNpTcChunkBody info =
      .ok (be32 ((payloadBytes info).length : Nat) ++ [0x6E, 0x70, 0x54, 0x63] ++
        payloadBytes info ++
        be32 (calculateCRC32 ([0x6E, 0x70, 0x54, 0x63] ++ payloadBytes info) : Nat)) := by
  rw [payloadBytes_length]
  unfold createNpTcChunkBody payloadBytes
  simp only []
  generalize divsOf info.stretchRegionsX = xDivs
  generalize divsOf info.stretchRegionsY = yDivs
  generalize (xDivs.length / 2 + 1) * (yDivs.length / 2 + 1) = numColors
  rw [← List.nil_append (List.replicate _ 0)]
  simp (disch := first | omega | (simp only [List.length_append, List.length_cons, List.length_nil,
      List.length_singleton, be32_length, flatMap_be32_length, colorsOf_length] <;> omega)) only
    [setUint32_zeros, setInt32_zeros, setUint8_zeros, set_zeros, writeDivs_zeros,
     writeColors_zeros, except_ok_bind]
  have hZ : 4 + 4 + (4 + 8 + 16 + 4 + xDivs.length * 4 + yDivs.length * 4 + numColors * 4) + 4
      - 4 - 1 - 1 - 1 - 1 - 1 - 1 - 1 - 1 - 4 - 4 - 4 - 4 - 4 - 4 - 4 - 4 * xDivs.length
      - 4 * yDivs.length - 4 * numColors - 4 = 0 := by omega
  have hS : ((4 + 8 + 16 + 4 + xDivs.length * 4 + yDivs.length * 4 + numColors * 4 : Nat) : Int)
      = ((32 + 4 * xDivs.length + 4 * yDivs.length + 4 * numColors : Nat) : Int) := by
    congr 1; omega
  rw [hZ, hS, List.take_left' (by
    simp only [List.length_append, List.length_cons, List.length_nil,
      List.length_singleton, be32_length, flatMap_be32_length, colorsOf_length])]
  simp [be32, pure, Except.pure]

theorem divsOf_foldl (regions : List StretchRegion) (acc : List Int) :
    regions.foldl (fun divs region => divs ++ [region.start, region.stop + 1]) acc =
      acc ++ flattenRegions regions := by
  induction regions generalizing acc with
  | nil => simp [flattenRegions]
  | cons r t ih => simp [List.foldl_cons, ih, flattenRegions]

theorem divsOf_eq (regions : List StretchRegion) : divsOf regions = flattenRegions regions := by
  simp [divsOf, divsOf_foldl]

theorem flattenRegions_length (regions : List StretchRegion) :
    (flattenRegions regions).length = 2 * regions.length := by
  induction regions with
  | nil => rfl
  | cons r t ih =>
    simp only [flattenRegions, List.flatMap_cons, List.length_append, List.length_cons,
      List.length_nil] at ih ⊢
    omega

theorem chunkPayload_eq (len typ payload crc : List Nat) (hl : len.length = 4)
    (ht : typ.length = 4) (hc : crc.length = 4) :
    chunkPayload (len ++ typ ++ payload ++ crc) = payload := by
  unfold chunkPayload
  have h1 : len ++ typ ++ payload ++ crc = (len ++ typ) ++ (payload ++ crc) := by
    simp only [List.append_assoc]
  rw [h1, List.drop_left' (by simp [hl, ht]), List.take_left' (by simp [hl, ht, hc]; omega)]

theorem getD_append_add (pre l : List Nat) (k : Nat) :
    (pre ++ l).getD (pre.length + k) 0 = l.getD k 0 := by
  simp [List.getD_eq_getElem?_getD, List.getElem?_append_right]

theorem decodeInt32_append (pre l : List Nat) (k : Nat) :
    decodeInt32 (pre ++ l) (pre.length + k) = decodeInt32 l k := by
  simp only [decodeInt32, Nat.add_assoc, getD_append_add]

theorem decodeInt32_be32 (v : Int) (rest : List Nat) (hv : FitsInt32 v) :
    decodeInt32 (be32 v ++ rest) 0 = v := by
  obtain ⟨h1, h2⟩ := hv
  simp only [decodeInt32, be32, List.cons_append, List.nil_append, List.getD_cons_zero,
    List.getD_cons_succ, Nat.zero_add]
  split <;> omega

theorem decodeInt32_flatMap (divs : List Int) (rest : List Nat) (i : Nat) (hi : i < divs.length)
    (hfit : ∀ v ∈ divs, FitsInt32 v) :
    decodeInt32 (divs.flatMap be32 ++ rest) (4 * i) = divs[i] := by
  induction divs generalizing i with
  | nil => simp at hi
  | cons d t ih =>
    cases i with
    | zero =>
      simp only [List.flatMap_cons, List.append_assoc, Nat.mul_zero, List.getElem_cons_zero]
      exact decodeInt32_be32 d _ (hfit d (List.mem_cons_self _ _))
    | succ j =>
      simp only [List.flatMap_cons, List.append_assoc, List.getElem_cons_succ]
      have h4 : 4 * (j + 1) = (be32 d).length + 4 * j := by rw [be32_length]; omega
      rw [h4, decodeInt32_append]
      exact ih j (by simpa using hi) (fun v hv => hfit v (List.mem_cons_of_mem _ hv))

theorem decodeDivs_eq (pre rest : List Nat) (divs : List Int)
    (hfit : ∀ v ∈ divs, FitsInt32 v) :
    decodeDivs (pre ++ (divs.flatMap be32 ++ rest)) pre.length divs.length = divs := by
  apply List.ext_getElem
  · simp [decodeDivs]
  · intro i h1 h2
    simp only [decodeDivs, List.getElem_map, List.getElem_range]
    rw [decodeInt32_append]
    exact decodeInt32_flatMap divs rest i h2 hfit

theorem createNpTcChunk_eq (info : NinePatchInfo) :
    createNpTcChunk info =
      .ok (be32 ((payloadBytes info).length : Nat) ++ [0x6E, 0x70, 0x54, 0x63] ++
        payloadBytes info ++
        be32 (calculateCRC32 ([0x6E, 0x70, 0x54, 0x63] ++ payloadBytes info) : Nat)) := by
  unfold createNpTcChunk
  rw [createNpTcChunkBody_eq]

theorem payloadBytes_eq_expected (info : NinePatchInfo)
    (hx : 2 * info.stretchRegionsX.length ≤ 255) (hy : 2 * info.stretchRegionsY.length ≤ 255)
    (hc : (info.stretchRegionsX.length + 1) * (info.stretchRegionsY.length + 1) ≤ 255) :
    payloadBytes info = expectedPayload info := by
  unfold payloadBytes expectedPayload
  simp only [divsOf_eq, flattenRegions_length]
  have e1 : 2 * info.stretchRegionsX.length / 2 + 1 = info.stretchRegionsX.length + 1 := by
    omega
  have e2 : 2 * info.stretchRegionsY.length / 2 + 1 = info.stretchRegionsY.length + 1 := by
    omega
  rw [e1, e2]
  generalize (info.stretchRegionsX.length + 1) * (info.stretchRegionsY.length + 1) = nc at hc ⊢
  have e3 : (((2 * info.stretchRegionsX.length : Nat) : Int) % 256).toNat =
      2 * info.stretchRegionsX.length := by omega
  have e4 : (((2 * info.stretchRegionsY.length : Nat) : Int) % 256).toNat =
      2 * info.stretchRegionsY.length := by omega
  have e5 : ((nc : Int) % 256).toNat = nc := by omega
  rw [e3, e4, e5]

theorem decode_expectedPayload (info : NinePatchInfo)
    (hfx : ∀ v ∈ flattenRegions info.stretchRegionsX, FitsInt32 v)
    (hfy : ∀ v ∈ flattenRegions info.stretchRegionsY, FitsInt32 v) :
    decodeXDivs (expectedPayload info) = flattenRegions info.stretchRegionsX ∧
      decodeYDivs (expectedPayload info) = flattenRegions info.stretchRegionsY := by
  have hX := flattenRegions_length info.stretchRegionsX
  have hY := flattenRegions_length info.stretchRegionsY
  have h1 : (expectedPayload info).getD 1 0 = (flattenRegions info.stretchRegionsX).length := by
    rw [hX]; rfl
  have h2 : (expectedPayload info).getD 2 0 = (flattenRegions info.stretchRegionsY).length := by
    rw [hY]; rfl
  unfold decodeXDivs decodeYDivs
  rw [h1, h2]
  constructor
  · have hp : expectedPayload info =
        ([0, 2 * info.stretchRegionsX.length, 2 * info.stretchRegionsY.length,
            (info.stretchRegionsX.length + 1) * (info.stretchRegionsY.length + 1)] ++
          be32 32 ++ be32 40 ++ be32 info.paddingBox.left ++ be32 info.paddingBox.right ++
          be32 info.paddingBox.top ++ be32 info.paddingBox.bottom ++ be32 48) ++
        ((flattenRegions info.stretchRegionsX).flatMap be32 ++
          ((flattenRegions info.stretchRegionsY).flatMap be32 ++
            colorsOf ((info.stretchRegionsX.length + 1) *
              (info.stretchRegionsY.length + 1)))) := by
      simp only [expectedPayload, List.append_assoc]
    rw [hp]
    exact decodeDivs_eq _ _ _ hfx
  · have hp : expectedPayload info =
        ([0, 2 * info.stretchRegionsX.length, 2 * info.stretchRegionsY.length,
            (info.stretchRegionsX.length + 1) * (info.stretchRegionsY.length + 1)] ++
          be32 32 ++ be32 40 ++ be32 info.paddingBox.left ++ be32 info.paddingBox.right ++
          be32 info.paddingBox.top ++ be32 info.paddingBox.bottom ++ be32 48 ++
          (flattenRegions info.stretchRegionsX).flatMap be32) ++
        ((flattenRegions info.stretchRegionsY).flatMap be32 ++
            colorsOf ((info.stretchRegionsX.length + 1) *
              (info.stretchRegionsY.length + 1))) := by
      simp only [expectedPayload, List.append_assoc]
    have hl : 32 + 4 * (flattenRegions info.stretchRegionsX).length =
        ([0, 2 * info.stretchRegionsX.length, 2 * info.stretchRegionsY.length,
            (info.stretchRegionsX.length + 1) * (info.stretchRegionsY.length + 1)] ++
          be32 32 ++ be32 40 ++ be32 info.paddingBox.left ++ be32 info.paddingBox.right ++
          be32 info.paddingBox.top ++ be32 info.paddingBox.bottom ++ be32 48 ++
          (flattenRegions info.stretchRegionsX).flatMap be32).length := by
      simp only [List.length_append, List.length_cons, List.length_nil, be32_length,
        flatMap_be32_length]
    rw [hl, hp]
    exact decodeDivs_eq _ _ _ hfy

/-- C1. For a document with `nx` horizontal and `ny` vertical stretch regions such that
`2*nx ≤ 255`, `2*ny ≤ 255`, `(nx+1)*(ny+1) ≤ 255` and whose coordinates (the entries
`start`, `end+1` written to `xDivs`/`yDivs`) and padding values fit in a signed 32-bit
integer, `createNpTcChunk` returns a chunk whose data payload is exactly
`[0, 2*nx, 2*ny, (nx+1)*(ny+1)] ++ be32(32) ++ be32(40) ++ be32(padding.left) ++
be32(padding.right) ++ be32(padding.top) ++ be32(padding.bottom) ++ be32(48) ++ xDivs ++
yDivs ++ colors`, all big-endian, and decoding the `xDivs`/`yDivs` fields of that payload
returns the flattened `(start, end+1)` lists. -/
theorem createNpTcChunk_payload (info : NinePatchInfo)
    (hx : 2 * info.stretchRegionsX.length ≤ 255) (hy : 2 * info.stretchRegionsY.length ≤ 255)
    (hc : (info.stretchRegionsX.length + 1) * (info.stretchRegionsY.length + 1) ≤ 255)
    (hfx : ∀ v ∈ flattenRegions info.stretchRegionsX, FitsInt32 v)
    (hfy : ∀ v ∈ flattenRegions info.stretchRegionsY, FitsInt32 v)
    (_hpad : FitsInt32 info.paddingBox.left ∧ FitsInt32 info.paddingBox.right ∧
      FitsInt32 info.paddingBox.top ∧ FitsInt32 info.paddingBox.bottom) :
    ∃ chunk, createNpTcChunk info = .ok chunk ∧
      chunkPayload chunk = expectedPayload info ∧
      (colorsOf ((info.stretchRegionsX.length + 1) *
        (info.stretchRegionsY.length + 1))).length =
        4 * ((info.stretchRegionsX.length + 1) * (info.stretchRegionsY.length + 1)) ∧
      decodeXDivs (chunkPayload chunk) = flattenRegions info.stretchRegionsX ∧
      decodeYDivs (chunkPayload chunk) = flattenRegions info.stretchRegionsY := by
  refine ⟨_, createNpTcChunk_eq info, ?_⟩
  have hp : chunkPayload (be32 ((payloadBytes info).length : Nat) ++ [0x6E, 0x70, 0x54, 0x63] ++
        payloadBytes info ++
        be32 (calculateCRC32 ([0x6E, 0x70, 0x54, 0x63] ++ payloadBytes info) : Nat)) =
      expectedPayload info := by
    rw [chunkPayload_eq _ [0x6E, 0x70, 0x54, 0x63] _ _ (be32_length _) rfl (be32_length _)]
    exact payloadBytes_eq_expected info hx hy hc
  rw [hp]
  exact ⟨rfl, colorsOf_length _, decode_expectedPayload info hfx hfy⟩

theorem arraySet_zeros (pre source : List Nat) (n off : Nat) (ho : off = pre.length)
    (hn : source.length ≤ n) :
    arraySet (pre ++ List.replicate n 0) source off =
      .ok ((pre ++ source) ++ List.replicate (n - source.length) 0) := by
  subst ho
  unfold arraySet
  rw [if_neg (by simp; omega)]
  have h1 : List.take pre.length (pre ++ List.replicate n 0) = pre := List.take_left' rfl
  have h2 : List.drop (pre.length + source.length) (pre ++ List.replicate n 0) =
      List.replicate (n - source.length) 0 := by
    rw [List.drop_append, List.drop_replicate]
  rw [h1, h2]
  rfl

theorem findIdatPos_le (pngData : List Nat) (p : Nat) (h : findIdatPos pngData = some p) :
    p ≤ pngData.length := by
  unfold findIdatPos at h
  rw [Option.map_eq_some'] at h
  obtain ⟨i, hi, rfl⟩ := h
  have hm := List.mem_of_find?_eq_some hi
  rw [List.mem_range'_1] at hm
  omega

theorem insertNpTcChunk_of_none (pngData : List Nat) (info : NinePatchInfo)
    (h : findIdatPos pngData = none) : insertNpTcChunk pngData info = .ok pngData := by
  unfold insertNpTcChunk
  rw [createNpTcChunk_eq]
  simp only [except_ok_bind, h]
  rfl

theorem insertNpTcChunk_of_some (pngData : List Nat) (info : NinePatchInfo) (p : Nat)
    (chunk : List Nat) (hc : createNpTcChunk info = .ok chunk)
    (h : findIdatPos pngData = some p) :
    insertNpTcChunk pngData info = .ok (pngData.take p ++ chunk ++ pngData.drop p) := by
  have hp := findIdatPos_le pngData p h
  unfold insertNpTcChunk
  rw [hc]
  simp only [except_ok_bind, h]
  rw [← List.nil_append (List.replicate _ 0)]
  have ht : (List.take p pngData).length = p := by simp [hp]
  have hd : (List.drop p pngData).length = pngData.length - p := by simp
  simp (disch := first | omega | (simp only [List.length_append, List.length_nil, ht, hd] <;>
      omega)) only [arraySet_zeros, except_ok_bind]
  have hz : pngData.length + chunk.length - (List.take p pngData).length - chunk.length -
      (List.drop p pngData).length = 0 := by rw [ht, hd]; omega
  rw [hz]
  simp [pure, Except.pure]

set_option maxRecDepth 100000 in
theorem createNpTcChunk_sampleDoc : createNpTcChunk sampleDoc = .ok sampleChunk := by decide

set_option maxRecDepth 100000 in
theorem createNpTcChunk_blankDoc : createNpTcChunk blankDoc = .ok blankChunk := by decide

set_option maxRecDepth 100000 in
/-- C2, the failing input. `pngWithText` is a well-formed PNG whose chunks are `IHDR`,
`tEXt`, `IDAT`, `IEND`; its `IDAT` chunk starts at offset 55, but the byte search of
`insertNpTcChunk` stops at the text `IDAT` inside the `tEXt` chunk and inserts the
`npTc` chunk at offset 43, in the middle of that chunk's data. `parseChunks` on the output
fails with a `RangeError` instead of returning the chunk sequence with `npTc` before
`IDAT`. -/
theorem insertNpTcChunk_splits_text_chunk :
    (parseChunks pngWithText).map (fun chunks => chunks.map (fun c => c.type_)) =
        .ok ["IHDR", "tEXt", "IDAT", "IEND"] ∧
      findIdatPos pngWithText = some 43 ∧
      insertNpTcChunk pngWithText sampleDoc = .ok pngWithTextInserted ∧
      parseChunks pngWithTextInserted = .error "RangeError" := by
  refine ⟨by decide, by decide, ?_, by decide⟩
  rw [insertNpTcChunk_of_some pngWithText sampleDoc 43 sampleChunk createNpTcChunk_sampleDoc
    (by decide)]
  decide

theorem insertNpTcChunk_of_no_bytes (pngData : List Nat) (info : NinePatchInfo)
    (h : ∀ i, 8 ≤ i → i + 4 < pngData.length → ¬ idatBytesAt pngData i) :
    insertNpTcChunk pngData info = .ok pngData := by
  apply insertNpTcChunk_of_none
  unfold findIdatPos
  rw [Option.map_eq_none', List.find?_eq_none]
  intro i hi
  rw [List.mem_range'_1] at hi
  have := h i hi.1 (by omega)
  simpa [idatBytesAt] using this

set_option maxRecDepth 100000 in
/-- C4, counterexample. `pngNoIdat` is a well-formed PNG with the chunks `IHDR` and `IEND`
only, yet `insertNpTcChunk` does not fail on it: it returns the input bytes. -/
theorem insertNpTcChunk_no_idat_returns_input :
    (parseChunks pngNoIdat).map (fun chunks => chunks.map (fun c => c.type_)) =
        .ok ["IHDR", "IEND"] ∧
      insertNpTcChunk pngNoIdat sampleDoc = .ok pngNoIdat :=
  ⟨by decide, insertNpTcChunk_of_none pngNoIdat sampleDoc (by decide)⟩

/-- C4, amended. For every byte array in which the four bytes `IDAT` start at no index `i`
with `8 ≤ i < length - 4` (in particular a PNG without an `IDAT` chunk and without those
bytes elsewhere), and every document, `insertNpTcChunk` does not fail: it returns the input
byte array unchanged. -/
theorem insertNpTcChunk_without_idat (pngData : List Nat) (info : NinePatchInfo)
    (h : ∀ i, 8 ≤ i → i + 4 < pngData.length → ¬ idatBytesAt pngData i) :
    insertNpTcChunk pngData info = .ok pngData :=
  insertNpTcChunk_of_no_bytes pngData info h

theorem insertNpTcChunk_total (pngData : List Nat) (info : NinePatchInfo) :
    ∃ out, insertNpTcChunk pngData info = .ok out := by
  cases h : findIdatPos pngData with
  | none => exact ⟨_, insertNpTcChunk_of_none pngData info h⟩
  | some p => exact ⟨_, insertNpTcChunk_of_some pngData info p _ (createNpTcChunk_eq info) h⟩

theorem removeNinePatchBorders_total (img : ImageData) (hw : 3 ≤ img.width)
    (hh : 3 ≤ img.height) : ∃ out, removeNinePatchBorders img = .ok out := by
  unfold removeNinePatchBorders createImageData
  simp only
  rw [if_neg (by omega)]
  exact ⟨_, rfl⟩

theorem compileToAAP_total (encodePNG : ImageData → List Nat) (info : NinePatchInfo)
    (hw : 3 ≤ info.imageData.width) (hh : 3 ≤ info.imageData.height) :
    ∃ r, compileToAAP encodePNG info = .ok r ∧ r.isCompiled = true := by
  obtain ⟨clean, hclean⟩ := removeNinePatchBorders_total info.imageData hw hh
  obtain ⟨out, hout⟩ := insertNpTcChunk_total (encodePNG clean) info
  refine ⟨⟨clean, out, true⟩, ?_, rfl⟩
  unfold compileToAAP createCompiledPNG
  rw [hclean]
  simp only [except_ok_bind, hout]
  rfl

set_option maxRecDepth 100000 in
/-- C3, counterexample. `blankDoc` is the document of a 3×3 image without markers: its
`isValid` flag is false and its errors list is the non-empty list that `validateNinePatch`
computes; yet `compileToAAP` (with an encoder returning `tinyPng`) does not fail: it returns
compiled bytes with `isCompiled = true`. -/
theorem compileToAAP_compiles_invalid :
    blankDoc.isValid = false ∧ blankDoc.errors ≠ [] ∧
      (validateNinePatch blankDoc).errors = blankDoc.errors ∧
      parseStretchRegions blankImage "horizontal" = blankDoc.stretchRegionsX ∧
      parseStretchRegions blankImage "vertical" = blankDoc.stretchRegionsY ∧
      compileToAAP (fun _ => tinyPng) blankDoc =
        .ok { cleanImageData := ⟨1, 1, [0, 0, 0, 0]⟩
              compiledPNG := tinyPngCompiled
              isCompiled := true } := by
  refine ⟨rfl, by decide, by decide, by decide, by decide, ?_⟩
  have h1 : removeNinePatchBorders blankDoc.imageData = .ok ⟨1, 1, [0, 0, 0, 0]⟩ := by decide
  have h2 : insertNpTcChunk tinyPng blankDoc = .ok tinyPngCompiled := by
    rw [insertNpTcChunk_of_some tinyPng blankDoc 33 blankChunk createNpTcChunk_blankDoc
      (by decide)]
    decide
  unfold compileToAAP createCompiledPNG
  rw [h1]
  simp only [except_ok_bind, h2]
  rfl

/-- C3, amended. `compileToAAP` performs no validity check (the check of `isValid` is in its
caller): its result does not depend on the `isValid` flag or the errors list, and for every
document, valid or not, whose image is at least 3×3 it returns a result with
`isCompiled = true`. -/
theorem compileToAAP_ignores_validity (encodePNG : ImageData → List Nat)
    (info : NinePatchInfo) :
    (∀ (flag : Bool) (errs : List String),
        compileToAAP encodePNG { info with isValid := flag, errors := errs } =
          compileToAAP encodePNG info) ∧
      (3 ≤ info.imageData.width → 3 ≤ info.imageData.height →
        ∃ r, compileToAAP encodePNG info = .ok r ∧ r.isCompiled = true) :=
  ⟨fun _ _ => rfl, compileToAAP_total encodePNG info⟩

/-- C1, witness: the theorem at `sampleDoc` (one region per axis, zero padding). -/
theorem createNpTcChunk_payload_witness :
    2 * sampleDoc.stretchRegionsX.length ≤ 255 ∧
      (∀ v ∈ flattenRegions sampleDoc.stretchRegionsX, FitsInt32 v) ∧
      ∃ chunk, createNpTcChunk sampleDoc = .ok chunk ∧
        chunkPayload chunk = expectedPayload sampleDoc ∧
        (colorsOf ((sampleDoc.stretchRegionsX.length + 1) *
          (sampleDoc.stretchRegionsY.length + 1))).length =
          4 * ((sampleDoc.stretchRegionsX.length + 1) *
            (sampleDoc.stretchRegionsY.length + 1)) ∧
        decodeXDivs (chunkPayload chunk) = flattenRegions sampleDoc.stretchRegionsX ∧
        decodeYDivs (chunkPayload chunk) = flattenRegions sampleDoc.stretchRegionsY :=
  ⟨by decide, by decide,
    createNpTcChunk_payload sampleDoc (by decide) (by decide) (by decide) (by decide)
      (by decide) (by decide)⟩

/-- C3, witness: the amended theorem at the invalid document `blankDoc`. -/
theorem compileToAAP_ignores_validity_witness :
    3 ≤ blankDoc.imageData.width ∧ 3 ≤ blankDoc.imageData.height ∧
      blankDoc.isValid = false ∧
      ∃ r, compileToAAP (fun _ => tinyPng) blankDoc = .ok r ∧ r.isCompiled = true :=
  ⟨by decide, by decide, rfl,
    (compileToAAP_ignores_validity (fun _ => tinyPng) blankDoc).2 (by decide) (by decide)⟩

theorem pngNoIdat_no_bytes :
    ∀ i, 8 ≤ i → i + 4 < pngNoIdat.length → ¬ idatBytesAt pngNoIdat i := by
  intro i h1 h2
  have h3 : i < 41 := by
    have : pngNoIdat.length = 45 := by decide
    omega
  interval_cases i <;> simp [idatBytesAt, pngNoIdat]

/-- C4, witness: the amended theorem at `pngNoIdat`, which holds the bytes `IDAT` nowhere. -/
theorem insertNpTcChunk_without_idat_witness :
    (∀ i, 8 ≤ i → i + 4 < pngNoIdat.length → ¬ idatBytesAt pngNoIdat i) ∧
      insertNpTcChunk pngNoIdat blankDoc = .ok pngNoIdat :=
  ⟨pngNoIdat_no_bytes, insertNpTcChunk_without_idat pngNoIdat blankDoc pngNoIdat_no_bytes⟩

/-- C5, witness: the theorem at `sampleImage`. -/
theorem parseStretchRegions_maximal_runs_witness :
    sampleImage.data.length = 4 * sampleImage.width * sampleImage.height ∧
      3 ≤ sampleImage.width ∧ 3 ≤ sampleImage.height ∧
      RegionsAreRuns (fun x => isMarkerPixel sampleImage x 0) (sampleImage.width - 2)
        (parseStretchRegions sampleImage "horizontal") ∧
      RegionsAreRuns (fun y => isMarkerPixel sampleImage 0 y) (sampleImage.height - 2)
        (parseStretchRegions sampleImage "vertical") :=
  ⟨by decide, by decide, by decide,
    (parseStretchRegions_maximal_runs sampleImage (by decide)).1 (by decide),
    (parseStretchRegions_maximal_runs sampleImage (by decide)).2 (by decide)⟩

/-- C7, witness: the amended theorem at `narrowImage`, whose width is 1. -/
theorem parseStretchRegions_small_axis_witness :
    narrowImage.width < 3 ∧ parseStretchRegions narrowImage "horizontal" = [] :=
  ⟨by decide, (parseStretchRegions_small_axis narrowImage).1 (by decide)⟩

/-- C8, witness: the theorem at `framedImage`. -/
theorem parseContentRegion_extent_witness :
    3 ≤ framedImage.width ∧ 3 ≤ framedImage.height ∧
      IsMarkerExtent (fun x => isMarkerPixel framedImage x (framedImage.height - 1))
        (framedImage.width - 2) ((framedImage.width : Int) - 3)
        (parseContentRegion framedImage).left (parseContentRegion framedImage).right ∧
      IsMarkerExtent (fun y => isMarkerPixel framedImage (framedImage.width - 1) y)
        (framedImage.height - 2) ((framedImage.height : Int) - 3)
        (parseContentRegion framedImage).top (parseContentRegion framedImage).bottom ∧
      (parseContentRegion framedImage).left ≤ (parseContentRegion framedImage).right ∧
      (parseContentRegion framedImage).top ≤ (parseContentRegion framedImage).bottom :=
  ⟨by decide, by decide, parseContentRegion_extent framedImage (by decide) (by decide)⟩

/-- C9, witness: the theorem at `framedImage`, with the markers `(1, 2)` and `(2, 1)`. -/
theorem calculatePadding_margins_witness :
    isMarkerPixel framedImage 1 (framedImage.height - 1) = true ∧
      isMarkerPixel framedImage (framedImage.width - 1) 1 = true ∧
      ∃ a b c d : Nat,
        IsFirstMarker (fun x => isMarkerPixel framedImage x (framedImage.height - 1))
          (framedImage.width - 2) a ∧
        IsLastMarker (fun x => isMarkerPixel framedImage x (framedImage.height - 1))
          (framedImage.width - 2) b ∧
        IsFirstMarker (fun y => isMarkerPixel framedImage (framedImage.width - 1) y)
          (framedImage.height - 2) c ∧
        IsLastMarker (fun y => isMarkerPixel framedImage (framedImage.width - 1) y)
          (framedImage.height - 2) d ∧
        calculatePadding framedImage =
          { left := (a : Int) - 1
            top := (c : Int) - 1
            right := ((framedImage.width : Int) - 3) - ((b : Int) - 1)
            bottom := ((framedImage.height : Int) - 3) - ((d : Int) - 1) } ∧
        0 ≤ (calculatePadding framedImage).left ∧ 0 ≤ (calculatePadding framedImage).right ∧
        0 ≤ (calculatePadding framedImage).top ∧ 0 ≤ (calculatePadding framedImage).bottom ∧
        (calculatePadding framedImage).left + (calculatePadding framedImage).right ≤
          (framedImage.width : Int) - 3 ∧
        (calculatePadding framedImage).top + (calculatePadding framedImage).bottom ≤
          (framedImage.height : Int) - 3 :=
  ⟨by decide, by decide,
    calculatePadding_margins framedImage (by decide) (by decide)
      ⟨1, by decide, by decide, by decide⟩ ⟨1, by decide, by decide, by decide⟩⟩

/-- C10, witness: the theorem at `blankDoc`, which keeps the two stretch errors. -/
theorem validateNinePatch_errors_witness :
    blankDoc.imageData.data.length = 4 * blankDoc.imageData.width * blankDoc.imageData.height ∧
      (validateNinePatch blankDoc).errors = expectedErrors blankDoc ∧
      expectedErrors blankDoc =
        ["缺少水平拉伸区域标记（顶部边缘）", "缺少垂直拉伸区域标记（左侧边缘）"] :=
  ⟨by decide, validateNinePatch_errors blankDoc (by decide) (by decide) (by decide),
    by decide⟩

theorem readByte_natCast (data : List Nat) (n : Nat) (i : Int) (hi : i = (n : Int)) :
    readByte data i = data[n]? := by
  subst hi
  unfold readByte
  rw [if_neg (by omega)]
  simp

/-- C13. The function `isBlackPixel(data, index)` returns true iff `data[index] = 0`,
`data[index+1] = 0`, `data[index+2] = 0` and `data[index+3] = 255`; on a pixel with the
bytes `r, g, b, a` at `index` this is `r = 0 ∧ g = 0 ∧ b = 0 ∧ a = 255`, so every other
RGBA value (near-black or partially transparent) yields false. -/
theorem isBlackPixel_iff :
    (∀ (data : List Nat) (index : Int),
      isBlackPixel data index = true ↔
        readByte data index = some 0 ∧ readByte data (index + 1) = some 0 ∧
          readByte data (index + 2) = some 0 ∧ readByte data (index + 3) = some 255) ∧
    (∀ (pre post : List Nat) (r g b a : Nat),
      isBlackPixel (pre ++ r :: g :: b :: a :: post) pre.length = true ↔
        r = 0 ∧ g = 0 ∧ b = 0 ∧ a = 255) := by
  have h1 : ∀ (data : List Nat) (index : Int),
      isBlackPixel data index = true ↔
        readByte data index = some 0 ∧ readByte data (index + 1) = some 0 ∧
          readByte data (index + 2) = some 0 ∧ readByte data (index + 3) = some 255 := by
    intro data index
    simp only [isBlackPixel, Bool.and_eq_true, beq_iff_eq, and_assoc]
  refine ⟨h1, ?_⟩
  intro pre post r g b a
  rw [h1]
  rw [readByte_natCast _ pre.length _ rfl, readByte_natCast _ (pre.length + 1) _ (by push_cast; ring),
    readByte_natCast _ (pre.length + 2) _ (by push_cast; ring),
    readByte_natCast _ (pre.length + 3) _ (by push_cast; ring)]
  have e0 : (pre ++ r :: g :: b :: a :: post)[pre.length]? = some r := by
    rw [List.getElem?_append_right (le_refl _)]; simp
  have e1 : (pre ++ r :: g :: b :: a :: post)[pre.length + 1]? = some g := by
    rw [List.getElem?_append_right (by omega)]; simp
  have e2 : (pre ++ r :: g :: b :: a :: post)[pre.length + 2]? = some b := by
    rw [List.getElem?_append_right (by omega)]; simp
  have e3 : (pre ++ r :: g :: b :: a :: post)[pre.length + 3]? = some a := by
    rw [List.getElem?_append_right (by omega)]; simp
  rw [e0, e1, e2, e3]
  simp only [Option.some.injEq]

theorem single_if_eq_nil {α : Type} (c : Prop) [Decidable c] (x : α) :
    (if c then [x] else []) = [] ↔ ¬ c := by
  split <;> simp [*]

theorem validateNinePatch_errors_raw (doc : NinePatchInfo) :
    (validateNinePatch doc).errors =
      (if doc.stretchRegionsX = [] then ["缺少水平拉伸区域标记（顶部边缘）"] else []) ++
      ((if doc.stretchRegionsY = [] then ["缺少垂直拉伸区域标记（左侧边缘）"] else []) ++
      ((if doc.imageData.width < 3 ∨ doc.imageData.height < 3
          then ["图片尺寸太小，至少需要3x3像素"] else []) ++
      ((if readByte doc.imageData.data (((0 : Int) * doc.imageData.width + 0) * 4 + 3) ≠ some 0
        then ["左上角必须为透明像素"] else []) ++
      ((if readByte doc.imageData.data
          (((0 : Int) * doc.imageData.width + ((doc.imageData.width : Int) - 1)) * 4 + 3) ≠ some 0
        then ["右上角必须为透明像素"] else []) ++
      ((if readByte doc.imageData.data
          ((((doc.imageData.height : Int) - 1) * doc.imageData.width + 0) * 4 + 3) ≠ some 0
        then ["左下角必须为透明像素"] else []) ++
      (if readByte doc.imageData.data
          ((((doc.imageData.height : Int) - 1) * doc.imageData.width +
            ((doc.imageData.width : Int) - 1)) * 4 + 3) ≠ some 0
        then ["右下角必须为透明像素"] else [])))))) := by
  simp only [validateNinePatch, validateBorderPixels_eq, List.length_eq_zero, List.nil_append,
    push_if, List.append_assoc]
  split <;> simp only [List.append_assoc, List.append_nil, List.nil_append]

theorem scanFinal_ne_nil_iff {f : Nat → Bool} {n : Nat} {l : List StretchRegion}
    (h : ScanFinal f n l) : l ≠ [] ↔ ∃ p, 1 ≤ p ∧ p ≤ n ∧ f p = true := by
  constructor
  · intro hne
    obtain ⟨r, hr⟩ := List.exists_mem_of_ne_nil l hne
    obtain ⟨h1, h2, h3⟩ := h.bounds r hr
    refine ⟨(r.start + 1).toNat, by omega, by omega, ?_⟩
    exact h.marked r hr _ (by omega) (by omega)
  · rintro ⟨p, h1, h2, h3⟩
    obtain ⟨r, hr, _⟩ := h.covered p h1 h2 h3
    exact List.ne_nil_of_mem hr

theorem parseSourceNinePatch_errors (img : ImageData) :
    (parseSourceNinePatch img).errors =
      (validateNinePatch
        { imageData := img
          stretchRegionsX := parseStretchRegions img "horizontal"
          stretchRegionsY := parseStretchRegions img "vertical"
          contentRegion := parseContentRegion img
          paddingBox := calculatePadding img
          isValid := false
          errors := [] }).errors := rfl

theorem parseSourceNinePatch_isValid (img : ImageData) :
    (parseSourceNinePatch img).isValid = true ↔ (parseSourceNinePatch img).errors = [] := by
  simp [parseSourceNinePatch]

theorem parseSourceNinePatch_regions (img : ImageData) :
    (parseSourceNinePatch img).stretchRegionsX = parseStretchRegions img "horizontal" ∧
      (parseSourceNinePatch img).stretchRegionsY = parseStretchRegions img "vertical" :=
  ⟨rfl, rfl⟩

theorem corner_reads (img : ImageData) (hw : 1 ≤ img.width) (hh : 1 ≤ img.height) :
    readByte img.data (((0 : Int) * img.width + 0) * 4 + 3) =
        img.data[(0 * img.width + 0) * 4 + 3]? ∧
      readByte img.data (((0 : Int) * img.width + ((img.width : Int) - 1)) * 4 + 3) =
        img.data[(0 * img.width + (img.width - 1)) * 4 + 3]? ∧
      readByte img.data ((((img.height : Int) - 1) * img.width + 0) * 4 + 3) =
        img.data[((img.height - 1) * img.width + 0) * 4 + 3]? ∧
      readByte img.data
          ((((img.height : Int) - 1) * img.width + ((img.width : Int) - 1)) * 4 + 3) =
        img.data[((img.height - 1) * img.width + (img.width - 1)) * 4 + 3]? := by
  have h1 : ((img.height - 1 : Nat) : Int) = (img.height : Int) - 1 := by omega
  have h2 : ((img.width - 1 : Nat) : Int) = (img.width : Int) - 1 := by omega
  refine ⟨readByte_natCast _ _ _ (by push_cast; ring),
    readByte_natCast _ _ _ (by push_cast; rw [h2]),
    readByte_natCast _ _ _ (by push_cast; rw [h1]),
    readByte_natCast _ _ _ (by push_cast; rw [h1, h2])⟩

/-- C11. For every image, the document produced by the analysis pipeline has
`isValid = true` iff `width ≥ 3`, `height ≥ 3`, the top row has a marker pixel among
`x = 1..width-2`, the left column has a marker pixel among `y = 1..height-2`, and the four
corner pixels have alpha 0. -/
theorem parseSourceNinePatch_isValid_iff (img : ImageData) :
    (parseSourceNinePatch img).isValid = true ↔
      3 ≤ img.width ∧ 3 ≤ img.height ∧
      (∃ x, 1 ≤ x ∧ x ≤ img.width - 2 ∧ isMarkerPixel img x 0 = true) ∧
      (∃ y, 1 ≤ y ∧ y ≤ img.height - 2 ∧ isMarkerPixel img 0 y = true) ∧
      hasAlphaZero img 0 0 ∧ hasAlphaZero img (img.width - 1) 0 ∧
      hasAlphaZero img 0 (img.height - 1) ∧
      hasAlphaZero img (img.width - 1) (img.height - 1) := by
  rw [parseSourceNinePatch_isValid, parseSourceNinePatch_errors, validateNinePatch_errors_raw]
  simp only [List.append_eq_nil, single_if_eq_nil, not_or, not_lt, ne_eq, not_not]
  rw [← ne_eq, ← ne_eq, scanFinal_ne_nil_iff (horizontal_scanFinal img),
    scanFinal_ne_nil_iff (vertical_scanFinal img)]
  unfold hasAlphaZero
  constructor
  · rintro ⟨hx, hy, ⟨hw, hh⟩, c1, c2, c3, c4⟩
    obtain ⟨k1, k2, k3, k4⟩ := corner_reads img (by omega) (by omega)
    rw [k1] at c1; rw [k2] at c2; rw [k3] at c3; rw [k4] at c4
    exact ⟨hw, hh, hx, hy, c1, c2, c3, c4⟩
  · rintro ⟨hw, hh, hx, hy, c1, c2, c3, c4⟩
    obtain ⟨k1, k2, k3, k4⟩ := corner_reads img (by omega) (by omega)
    rw [k1, k2, k3, k4]
    exact ⟨hx, hy, ⟨hw, hh⟩, c1, c2, c3, c4⟩

theorem getElem?_of_drop_take {l : List Nat} {k : Nat} {a b c d : Nat}
    (h : (l.drop k).take 4 = [a, b, c, d]) :
    l[k]? = some a ∧ l[k + 1]? = some b ∧ l[k + 2]? = some c ∧ l[k + 3]? = some d := by
  have key : ∀ i, i < 4 → l[k + i]? = [a, b, c, d][i]? := by
    intro i hi
    rw [← h, List.getElem?_take_of_lt hi, List.getElem?_drop]
  exact ⟨by simpa using key 0 (by omega), by simpa using key 1 (by omega),
    by simpa using key 2 (by omega), by simpa using key 3 (by omega)⟩

theorem isBlackPixel_of_rgba {data : List Nat} {k : Nat}
    (h : (data.drop k).take 4 = [0, 0, 0, 255]) (i : Int) (hi : i = (k : Int)) :
    isBlackPixel data i = true := by
  obtain ⟨h0, h1, h2, h3⟩ := getElem?_of_drop_take h
  subst hi
  simp only [isBlackPixel, Bool.and_eq_true, beq_iff_eq]
  rw [readByte_natCast _ k _ rfl, readByte_natCast _ (k + 1) _ (by push_cast; ring),
    readByte_natCast _ (k + 2) _ (by push_cast; ring),
    readByte_natCast _ (k + 3) _ (by push_cast; ring)]
  exact ⟨⟨⟨h0, h1⟩, h2⟩, h3⟩

theorem getElem?_of_getD_zero {l : List Nat} {k : Nat} (hk : k < l.length)
    (h : l.getD k 0 = 0) : l[k]? = some 0 := by
  rw [List.getD_eq_getElem?_getD, List.getElem?_eq_getElem hk] at h
  rw [List.getElem?_eq_getElem hk]
  simpa using h

/-- C12. For every 3×3 RGBA image whose four corner pixels have alpha 0 and whose pixels
`(1, 0)` and `(0, 1)` are both exactly `(0, 0, 0, 255)`, all other pixels arbitrary, the
analysis pipeline yields `stretchRegionsX = [{start: 0, end: 0}]`,
`stretchRegionsY = [{start: 0, end: 0}]`, `errors = []` and `isValid = true`. -/
theorem parseSourceNinePatch_three_by_three (img : ImageData)
    (hw : img.width = 3) (hh : img.height = 3) (hlen : img.data.length = 36)
    (hc1 : alphaAt img 0 0 = 0) (hc2 : alphaAt img 2 0 = 0)
    (hc3 : alphaAt img 0 2 = 0) (hc4 : alphaAt img 2 2 = 0)
    (hp1 : rgbaAt img 1 0 = [0, 0, 0, 255]) (hp2 : rgbaAt img 0 1 = [0, 0, 0, 255]) :
    (parseSourceNinePatch img).stretchRegionsX = [⟨0, 0⟩] ∧
      (parseSourceNinePatch img).stretchRegionsY = [⟨0, 0⟩] ∧
      (parseSourceNinePatch img).errors = [] ∧
      (parseSourceNinePatch img).isValid = true := by
  obtain ⟨w, h, data⟩ := img
  simp only at hw hh hlen
  subst hw hh
  simp only [alphaAt, rgbaAt] at hc1 hc2 hc3 hc4 hp1 hp2
  have m1 : isBlackPixel data ((1 : Nat) * 4 : Int) = true :=
    isBlackPixel_of_rgba hp1 _ (by norm_num)
  have m2 : isBlackPixel data ((1 : Nat) * ((3 : Nat) : Int) * 4 : Int) = true :=
    isBlackPixel_of_rgba hp2 _ (by norm_num)
  have hX : parseStretchRegions ⟨3, 3, data⟩ "horizontal" = [⟨0, 0⟩] := by
    rw [parseStretchRegions_horizontal]
    simp only [Nat.reduceSub, scanLoop_succ, scanLoop_zero, Nat.zero_add, m1]
    simp [scanStep, closeScan]
  have hY : parseStretchRegions ⟨3, 3, data⟩ "vertical" = [⟨0, 0⟩] := by
    rw [parseStretchRegions_vertical]
    simp only [Nat.reduceSub, scanLoop_succ, scanLoop_zero, Nat.zero_add, m2]
    simp [scanStep, closeScan]
  have hE : (parseSourceNinePatch ⟨3, 3, data⟩).errors = [] := by
    rw [parseSourceNinePatch_errors, validateNinePatch_errors_raw]
    obtain ⟨k1, k2, k3, k4⟩ := corner_reads ⟨3, 3, data⟩ (by simp) (by simp)
    simp only [k1, k2, k3, k4, hX, hY]
    have a1 := getElem?_of_getD_zero (by omega) hc1
    have a2 := getElem?_of_getD_zero (by omega) hc2
    have a3 := getElem?_of_getD_zero (by omega) hc3
    have a4 := getElem?_of_getD_zero (by omega) hc4
    simp only [Nat.zero_mul, Nat.zero_add, Nat.reduceMul, Nat.reduceAdd, Nat.reduceSub] at a1 a2 a3 a4 ⊢
    simp [a1, a2, a3, a4]
  exact ⟨hX, hY, hE, (parseSourceNinePatch_isValid _).2 hE⟩

theorem foldl_boundaryStep (total : Int) (rs : List StretchRegion) (acc : List Boundary)
    (cur : Int) :
    (if (rs.foldl boundaryStep (acc, cur)).2 < total
      then (rs.foldl boundaryStep (acc, cur)).1 ++
        [⟨(rs.foldl boundaryStep (acc, cur)).2, total, false⟩]
      else (rs.foldl boundaryStep (acc, cur)).1) = acc ++ boundariesFrom total cur rs := by
  induction rs generalizing acc cur with
  | nil => simp only [List.foldl_nil, boundariesFrom]; split <;> simp
  | cons r t ih =>
    rw [List.foldl_cons, boundariesFrom]
    simp only [boundaryStep]
    rw [ih]
    split <;> simp

theorem getRegionBoundaries_eq (rs : List StretchRegion) (total : Int) :
    getRegionBoundaries rs total = boundariesFrom total 0 rs := by
  have := foldl_boundaryStep total rs [] 0
  simpa [getRegionBoundaries] using this

theorem regionsFrom_tail {cur total : Int} {r : StretchRegion} {t : List StretchRegion}
    (h : RegionsFrom cur total (r :: t)) : RegionsFrom (r.stop + 1) total t := by
  obtain ⟨h1, h2⟩ := h
  rw [List.pairwise_cons] at h2
  refine ⟨fun r' hr' => ?_, h2.2⟩
  have := h1 r' (List.mem_cons_of_mem _ hr')
  have := h2.1 r' hr'
  omega

theorem regionsFrom_head {cur total : Int} {r : StretchRegion} {t : List StretchRegion}
    (h : RegionsFrom cur total (r :: t)) : cur ≤ r.start ∧ r.start ≤ r.stop ∧ r.stop < total :=
  h.1 r (List.mem_cons_self _ _)

theorem boundariesFrom_head (total cur : Int) (rs : List StretchRegion)
    (h : RegionsFrom cur total rs) : ∀ s ∈ (boundariesFrom total cur rs).head?, s.start = cur := by
  cases rs with
  | nil =>
    simp only [boundariesFrom]
    split <;> simp
  | cons r t =>
    have := regionsFrom_head h
    simp only [boundariesFrom]
    split
    · simp
    · simp; omega

theorem boundariesFrom_nil_iff (total cur : Int) (rs : List StretchRegion) :
    boundariesFrom total cur rs = [] ↔ rs = [] ∧ ¬ cur < total := by
  cases rs with
  | nil => simp only [boundariesFrom]; split <;> simp [*]
  | cons r t => simp [boundariesFrom]

theorem boundariesFrom_positive (total cur : Int) (rs : List StretchRegion)
    (h : RegionsFrom cur total rs) : ∀ s ∈ boundariesFrom total cur rs, s.start < s.stop := by
  induction rs generalizing cur with
  | nil =>
    simp only [boundariesFrom]
    split
    · intro s hs; simp at hs; subst hs; simpa
    · simp
  | cons r t ih =>
    have hh := regionsFrom_head h
    have ht := ih _ (regionsFrom_tail h)
    intro s hs
    simp only [boundariesFrom, List.mem_append, List.mem_cons] at hs
    rcases hs with hs | hs | hs
    · split at hs
      · simp at hs; subst hs; simpa
      · simp at hs
    · subst hs; simp; omega
    · exact ht s hs

theorem boundariesFrom_contiguous (total cur : Int) (rs : List StretchRegion)
    (h : RegionsFrom cur total rs) :
    (boundariesFrom total cur rs).Chain' (fun a b => a.stop = b.start) := by
  induction rs generalizing cur with
  | nil =>
    simp only [boundariesFrom]
    split <;> simp
  | cons r t ih =>
    have ht := ih _ (regionsFrom_tail h)
    have hd := boundariesFrom_head total _ t (regionsFrom_tail h)
    have hc : ((⟨r.start, r.stop + 1, true⟩ : Boundary) ::
        boundariesFrom total (r.stop + 1) t).Chain' (fun a b => a.stop = b.start) := by
      rw [List.chain'_cons']
      exact ⟨fun y hy => (hd y hy).symm, ht⟩
    simp only [boundariesFrom]
    split
    · simp only [List.singleton_append]
      rw [List.chain'_cons']
      exact ⟨fun y hy => by simp at hy; subst hy; rfl, hc⟩
    · simpa using hc

theorem boundariesFrom_last (total cur : Int) (rs : List StretchRegion)
    (h : RegionsFrom cur total rs) :
    ∀ s ∈ (boundariesFrom total cur rs).getLast?, s.stop = total := by
  induction rs generalizing cur with
  | nil =>
    simp only [boundariesFrom]
    split <;> simp
  | cons r t ih =>
    have hh := regionsFrom_head h
    have ht := ih _ (regionsFrom_tail h)
    intro s hs
    simp only [boundariesFrom] at hs
    rw [List.getLast?_append_cons] at hs
    cases hB : boundariesFrom total (r.stop + 1) t with
    | nil =>
      rw [hB] at hs
      simp at hs
      subst hs
      have := (boundariesFrom_nil_iff total (r.stop + 1) t).1 hB
      simp only
      omega
    | cons b l =>
      rw [hB] at hs ht
      rw [List.getLast?_cons_cons] at hs
      exact ht s hs

theorem boundariesFrom_sum (total cur : Int) (rs : List StretchRegion)
    (h : RegionsFrom cur total rs) (hcur : cur ≤ total) :
    ((boundariesFrom total cur rs).map (fun s => s.stop - s.start)).sum = total - cur := by
  induction rs generalizing cur with
  | nil =>
    simp only [boundariesFrom]
    split
    · simp
    · simp; omega
  | cons r t ih =>
    have hh := regionsFrom_head h
    have ht := ih _ (regionsFrom_tail h) (by omega)
    simp only [boundariesFrom, List.map_append, List.sum_append, List.map_cons, List.sum_cons,
      ht]
    split
    · simp
    · simp; omega

theorem boundariesFrom_stretchable (total cur : Int) (rs : List StretchRegion) :
    ((boundariesFrom total cur rs).filter (fun s => s.stretchable)).map
        (fun s => (s.start, s.stop)) =
      rs.map (fun r => (r.start, r.stop + 1)) := by
  induction rs generalizing cur with
  | nil =>
    simp only [boundariesFrom]
    split <;> simp
  | cons r t ih =>
    simp only [boundariesFrom, List.filter_append, List.map_append, List.map_cons]
    split <;> simp [ih]

theorem validRegions_regionsFrom {total : Int} {rs : List StretchRegion}
    (h : ValidRegions total rs) : RegionsFrom 0 total rs :=
  ⟨h.1, h.2.imp (fun hab => hab.2)⟩

/-- C14. For every `totalSize ≥ 1` and every list of stretch regions that is sorted
ascending, non-overlapping and satisfies `0 ≤ start ≤ end < totalSize`, the segments
returned by `getRegionBoundaries` partition `[0, totalSize)`: the list is not empty, the
first segment starts at 0, every segment has `start < end`, each segment's end is the next
segment's start, the last segment ends at `totalSize`, the lengths sum to `totalSize`, and
the stretchable segments are exactly `[r.start, r.end+1)` for the input regions `r`, in
order. -/
theorem getRegionBoundaries_partition (regions : List StretchRegion) (totalSize : Int)
    (htotal : 1 ≤ totalSize) (hvalid : ValidRegions totalSize regions) :
    IsPartition totalSize (getRegionBoundaries regions totalSize) ∧
      ((getRegionBoundaries regions totalSize).filter (fun s => s.stretchable)).map
          (fun s => (s.start, s.stop)) =
        regions.map (fun r => (r.start, r.stop + 1)) := by
  have h := validRegions_regionsFrom hvalid
  rw [getRegionBoundaries_eq]
  refine ⟨⟨?_, boundariesFrom_head _ _ _ h, boundariesFrom_positive _ _ _ h,
    boundariesFrom_contiguous _ _ _ h, boundariesFrom_last _ _ _ h, ?_⟩,
    boundariesFrom_stretchable _ _ _⟩
  · intro hnil
    have := (boundariesFrom_nil_iff _ _ _).1 hnil
    omega
  · have := boundariesFrom_sum _ _ _ h (by omega)
    simpa using this

theorem boundariesFrom_head_static (total cur : Int) (rs : List StretchRegion)
    (h : ∀ r ∈ rs.head?, cur < r.start) :
    ∀ s ∈ (boundariesFrom total cur rs).head?, s.stretchable = false := by
  cases rs with
  | nil =>
    simp only [boundariesFrom]
    split <;> simp
  | cons r t =>
    have := h r (by simp)
    simp [boundariesFrom, this]

theorem boundariesFrom_alternates (total cur : Int) (rs : List StretchRegion)
    (hgap : rs.Chain' (fun a b => a.stop + 2 ≤ b.start)) :
    Alternates (boundariesFrom total cur rs) := by
  unfold Alternates
  induction rs generalizing cur with
  | nil =>
    simp only [boundariesFrom]
    split <;> simp
  | cons r t ih =>
    rw [List.chain'_cons'] at hgap
    have ht := ih (r.stop + 1) hgap.2
    have hd := boundariesFrom_head_static total (r.stop + 1) t
      (fun r' hr' => by have := hgap.1 r' hr'; omega)
    have hc : ((⟨r.start, r.stop + 1, true⟩ : Boundary) ::
        boundariesFrom total (r.stop + 1) t).Chain'
          (fun a b => a.stretchable ≠ b.stretchable) := by
      rw [List.chain'_cons']
      exact ⟨fun y hy => by rw [hd y hy]; simp, ht⟩
    simp only [boundariesFrom]
    split
    · simp only [List.singleton_append]
      rw [List.chain'_cons']
      exact ⟨fun y hy => by simp at hy; subst hy; simp, hc⟩
    · simpa using hc

/-- C15, counterexample. The regions `[0, 1]` and `[2, 3]` with `totalSize = 5` satisfy the
StretchRegion invariant (`start ≤ end`, sorted, non-overlapping, within `[0, 5)`), yet
`getRegionBoundaries` returns two consecutive stretchable segments. -/
theorem getRegionBoundaries_adjacent_not_alternating :
    ValidRegions 5 adjacentRegions ∧
      getRegionBoundaries adjacentRegions 5 =
        [⟨0, 2, true⟩, ⟨2, 4, true⟩, ⟨4, 5, false⟩] ∧
      ¬ Alternates (getRegionBoundaries adjacentRegions 5) := by
  refine ⟨?_, by decide, ?_⟩
  · unfold ValidRegions adjacentRegions
    constructor
    · intro r hr
      simp at hr
      rcases hr with rfl | rfl <;> simp
    · simp
  · have h : getRegionBoundaries adjacentRegions 5 =
        [⟨0, 2, true⟩, ⟨2, 4, true⟩, ⟨4, 5, false⟩] := by decide
    rw [h]
    simp [Alternates]

/-- C15, amended. For every list of stretch regions satisfying the StretchRegion invariant
(`start ≤ end`, sorted ascending, non-overlapping, within `[0, totalSize)`) in which
consecutive regions are separated by at least one position (`next.start ≥ end + 2`, as
`parseStretchRegions` produces them), the segment sequence returned by
`getRegionBoundaries` alternates between static and stretchable. -/
theorem getRegionBoundaries_alternates (regions : List StretchRegion) (totalSize : Int)
    (_hvalid : ValidRegions totalSize regions)
    (hgap : regions.Chain' (fun a b => a.stop + 2 ≤ b.start)) :
    Alternates (getRegionBoundaries regions totalSize) := by
  rw [getRegionBoundaries_eq]
  exact boundariesFrom_alternates totalSize 0 regions hgap

theorem validRegions_separated : ValidRegions 3 separatedRegions := by
  unfold ValidRegions separatedRegions
  constructor
  · intro r hr
    simp at hr
    rcases hr with rfl | rfl <;> simp
  · simp

/-- C15, witness: the amended theorem at the regions `[0, 0]`, `[2, 2]` of a content
extent of 3. -/
theorem getRegionBoundaries_alternates_witness :
    ValidRegions 3 separatedRegions ∧
      separatedRegions.Chain' (fun a b => a.stop + 2 ≤ b.start) ∧
      Alternates (getRegionBoundaries separatedRegions 3) :=
  ⟨validRegions_separated, by simp [separatedRegions],
    getRegionBoundaries_alternates separatedRegions 3 validRegions_separated
      (by simp [separatedRegions])⟩

/-- C14, witness: the theorem at the regions `[0, 0]`, `[2, 2]` of a content extent of 3. -/
theorem getRegionBoundaries_partition_witness :
    (1 : Int) ≤ 3 ∧ ValidRegions 3 separatedRegions ∧
      IsPartition 3 (getRegionBoundaries separatedRegions 3) ∧
      ((getRegionBoundaries separatedRegions 3).filter (fun s => s.stretchable)).map
          (fun s => (s.start, s.stop)) =
        separatedRegions.map (fun r => (r.start, r.stop + 1)) :=
  ⟨by decide, validRegions_separated,
    getRegionBoundaries_partition separatedRegions 3 (by decide) validRegions_separated⟩

theorem countSizes_foldl (segs : List Boundary) (c : Int × Nat) :
    segs.foldl
      (fun (c : Int × Nat) region =>
        let regionSize := region.stop - region.start
        if region.stretchable then (c.1, c.2 + 1) else (c.1 + regionSize, c.2)) c =
      (c.1 + staticSizeOf segs, c.2 + stretchableCountOf segs) := by
  induction segs generalizing c with
  | nil => simp [staticSizeOf, stretchableCountOf]
  | cons s t ih =>
    rw [List.foldl_cons, ih]
    cases hs : s.stretchable <;>
      simp [staticSizeOf, stretchableCountOf, List.filter_cons, hs] <;> omega

theorem countSizes_eq (segs : List Boundary) :
    countSizes segs = (staticSizeOf segs, stretchableCountOf segs) := by
  have := countSizes_foldl segs (0, 0)
  simpa [countSizes] using this

theorem foldl_push_map {α β : Type} (g : α → β) (l : List α) (acc : List β) :
    l.foldl (fun sizes region => sizes ++ [g region]) acc = acc ++ l.map g := by
  induction l generalizing acc with
  | nil => simp
  | cons a t ih => simp [List.foldl_cons, ih]

theorem stretchableCountOf_pos {segs : List Boundary} {s : Boundary} (hs : s ∈ segs)
    (hst : s.stretchable = true) : 0 < stretchableCountOf segs := by
  unfold stretchableCountOf
  apply List.length_pos_of_mem (a := s)
  simp [List.mem_filter, hs, hst]

theorem roundHalfEven_ge_floor (x : ℚ) : ⌊x⌋ ≤ roundHalfEven x := by
  unfold roundHalfEven
  simp only
  split_ifs <;> omega

theorem roundHalfEven_le_floor (x : ℚ) : roundHalfEven x ≤ ⌊x⌋ + 1 := by
  unfold roundHalfEven
  simp only
  split_ifs <;> omega

theorem roundHalfEven_of_frac_lt (x : ℚ) (h : x - ⌊x⌋ < 1 / 2) : roundHalfEven x = ⌊x⌋ := by
  unfold roundHalfEven
  simp only [h, if_true]

theorem roundHalfEven_of_frac_gt (x : ℚ) (h : 1 / 2 < x - ⌊x⌋) : roundHalfEven x = ⌊x⌋ + 1 := by
  unfold roundHalfEven
  have h2 : ¬ (x - ⌊x⌋ < 1 / 2) := not_lt.mpr (le_of_lt h)
  simp only [h2, h, if_true, if_false]

theorem roundHalfEven_ge (x : ℚ) (n : Int) (h : (n : ℚ) ≤ x) : n ≤ roundHalfEven x :=
  le_trans (Int.le_floor.mpr h) (roundHalfEven_ge_floor x)

theorem roundHalfEven_le (x : ℚ) (n : Int) (h : x ≤ (n : ℚ)) : roundHalfEven x ≤ n := by
  have hf : ⌊x⌋ ≤ n := by
    have := Int.floor_mono h
    simpa using this
  rcases lt_or_eq_of_le hf with hlt | heq
  · have := roundHalfEven_le_floor x
    omega
  · have hx : x - ⌊x⌋ < 1 / 2 := by
      rw [heq]
      linarith
    rw [roundHalfEven_of_frac_lt x hx, heq]

theorem roundHalfEven_lt (x : ℚ) (n : Int) (h : x < (n : ℚ) - 1 / 2) : roundHalfEven x < n := by
  have hf : ⌊x⌋ < n := by
    rw [Int.floor_lt]
    linarith
  rcases lt_or_eq_of_le (Int.lt_iff_add_one_le.mp hf) with hlt | heq
  · have := roundHalfEven_le_floor x
    omega
  · have hx : x - ⌊x⌋ < 1 / 2 := by
      have : (⌊x⌋ : ℚ) = (n : ℚ) - 1 := by
        have : ((⌊x⌋ + 1 : Int) : ℚ) = (n : ℚ) := by rw [heq]
        push_cast at this
        linarith
      rw [this]
      linarith
    rw [roundHalfEven_of_frac_lt x hx]
    omega

theorem log_two_eq (q : ℚ) (e : Int) (hq : 0 < q) (hlo : (2 : ℚ) ^ e ≤ q)
    (hhi : q < (2 : ℚ) ^ (e + 1)) : Int.log 2 q = e := by
  have h1 : e ≤ Int.log 2 q := by
    rw [← Int.zpow_le_iff_le_log (by norm_num) hq]
    simpa using hlo
  have h2 : Int.log 2 q < e + 1 := by
    rw [← Int.lt_zpow_iff_log_lt (by norm_num) hq]
    simpa using hhi
  omega

theorem roundToDouble_of_binade (q : ℚ) (e : Int) (hq : 0 < q) (he : -1022 ≤ e)
    (hlo : (2 : ℚ) ^ e ≤ q) (hhi : q < (2 : ℚ) ^ (e + 1)) :
    roundToDouble q = roundHalfEven (q / 2 ^ (e - 52)) * 2 ^ (e - 52) := by
  unfold roundToDouble
  rw [if_neg (ne_of_gt hq), abs_of_pos hq, log_two_eq q e hq hlo hhi, max_eq_left he]

theorem roundToDouble_nonneg (q : ℚ) (hq : 0 ≤ q) : 0 ≤ roundToDouble q := by
  unfold roundToDouble
  split_ifs with h0
  · exact le_refl 0
  · simp only
    have hp : (0 : ℚ) < 2 ^ (max (Int.log 2 |q|) (-1022) - 52) := zpow_pos (by norm_num) _
    apply mul_nonneg _ (le_of_lt hp)
    have : (0 : Int) ≤ roundHalfEven (q / 2 ^ (max (Int.log 2 |q|) (-1022) - 52)) :=
      roundHalfEven_ge _ 0 (by simpa using div_nonneg hq (le_of_lt hp))
    exact_mod_cast this

theorem roundToDouble_le_one (q : ℚ) (hq : 0 ≤ q) (h1 : q < 1) : roundToDouble q ≤ 1 := by
  unfold roundToDouble
  split_ifs with h0
  · norm_num
  · simp only
    have hpos : 0 < q := lt_of_le_of_ne hq (Ne.symm h0)
    rw [abs_of_pos hpos]
    have hlog : Int.log 2 q < 0 := by
      rw [← Int.lt_zpow_iff_log_lt (by norm_num) hpos]
      simpa using h1
    generalize hE : max (Int.log 2 q) (-1022) = e
    have he : e ≤ -1 := by
      rw [← hE]
      exact max_le (by omega) (by norm_num)
    have hp : (0 : ℚ) < 2 ^ (e - 52) := zpow_pos (by norm_num) _
    obtain ⟨m, hm⟩ : ∃ m : Nat, (m : Int) = 52 - e := ⟨(52 - e).toNat, by omega⟩
    have hinv : ((2 : ℚ) ^ (e - 52))⁻¹ = ((2 ^ m : Int) : ℚ) := by
      rw [← zpow_neg]
      have : -(e - 52) = (m : Int) := by omega
      rw [this, zpow_natCast]
      push_cast
      rfl
    have hle : roundHalfEven (q / 2 ^ (e - 52)) ≤ (2 ^ m : Int) := by
      apply roundHalfEven_le
      rw [div_eq_mul_inv, hinv]
      have : (0 : ℚ) ≤ ((2 ^ m : Int) : ℚ) := by positivity
      nlinarith
    have hle2 : ((roundHalfEven (q / 2 ^ (e - 52)) : Int) : ℚ) ≤ ((2 ^ m : Int) : ℚ) := by
      exact_mod_cast hle
    calc ((roundHalfEven (q / 2 ^ (e - 52)) : Int) : ℚ) * 2 ^ (e - 52)
        ≤ ((2 ^ m : Int) : ℚ) * 2 ^ (e - 52) := mul_le_mul_of_nonneg_right hle2 (le_of_lt hp)
      _ = 1 := by rw [← hinv]; exact inv_mul_cancel₀ (ne_of_gt hp)

theorem float64Div_small (a : Int) (b : Nat) (ha : 0 ≤ a) (hab : a < b) :
    max 1 ⌊float64Div a b⌋ = 1 := by
  have hb : (0 : ℚ) < (b : ℚ) := by
    have : (0 : Int) < (b : Int) := by omega
    exact_mod_cast this
  have hq0 : (0 : ℚ) ≤ (a : ℚ) / (b : ℚ) := div_nonneg (by exact_mod_cast ha) (le_of_lt hb)
  have hq1 : (a : ℚ) / (b : ℚ) < 1 := by
    rw [div_lt_one hb]
    exact_mod_cast hab
  have h := roundToDouble_le_one _ hq0 hq1
  have hf : ⌊float64Div a b⌋ ≤ 1 := by
    have := Int.floor_mono h
    simpa [float64Div] using this
  exact max_eq_left hf

theorem float64Div_floor (a : Int) (b : Nat) (hb : 0 < b) (hab : (b : Int) ≤ a)
    (ha : a < 2 ^ 53) : ⌊float64Div a b⌋ = a / (b : Int) := by
  have hbq : (0 : ℚ) < (b : ℚ) := by exact_mod_cast hb
  have hbz : (0 : Int) < (b : Int) := by exact_mod_cast hb
  set k : Int := a / (b : Int) with hk
  have hk1 : 1 ≤ k := by
    rw [hk]
    exact Int.le_ediv_of_mul_le hbz (by omega)
  have hkb : k * b ≤ a := Int.ediv_mul_le a (ne_of_gt hbz)
  have hkb2 : a + 1 ≤ (k + 1) * b := by
    have := Int.lt_ediv_add_one_mul_self a hbz
    rw [← hk] at this
    omega
  have hq1 : (1 : ℚ) ≤ (a : ℚ) / (b : ℚ) := by
    rw [le_div_iff₀ hbq]
    have : ((b : Int) : ℚ) ≤ (a : ℚ) := by exact_mod_cast hab
    simpa using this
  have hqpos : (0 : ℚ) < (a : ℚ) / (b : ℚ) := lt_of_lt_of_le one_pos hq1
  have hqlt : (a : ℚ) / (b : ℚ) < (2 : ℚ) ^ (53 : Int) := by
    have h1 : (a : ℚ) / (b : ℚ) ≤ (a : ℚ) := by
      apply div_le_self
      · have : (0 : Int) ≤ a := by omega
        exact_mod_cast this
      · exact_mod_cast hb
    have h2 : (a : ℚ) < (2 : ℚ) ^ (53 : Int) := by
      have h3 : (a : ℚ) < ((2 ^ 53 : Int) : ℚ) := by exact_mod_cast ha
      have h4 : ((2 ^ 53 : Int) : ℚ) = (2 : ℚ) ^ (53 : Int) := by norm_num
      rw [← h4]
      exact h3
    linarith
  have he0 : 0 ≤ Int.log 2 ((a : ℚ) / (b : ℚ)) := by
    rw [← Int.zpow_le_iff_le_log (by norm_num) hqpos]
    simpa using hq1
  have he52 : Int.log 2 ((a : ℚ) / (b : ℚ)) < 53 := by
    rw [← Int.lt_zpow_iff_log_lt (by norm_num) hqpos]
    simpa using hqlt
  have hlo := Int.zpow_log_le_self (b := 2) (r := (a : ℚ) / (b : ℚ)) (by norm_num) hqpos
  have hhi := Int.lt_zpow_succ_log_self (b := 2) (by norm_num) ((a : ℚ) / (b : ℚ))
  generalize Int.log 2 ((a : ℚ) / (b : ℚ)) = e at he0 he52 hlo hhi
  simp only [Nat.cast_ofNat] at hlo hhi
  unfold float64Div
  rw [roundToDouble_of_binade _ e hqpos (by omega) hlo hhi]
  obtain ⟨n, hn⟩ : ∃ n : Nat, (n : Int) = e := ⟨e.toNat, by omega⟩
  obtain ⟨m, hm⟩ : ∃ m : Nat, (m : Int) = 52 - e := ⟨(52 - e).toNat, by omega⟩
  have hnm : n + m = 52 := by omega
  have hulp : (2 : ℚ) ^ (e - 52) = ((2 : ℚ) ^ m)⁻¹ := by
    have : e - 52 = -(m : Int) := by omega
    rw [this, zpow_neg, zpow_natCast]
  have hMpos : (0 : ℚ) < (2 : ℚ) ^ m := by positivity
  rw [hulp, div_inv_eq_mul]
  have hlo2 : (2 : ℚ) ^ n ≤ (a : ℚ) / (b : ℚ) := by
    rw [← hn, zpow_natCast] at hlo
    exact hlo
  -- b * 2 ^ n ≤ a < 2 ^ 53, hence b < 2 * 2 ^ m
  have hb2 : (b : ℚ) < 2 * (2 : ℚ) ^ m := by
    have h1 : (2 : ℚ) ^ n * (b : ℚ) ≤ (a : ℚ) := by
      rwa [le_div_iff₀ hbq] at hlo2
    have h2 : (a : ℚ) < (2 : ℚ) ^ n * (2 * (2 : ℚ) ^ m) := by
      have h3 : (a : ℚ) < ((2 ^ 53 : Int) : ℚ) := by exact_mod_cast ha
      have h4 : (2 : ℚ) ^ n * (2 * (2 : ℚ) ^ m) = ((2 ^ 53 : Int) : ℚ) := by
        have : (2 : ℚ) ^ n * (2 * (2 : ℚ) ^ m) = (2 : ℚ) ^ (n + m + 1) := by ring
        rw [this, hnm]
        norm_num
      rw [h4]
      exact h3
    have h5 : (0 : ℚ) < (2 : ℚ) ^ n := by positivity
    exact lt_of_mul_lt_mul_left (lt_of_le_of_lt h1 h2) (le_of_lt h5)
  have hkq : (k : ℚ) ≤ (a : ℚ) / (b : ℚ) := by
    rw [le_div_iff₀ hbq]
    exact_mod_cast hkb
  have hkq2 : (a : ℚ) / (b : ℚ) + 1 / (b : ℚ) ≤ (k : ℚ) + 1 := by
    rw [← add_div, div_le_iff₀ hbq]
    exact_mod_cast hkb2
  have hge : k * (2 ^ m : Int) ≤ roundHalfEven ((a : ℚ) / (b : ℚ) * (2 : ℚ) ^ m) := by
    apply roundHalfEven_ge
    push_cast
    exact mul_le_mul_of_nonneg_right hkq (le_of_lt hMpos)
  have hlt : roundHalfEven ((a : ℚ) / (b : ℚ) * (2 : ℚ) ^ m) < (k + 1) * (2 ^ m : Int) := by
    apply roundHalfEven_lt
    push_cast
    have h6 : (1 : ℚ) / 2 < 1 / (b : ℚ) * (2 : ℚ) ^ m := by
      rw [one_div_mul_eq_div, lt_div_iff₀ hbq]
      linarith
    have h7 : ((a : ℚ) / (b : ℚ) + 1 / (b : ℚ)) * (2 : ℚ) ^ m ≤ ((k : ℚ) + 1) * (2 : ℚ) ^ m :=
      mul_le_mul_of_nonneg_right hkq2 (le_of_lt hMpos)
    linarith
  rw [Int.floor_eq_iff]
  constructor
  · rw [le_mul_inv_iff₀ hMpos]
    exact_mod_cast hge
  · rw [mul_inv_lt_iff₀ hMpos]
    exact_mod_cast hlt

theorem float64Div_safe (a : Int) (b : Nat) (hb : 0 < b) (ha0 : 0 ≤ a) (ha : a < 2 ^ 53) :
    max 1 ⌊float64Div a b⌋ = max 1 (a / (b : Int)) := by
  by_cases hab : a < b
  · rw [float64Div_small a b ha0 hab, Int.ediv_eq_zero_of_lt ha0 hab]
    rfl
  · rw [float64Div_floor a b hb (by omega) ha]

theorem float64Div_rounds_up : ⌊float64Div 13510798882111490 3⌋ = 4503599627370497 := by
  unfold float64Div
  rw [roundToDouble_of_binade _ 52 (by norm_num) (by norm_num) (by norm_num) (by norm_num)]
  have h1 : ((52 : Int) - 52) = 0 := rfl
  have hf : ⌊((13510798882111490 : Int) : ℚ) / ((3 : Nat) : ℚ)⌋ = 4503599627370496 := by
    rw [Rat.floor_intCast_div_natCast]
    rfl
  rw [h1, zpow_zero, div_one, mul_one, Int.floor_intCast,
    roundHalfEven_of_frac_gt _ (by rw [hf]; norm_num), hf]
  rfl

theorem roundToDouble_tenth :
    roundToDouble (1 / 10) = 3602879701896397 / 36028797018963968 := by
  rw [roundToDouble_of_binade _ (-4) (by norm_num) (by norm_num) (by norm_num) (by norm_num)]
  have hx : (1 / 10 : ℚ) / 2 ^ ((-4 : Int) - 52) = 36028797018963968 / 5 := by norm_num
  have hf : ⌊(36028797018963968 / 5 : ℚ)⌋ = 7205759403792793 := by
    rw [Int.floor_eq_iff]
    norm_num
  rw [hx, roundHalfEven_of_frac_gt _ (by rw [hf]; norm_num), hf]
  norm_num

theorem calculateTargetSizes_eq_stretched (segs : List Boundary) (targetSize : Int) :
    calculateTargetSizes segs targetSize =
      segs.map (fun s => if s.stretchable then stretchedSizeOf segs targetSize
        else s.stop - s.start) := by
  unfold calculateTargetSizes stretchedSizeOf
  simp only [countSizes_eq]
  have h := foldl_push_map
    (fun region : Boundary =>
      if region.stretchable then
        max 1 ⌊(if stretchableCountOf segs > 0 then
          float64Div (max 0 (targetSize - staticSizeOf segs)) (stretchableCountOf segs)
          else 0 : ℚ)⌋
      else region.stop - region.start) segs []
  have h2 : ∀ (l : List Boundary) (acc : List Int),
      l.foldl (fun sizes region =>
        if region.stretchable = true then
          sizes ++ [max 1 ⌊(if stretchableCountOf segs > 0 then
            float64Div (max 0 (targetSize - staticSizeOf segs)) (stretchableCountOf segs)
            else 0 : ℚ)⌋]
        else sizes ++ [region.stop - region.start]) acc =
      l.foldl (fun sizes region => sizes ++ [(fun region : Boundary =>
        if region.stretchable then
          max 1 ⌊(if stretchableCountOf segs > 0 then
            float64Div (max 0 (targetSize - staticSizeOf segs)) (stretchableCountOf segs)
            else 0 : ℚ)⌋
        else region.stop - region.start) region]) acc := by
    intro l acc
    congr 1
    funext sizes region
    by_cases hr : region.stretchable = true <;> simp [hr]
  rw [h2, h, List.nil_append]

theorem targetSizeOf_int (segs : List Boundary) (targetSize : Int) (s : Boundary) :
    targetSizeOf segs targetSize s =
      if s.stretchable then
        max 1 (max 0 (targetSize - staticSizeOf segs) / (stretchableCountOf segs : Int))
      else s.stop - s.start := by
  unfold targetSizeOf
  rw [Rat.floor_intCast_div_natCast]

theorem sum_map_sizes (l : List Boundary) (c : Int) :
    (l.map (fun s => if s.stretchable then c else s.stop - s.start)).sum =
      staticSizeOf l + (stretchableCountOf l : Int) * c := by
  induction l with
  | nil => simp [staticSizeOf, stretchableCountOf]
  | cons s t ih =>
    rw [List.map_cons, List.sum_cons, ih]
    cases hs : s.stretchable <;>
      simp [staticSizeOf, stretchableCountOf, List.filter_cons, hs] <;> ring

theorem calculateTargetSizes_sum (segs : List Boundary) (targetSize : Int) :
    (calculateTargetSizes segs targetSize).sum =
      staticSizeOf segs + (stretchableCountOf segs : Int) * stretchedSizeOf segs targetSize := by
  rw [calculateTargetSizes_eq_stretched, sum_map_sizes]

theorem stretchedSizeOf_safe (segs : List Boundary) (targetSize : Int)
    (hn : 1 ≤ stretchableCountOf segs) (hs : targetSize - staticSizeOf segs < 2 ^ 53) :
    stretchedSizeOf segs targetSize =
      max 1 (max 0 (targetSize - staticSizeOf segs) / (stretchableCountOf segs : Int)) := by
  unfold stretchedSizeOf
  rw [if_pos (by omega)]
  apply float64Div_safe _ _ (by omega) (le_max_left _ _)
  exact max_lt (by norm_num) hs

theorem stretchedSizeOf_small (segs : List Boundary) (targetSize : Int)
    (hn : 1 ≤ stretchableCountOf segs)
    (h : targetSize < staticSizeOf segs + stretchableCountOf segs) :
    stretchedSizeOf segs targetSize = 1 := by
  unfold stretchedSizeOf
  rw [if_pos (by omega)]
  apply float64Div_small _ _ (le_max_left _ _)
  have : (0 : Int) < (stretchableCountOf segs : Int) := by exact_mod_cast hn
  exact max_lt this (by omega)

theorem staticSizeOf_nonneg (segs : List Boundary) (h : ∀ s ∈ segs, s.start ≤ s.stop) :
    0 ≤ staticSizeOf segs := by
  unfold staticSizeOf
  apply List.sum_nonneg
  intro x hx
  obtain ⟨s, hs, rfl⟩ := List.mem_map.1 hx
  have := h s (List.mem_of_mem_filter hs)
  omega

theorem boundaries_ordered (regions : List StretchRegion) (totalSize : Int)
    (hvalid : ValidRegions totalSize regions) :
    ∀ s ∈ getRegionBoundaries regions totalSize, s.start ≤ s.stop := by
  intro s hs
  rw [getRegionBoundaries_eq] at hs
  exact le_of_lt (boundariesFrom_positive totalSize 0 regions
    (validRegions_regionsFrom hvalid) s hs)

theorem calculateTargetSizes_eq_map (segs : List Boundary) (targetSize : Int)
    (hs : targetSize - staticSizeOf segs < 2 ^ 53) :
    calculateTargetSizes segs targetSize = segs.map (targetSizeOf segs targetSize) := by
  rw [calculateTargetSizes_eq_stretched]
  apply List.map_congr_left
  intro s hmem
  rw [targetSizeOf_int]
  cases hst : s.stretchable with
  | false => rfl
  | true =>
    simp only [if_true]
    exact stretchedSizeOf_safe segs targetSize (stretchableCountOf_pos hmem hst) hs

theorem calculateTargetSizes_threeStretchable :
    staticSizeOf threeStretchable = 0 ∧ stretchableCountOf threeStretchable = 3 ∧
      calculateTargetSizes threeStretchable 13510798882111490 =
        [4503599627370497, 4503599627370497, 4503599627370497] ∧
      threeStretchable.map (targetSizeOf threeStretchable 13510798882111490) =
        [4503599627370496, 4503599627370496, 4503599627370496] := by
  have hs : staticSizeOf threeStretchable = 0 := by decide
  have hn : stretchableCountOf threeStretchable = 3 := by decide
  refine ⟨hs, hn, ?_, ?_⟩
  · have hc : stretchedSizeOf threeStretchable 13510798882111490 = 4503599627370497 := by
      unfold stretchedSizeOf
      rw [hs, hn, if_pos (by norm_num)]
      have : max (0 : Int) (13510798882111490 - 0) = 13510798882111490 := rfl
      rw [this, float64Div_rounds_up]
      rfl
    rw [calculateTargetSizes_eq_stretched, hc]
    rfl
  · have hf : targetSizeOf threeStretchable 13510798882111490 =
        fun s => if s.stretchable then 4503599627370496 else s.stop - s.start := by
      funext s
      rw [targetSizeOf_int, hs, hn]
      rfl
    rw [hf]
    rfl

/-- C16, counterexample. For three stretchable segments (`staticSize = 0`,
`stretchableCount = 3`) and the integer `targetSize = 13510798882111490`, the exact
quotient `4503599627370496.66…` lies between `2 ^ 52` and `2 ^ 53`, where the doubles are
the integers, so the double quotient is `4503599627370497` and `calculateTargetSizes`
returns that size for each segment, while
`max(1, floor(max(0, targetSize - staticSize) / stretchableCount))` is
`4503599627370496`. -/
theorem calculateTargetSizes_sizes_rounded_up :
    calculateTargetSizes threeStretchable 13510798882111490 =
        [4503599627370497, 4503599627370497, 4503599627370497] ∧
      threeStretchable.map (targetSizeOf threeStretchable 13510798882111490) =
        [4503599627370496, 4503599627370496, 4503599627370496] ∧
      calculateTargetSizes threeStretchable 13510798882111490 ≠
        threeStretchable.map (targetSizeOf threeStretchable 13510798882111490) := by
  obtain ⟨_, _, hc, hf⟩ := calculateTargetSizes_threeStretchable
  refine ⟨hc, hf, ?_⟩
  rw [hc, hf]
  decide

/-- C16, amended. For every segment list and every integer `targetSize`,
`calculateTargetSizes` returns a list of the same length in which each static segment's
size is its length `end - start` and every stretchable segment receives one common size,
which is at least 1; when every segment has `start ≤ end` and `targetSize < 2 ^ 53`, that
size is `max(1, floor(max(0, targetSize - staticSize) / stretchableCount))`. -/
theorem calculateTargetSizes_sizes (segs : List Boundary) (targetSize : Int) :
    (calculateTargetSizes segs targetSize).length = segs.length ∧
      calculateTargetSizes segs targetSize =
        segs.map (fun s => if s.stretchable then stretchedSizeOf segs targetSize
          else s.stop - s.start) ∧
      1 ≤ stretchedSizeOf segs targetSize ∧
      ((∀ s ∈ segs, s.start ≤ s.stop) → targetSize < 2 ^ 53 →
        calculateTargetSizes segs targetSize = segs.map (targetSizeOf segs targetSize) ∧
        (∀ s ∈ segs, s.stretchable = false →
          targetSizeOf segs targetSize s = s.stop - s.start) ∧
        (∀ s ∈ segs, s.stretchable = true →
          targetSizeOf segs targetSize s =
            max 1 ⌊(((max 0 (targetSize - staticSizeOf segs) : Int) : ℚ)) /
              ((stretchableCountOf segs : Nat) : ℚ)⌋ ∧
          1 ≤ targetSizeOf segs targetSize s)) := by
  refine ⟨?_, calculateTargetSizes_eq_stretched segs targetSize, ?_, fun hseg hT => ?_⟩
  · rw [calculateTargetSizes_eq_stretched, List.length_map]
  · unfold stretchedSizeOf
    exact le_max_left _ _
  · have hsafe : targetSize - staticSizeOf segs < 2 ^ 53 := by
      have := staticSizeOf_nonneg segs hseg
      omega
    refine ⟨calculateTargetSizes_eq_map segs targetSize hsafe, ?_, ?_⟩
    · intro s _ hs
      simp [targetSizeOf, hs]
    · intro s _ hs
      simp [targetSizeOf, hs]

/-- C18. For every segment list and every integer `targetSize` with
`targetSize < staticSize + stretchableCount`, the sizes returned by `calculateTargetSizes`
sum to exactly `staticSize + stretchableCount`, which exceeds `targetSize` by
`staticSize + stretchableCount - targetSize > 0`. -/
theorem calculateTargetSizes_overflow (segs : List Boundary) (targetSize : Int)
    (h : targetSize < staticSizeOf segs + stretchableCountOf segs) :
    (calculateTargetSizes segs targetSize).sum = staticSizeOf segs + stretchableCountOf segs ∧
      (calculateTargetSizes segs targetSize).sum - targetSize =
        staticSizeOf segs + stretchableCountOf segs - targetSize ∧
      0 < staticSizeOf segs + stretchableCountOf segs - targetSize := by
  have hsum : (calculateTargetSizes segs targetSize).sum =
      staticSizeOf segs + stretchableCountOf segs := by
    rw [calculateTargetSizes_sum]
    rcases Nat.eq_zero_or_pos (stretchableCountOf segs) with h0 | hpos
    · rw [h0]; simp
    · rw [stretchedSizeOf_small segs targetSize hpos h]
      simp
  exact ⟨hsum, by rw [hsum], by omega⟩

theorem calculateTargetSizes_sum_fit (segs : List Boundary) (targetSize : Int)
    (hn : 1 ≤ stretchableCountOf segs)
    (h : staticSizeOf segs + stretchableCountOf segs ≤ targetSize)
    (hsafe : targetSize - staticSizeOf segs < 2 ^ 53) :
    (calculateTargetSizes segs targetSize).sum =
      targetSize - (targetSize - staticSizeOf segs) % (stretchableCountOf segs : Int) := by
  rw [calculateTargetSizes_sum, stretchedSizeOf_safe segs targetSize hn hsafe]
  have hpos : (0 : Int) < (stretchableCountOf segs : Int) := by exact_mod_cast hn
  have ha : max 0 (targetSize - staticSizeOf segs) = targetSize - staticSizeOf segs := by
    apply max_eq_right; omega
  rw [ha]
  have hq : 1 ≤ (targetSize - staticSizeOf segs) / (stretchableCountOf segs : Int) := by
    rw [Int.le_ediv_iff_mul_le hpos]; omega
  rw [max_eq_right hq]
  have := Int.emod_add_ediv (targetSize - staticSizeOf segs) (stretchableCountOf segs : Int)
  omega

theorem stretchableCountOf_boundaries (regions : List StretchRegion) (totalSize : Int) :
    stretchableCountOf (getRegionBoundaries regions totalSize) = regions.length := by
  have h := congrArg List.length (boundariesFrom_stretchable totalSize 0 regions)
  rw [List.length_map, List.length_map] at h
  rw [getRegionBoundaries_eq]
  exact h

theorem calculateTargetSizes_separated :
    getRegionBoundaries separatedRegions 3 =
        [⟨0, 1, true⟩, ⟨1, 2, false⟩, ⟨2, 3, true⟩] ∧
      staticSizeOf (getRegionBoundaries separatedRegions 3) = 1 ∧
      stretchableCountOf (getRegionBoundaries separatedRegions 3) = 2 ∧
      calculateTargetSizes (getRegionBoundaries separatedRegions 3) 4 = [1, 1, 1] := by
  have h : getRegionBoundaries separatedRegions 3 =
      [⟨0, 1, true⟩, ⟨1, 2, false⟩, ⟨2, 3, true⟩] := by decide
  have hs : staticSizeOf (getRegionBoundaries separatedRegions 3) = 1 := by rw [h]; decide
  have hn : stretchableCountOf (getRegionBoundaries separatedRegions 3) = 2 := by
    rw [h]; decide
  refine ⟨h, hs, hn, ?_⟩
  have hf : targetSizeOf (getRegionBoundaries separatedRegions 3) 4 =
      fun s => if s.stretchable then max 1 (max 0 (4 - 1) / (2 : Int)) else s.stop - s.start := by
    funext s
    rw [targetSizeOf_int, hs, hn]
    rfl
  rw [calculateTargetSizes_eq_map _ _ (by rw [hs]; norm_num), hf, h]
  decide

/-- C16, witness: the amended theorem at the partition of the regions `[0, 0]`, `[2, 2]`
of a content extent of 3, with `targetSize = 4`: the sizes are those of the formula. -/
theorem calculateTargetSizes_sizes_witness :
    (∀ s ∈ getRegionBoundaries separatedRegions 3, s.start ≤ s.stop) ∧
      (4 : Int) < 2 ^ 53 ∧
      calculateTargetSizes (getRegionBoundaries separatedRegions 3) 4 =
        (getRegionBoundaries separatedRegions 3).map
          (targetSizeOf (getRegionBoundaries separatedRegions 3) 4) ∧
      (calculateTargetSizes (getRegionBoundaries separatedRegions 3) 4).length =
        (getRegionBoundaries separatedRegions 3).length :=
  ⟨by rw [calculateTargetSizes_separated.1]; decide, by decide,
    ((calculateTargetSizes_sizes (getRegionBoundaries separatedRegions 3) 4).2.2.2
      (by rw [calculateTargetSizes_separated.1]; decide) (by decide)).1,
    (calculateTargetSizes_sizes (getRegionBoundaries separatedRegions 3) 4).1⟩

/-- C17, counterexample. The regions `[0, 0]`, `[2, 2]` of a content extent of 3 are a
non-empty valid region list; their partition has `staticSize = 1` and
`stretchableCount = 2`; for `targetSize = 4 ≥ 3` the sizes returned by
`calculateTargetSizes` are `[1, 1, 1]`, whose sum 3 is not 4. -/
theorem calculateTargetSizes_sum_not_target :
    separatedRegions ≠ [] ∧ ValidRegions 3 separatedRegions ∧
      staticSizeOf (getRegionBoundaries separatedRegions 3) +
        stretchableCountOf (getRegionBoundaries separatedRegions 3) ≤ (4 : Int) ∧
      calculateTargetSizes (getRegionBoundaries separatedRegions 3) 4 = [1, 1, 1] ∧
      (calculateTargetSizes (getRegionBoundaries separatedRegions 3) 4).sum ≠ 4 := by
  obtain ⟨_, hs, hn, hc⟩ := calculateTargetSizes_separated
  refine ⟨by simp [separatedRegions], validRegions_separated, ?_, hc, ?_⟩
  · rw [hs, hn]; decide
  · rw [hc]; decide

/-- C17, amended. For every valid axis partition (the segments `getRegionBoundaries`
returns for a non-empty valid stretch-region list) and every integer `targetSize` with
`staticSize + stretchableCount ≤ targetSize < 2 ^ 53`, the sizes returned by
`calculateTargetSizes` sum to
`targetSize - ((targetSize - staticSize) mod stretchableCount)`; the sum equals
`targetSize` exactly when `stretchableCount` divides `targetSize - staticSize`. -/
theorem calculateTargetSizes_sum_of_partition (regions : List StretchRegion)
    (totalSize targetSize : Int) (hne : regions ≠ []) (hvalid : ValidRegions totalSize regions)
    (h : staticSizeOf (getRegionBoundaries regions totalSize) +
      stretchableCountOf (getRegionBoundaries regions totalSize) ≤ targetSize)
    (hT : targetSize < 2 ^ 53) :
    (calculateTargetSizes (getRegionBoundaries regions totalSize) targetSize).sum =
        targetSize - (targetSize - staticSizeOf (getRegionBoundaries regions totalSize)) %
          (stretchableCountOf (getRegionBoundaries regions totalSize) : Int) ∧
      ((calculateTargetSizes (getRegionBoundaries regions totalSize) targetSize).sum =
          targetSize ↔
        (stretchableCountOf (getRegionBoundaries regions totalSize) : Int) ∣
          targetSize - staticSizeOf (getRegionBoundaries regions totalSize)) := by
  have hn : 1 ≤ stretchableCountOf (getRegionBoundaries regions totalSize) := by
    rw [stretchableCountOf_boundaries]
    exact List.length_pos.2 hne
  have hsafe : targetSize - staticSizeOf (getRegionBoundaries regions totalSize) < 2 ^ 53 := by
    have := staticSizeOf_nonneg _ (boundaries_ordered regions totalSize hvalid)
    omega
  have hsum := calculateTargetSizes_sum_fit _ targetSize hn h hsafe
  refine ⟨hsum, ?_⟩
  rw [hsum, Int.dvd_iff_emod_eq_zero]
  constructor <;> intro h0 <;> omega

/-- C17, witness: the amended theorem at the regions `[0, 0]`, `[2, 2]` with
`targetSize = 4`, where the sum is `4 - (3 mod 2) = 3`. -/
theorem calculateTargetSizes_sum_of_partition_witness :
    separatedRegions ≠ [] ∧ ValidRegions 3 separatedRegions ∧
      staticSizeOf (getRegionBoundaries separatedRegions 3) +
        stretchableCountOf (getRegionBoundaries separatedRegions 3) ≤ (4 : Int) ∧
      (4 : Int) < 2 ^ 53 ∧
      (calculateTargetSizes (getRegionBoundaries separatedRegions 3) 4).sum =
        4 - (4 - staticSizeOf (getRegionBoundaries separatedRegions 3)) %
          (stretchableCountOf (getRegionBoundaries separatedRegions 3) : Int) :=
  ⟨by simp [separatedRegions], validRegions_separated,
    by rw [calculateTargetSizes_separated.2.1, calculateTargetSizes_separated.2.2.1]; decide,
    by decide,
    (calculateTargetSizes_sum_of_partition separatedRegions 3 4 (by simp [separatedRegions])
      validRegions_separated
      (by rw [calculateTargetSizes_separated.2.1, calculateTargetSizes_separated.2.2.1]
          decide)
      (by decide)).1⟩

/-- C18, witness: the theorem at the partition of the regions `[0, 0]`, `[2, 2]` with
`targetSize = 2 < 1 + 2`. -/
theorem calculateTargetSizes_overflow_witness :
    (2 : Int) < staticSizeOf (getRegionBoundaries separatedRegions 3) +
        stretchableCountOf (getRegionBoundaries separatedRegions 3) ∧
      (calculateTargetSizes (getRegionBoundaries separatedRegions 3) 2).sum =
        staticSizeOf (getRegionBoundaries separatedRegions 3) +
          stretchableCountOf (getRegionBoundaries separatedRegions 3) :=
  ⟨by rw [calculateTargetSizes_separated.2.1, calculateTargetSizes_separated.2.2.1]; decide,
    (calculateTargetSizes_overflow (getRegionBoundaries separatedRegions 3) 2
      (by rw [calculateTargetSizes_separated.2.1, calculateTargetSizes_separated.2.2.1]
          decide)).1⟩

theorem prefixSum_succ (sizes : List Int) (k : Nat) :
    prefixSum sizes (k + 1) = prefixSum sizes k + sizes.getD k 0 := by
  simp [prefixSum, List.range_succ]

theorem foldl_range_accum {α : Type} (g : Nat → Int → α) (w : Nat → Int) (acc : List α)
    (n : Nat) :
    (List.range n).foldl (fun (t : List α × Int) col => (t.1 ++ [g col t.2], t.2 + w col))
        (acc, 0) =
      (acc ++ (List.range n).map (fun col => g col (((List.range col).map w).sum)),
        ((List.range n).map w).sum) := by
  induction n with
  | zero => simp
  | succ k ih =>
    rw [List.range_succ, List.foldl_append, ih]
    simp

theorem foldl_range_rows {α : Type} (g : Nat → Int → List α) (w : Nat → Int) (n : Nat) :
    (List.range n).foldl (fun (s : List α × Int) row => (s.1 ++ g row s.2, s.2 + w row))
        ([], 0) =
      ((List.range n).flatMap (fun row => g row (((List.range row).map w).sum)),
        ((List.range n).map w).sum) := by
  induction n with
  | zero => simp
  | succ k ih =>
    rw [List.range_succ, List.foldl_append, ih]
    simp [List.flatMap_append]

theorem calculateNineGridRegions_eq (info : NinePatchInfo)
    (sourceWidth sourceHeight targetWidth targetHeight : Int) :
    calculateNineGridRegions info sourceWidth sourceHeight targetWidth targetHeight =
      (List.range (getRegionBoundaries info.stretchRegionsY sourceHeight).length).flatMap
        (fun row =>
          (List.range (getRegionBoundaries info.stretchRegionsX sourceWidth).length).map
            (gridCell (getRegionBoundaries info.stretchRegionsX sourceWidth)
              (getRegionBoundaries info.stretchRegionsY sourceHeight)
              (calculateTargetSizes
                (getRegionBoundaries info.stretchRegionsX sourceWidth) targetWidth)
              (calculateTargetSizes
                (getRegionBoundaries info.stretchRegionsY sourceHeight) targetHeight)
              row)) := by
  unfold calculateNineGridRegions
  simp only
  generalize getRegionBoundaries info.stretchRegionsX sourceWidth = xR
  generalize getRegionBoundaries info.stretchRegionsY sourceHeight = yR
  generalize calculateTargetSizes xR targetWidth = xS
  generalize calculateTargetSizes yR targetHeight = yS
  have h := foldl_range_rows
    (fun row ty => (List.range xR.length).map
      (fun col => ({ sourceX := (xR.getD col ⟨0, 0, false⟩).start
                     sourceY := (yR.getD row ⟨0, 0, false⟩).start
                     sourceWidth := (xR.getD col ⟨0, 0, false⟩).stop -
                       (xR.getD col ⟨0, 0, false⟩).start
                     sourceHeight := (yR.getD row ⟨0, 0, false⟩).stop -
                       (yR.getD row ⟨0, 0, false⟩).start
                     targetX := prefixSum xS col
                     targetY := ty
                     targetWidth := xS.getD col 0
                     targetHeight := yS.getD row 0 } : GridRegion)))
    (fun row => yS.getD row 0) yR.length
  have hstep : (fun (s : List GridRegion × Int) row =>
      ((gridRow xR yR xS yS row s.2 s.1).1, s.2 + yS.getD row 0)) =
      (fun (s : List GridRegion × Int) row =>
        (s.1 ++ (fun row ty => (List.range xR.length).map
          (fun col => ({ sourceX := (xR.getD col ⟨0, 0, false⟩).start
                         sourceY := (yR.getD row ⟨0, 0, false⟩).start
                         sourceWidth := (xR.getD col ⟨0, 0, false⟩).stop -
                           (xR.getD col ⟨0, 0, false⟩).start
                         sourceHeight := (yR.getD row ⟨0, 0, false⟩).stop -
                           (yR.getD row ⟨0, 0, false⟩).start
                         targetX := prefixSum xS col
                         targetY := ty
                         targetWidth := xS.getD col 0
                         targetHeight := yS.getD row 0 } : GridRegion))) row s.2,
          s.2 + (fun row => yS.getD row 0) row)) := by
    funext s row
    unfold gridRow
    rw [foldl_range_accum
      (fun col tx =>
        ({ sourceX := (xR.getD col ⟨0, 0, false⟩).start
           sourceY := (yR.getD row ⟨0, 0, false⟩).start
           sourceWidth := (xR.getD col ⟨0, 0, false⟩).stop -
             (xR.getD col ⟨0, 0, false⟩).start
           sourceHeight := (yR.getD row ⟨0, 0, false⟩).stop -
             (yR.getD row ⟨0, 0, false⟩).start
           targetX := tx
           targetY := s.2
           targetWidth := xS.getD col 0
           targetHeight := yS.getD row 0 } : GridRegion))
      (fun col => xS.getD col 0)]
    rfl
  rw [hstep, h]
  rfl

theorem grid_length {α : Type} (f : Nat → Nat → α) (n m : Nat) :
    ((List.range n).flatMap (fun row => (List.range m).map (f row))).length = n * m := by
  induction n with
  | zero => simp
  | succ k ih =>
    rw [List.range_succ, List.flatMap_append, List.length_append, ih]
    simp
    ring

theorem grid_getElem? {α : Type} (f : Nat → Nat → α) (n m row col : Nat) (hrow : row < n)
    (hcol : col < m) :
    ((List.range n).flatMap (fun row => (List.range m).map (f row)))[row * m + col]? =
      some (f row col) := by
  induction n with
  | zero => omega
  | succ k ih =>
    rw [List.range_succ, List.flatMap_append]
    by_cases hk : row < k
    · have hlt : row * m + col < k * m := by
        calc row * m + col < row * m + m := by omega
          _ = (row + 1) * m := by ring
          _ ≤ k * m := Nat.mul_le_mul_right _ hk
      rw [List.getElem?_append_left (by rw [grid_length]; exact hlt)]
      exact ih hk
    · have hrk : row = k := by omega
      subst hrk
      rw [List.getElem?_append_right (by rw [grid_length]; omega), grid_length]
      simp [hcol]

/-- C19. The function `calculateNineGridRegions` returns exactly `|yRegions| * |xRegions|`
cells in row-major order: the cell at index `row * |xRegions| + col` has
`sourceX = xRegions[col].start`, `sourceWidth = xRegions[col].end - xRegions[col].start`,
`targetWidth = xTargetSizes[col]`, `targetX` the sum of `xTargetSizes[c]` for `c < col`,
and symmetrically `sourceY`, `sourceHeight`, `targetHeight`, `targetY` from the row; so in a
row the next cell's `targetX` is this cell's `targetX + targetWidth`. -/
theorem calculateNineGridRegions_cells (info : NinePatchInfo)
    (sourceWidth sourceHeight targetWidth targetHeight : Int) :
    (calculateNineGridRegions info sourceWidth sourceHeight targetWidth targetHeight).length =
        (getRegionBoundaries info.stretchRegionsY sourceHeight).length *
          (getRegionBoundaries info.stretchRegionsX sourceWidth).length ∧
      (∀ row col, row < (getRegionBoundaries info.stretchRegionsY sourceHeight).length →
        col < (getRegionBoundaries info.stretchRegionsX sourceWidth).length →
        (calculateNineGridRegions info sourceWidth sourceHeight targetWidth targetHeight)[
            row * (getRegionBoundaries info.stretchRegionsX sourceWidth).length + col]? =
          some (gridCell (getRegionBoundaries info.stretchRegionsX sourceWidth)
            (getRegionBoundaries info.stretchRegionsY sourceHeight)
            (calculateTargetSizes
              (getRegionBoundaries info.stretchRegionsX sourceWidth) targetWidth)
            (calculateTargetSizes
              (getRegionBoundaries info.stretchRegionsY sourceHeight) targetHeight)
            row col)) ∧
      (∀ (xR yR : List Boundary) (xS yS : List Int) (row col : Nat),
        (gridCell xR yR xS yS row (col + 1)).targetX =
          (gridCell xR yR xS yS row col).targetX + (gridCell xR yR xS yS row col).targetWidth ∧
        (gridCell xR yR xS yS (row + 1) col).targetY =
          (gridCell xR yR xS yS row col).targetY +
            (gridCell xR yR xS yS row col).targetHeight) := by
  rw [calculateNineGridRegions_eq]
  refine ⟨grid_length _ _ _, fun row col hrow hcol => grid_getElem? _ _ _ row col hrow hcol, ?_⟩
  intro xR yR xS yS row col
  exact ⟨prefixSum_succ xS col, prefixSum_succ yS row⟩

theorem validateSignatureLoop_match (view : List Nat) (i : Nat) (rest : List Nat)
    (h : view[i]? = some (PNG_SIGNATURE.getD i 0)) :
    validateSignatureLoop view (i :: rest) = validateSignatureLoop view rest := by
  have hlt : i < view.length := by
    by_contra hge
    rw [List.getElem?_eq_none (by omega)] at h
    simp at h
  have hget : view.getD i 0 = PNG_SIGNATURE.getD i 0 := by
    rw [List.getD_eq_getElem?_getD, h]; rfl
  simp only [validateSignatureLoop, getUint8]
  rw [if_neg (by omega)]
  simp only [pure, Except.pure, bind, Except.bind]
  rw [if_neg (by simpa using hget)]

theorem validateSignatureLoop_mismatch (view : List Nat) (i : Nat) (rest : List Nat)
    (hlt : i < view.length) (hne : view.getD i 0 ≠ PNG_SIGNATURE.getD i 0) :
    validateSignatureLoop view (i :: rest) = .ok false := by
  simp only [validateSignatureLoop, getUint8]
  rw [if_neg (by omega)]
  simp only [pure, Except.pure, bind, Except.bind]
  rw [if_pos hne]

theorem validateSignatureLoop_short (view : List Nat) (i : Nat) (rest : List Nat)
    (hge : view.length ≤ i) :
    validateSignatureLoop view (i :: rest) = .error "RangeError" := by
  simp only [validateSignatureLoop, getUint8]
  rw [if_pos (by omega)]
  rfl

theorem validateSignatureLoop_all (view : List Nat) (l : List Nat)
    (h : ∀ j ∈ l, view[j]? = some (PNG_SIGNATURE.getD j 0)) :
    validateSignatureLoop view l = .ok true := by
  induction l with
  | nil => rfl
  | cons a t ih =>
    rw [validateSignatureLoop_match view a t (h a (List.mem_cons_self _ _))]
    exact ih (fun j hj => h j (List.mem_cons_of_mem _ hj))

theorem validateSignatureLoop_first (view : List Nat) (l : List Nat) (i : Nat)
    (hsorted : l.Pairwise (· < ·)) (hi : i ∈ l)
    (hpre : ∀ j < i, view[j]? = some (PNG_SIGNATURE.getD j 0)) :
    validateSignatureLoop view l = validateSignatureLoop view (i :: l.filter (fun j => i < j)) := by
  induction l with
  | nil => simp at hi
  | cons a t ih =>
    rw [List.pairwise_cons] at hsorted
    rcases List.mem_cons.1 hi with rfl | hit
    · have : List.filter (fun j => decide (i < j)) (i :: t) = t := by
        rw [List.filter_cons]
        simp only [lt_self_iff_false, decide_False, Bool.false_eq_true, if_false]
        rw [List.filter_eq_self]
        intro j hj
        simpa using hsorted.1 j hj
      rw [this]
    · have hai : a < i := hsorted.1 i hit
      rw [validateSignatureLoop_match view a t (hpre a hai), ih hsorted.2 hit]
      have : List.filter (fun j => decide (i < j)) (a :: t) =
          List.filter (fun j => decide (i < j)) t := by
        rw [List.filter_cons]
        have : ¬ i < a := by omega
        simp [this]
      rw [this]

theorem range_signature_sorted : (List.range PNG_SIGNATURE.length).Pairwise (· < ·) :=
  List.pairwise_lt_range _

theorem validateSignature_of_mismatch (view : List Nat) (i : Nat) (hi : i < 8)
    (hlt : i < view.length) (hpre : ∀ j < i, view[j]? = some (PNG_SIGNATURE.getD j 0))
    (hne : view.getD i 0 ≠ PNG_SIGNATURE.getD i 0) : validateSignature view = .ok false := by
  unfold validateSignature
  rw [validateSignatureLoop_first view _ i range_signature_sorted
    (by rw [List.mem_range]; exact hi) hpre]
  exact validateSignatureLoop_mismatch view i _ hlt hne

theorem validateSignature_of_short (view : List Nat) (hlen : view.length < 8)
    (hpre : ∀ j < view.length, view[j]? = some (PNG_SIGNATURE.getD j 0)) :
    validateSignature view = .error "RangeError" := by
  unfold validateSignature
  rw [validateSignatureLoop_first view _ view.length range_signature_sorted
    (by rw [List.mem_range]; exact hlen) hpre]
  exact validateSignatureLoop_short view _ _ (le_refl _)

theorem validateSignature_of_signature (rest : List Nat) :
    validateSignature (PNG_SIGNATURE ++ rest) = .ok true := by
  unfold validateSignature
  apply validateSignatureLoop_all
  intro j hj
  rw [List.mem_range] at hj
  have h8 : PNG_SIGNATURE.length = 8 := rfl
  rw [List.getElem?_append_left hj, List.getD_eq_getElem?_getD,
    List.getElem?_eq_getElem hj]
  rfl

theorem parseBuffer_of_invalid (buffer : List Nat) (h : validateSignature buffer = .ok false) :
    parseBuffer buffer = .error "无效的PNG文件格式" := by
  unfold parseBuffer
  simp only []
  rw [h]
  rfl

theorem parseBuffer_of_range_error (buffer : List Nat)
    (h : validateSignature buffer = .error "RangeError") :
    parseBuffer buffer = .error "RangeError" := by
  unfold parseBuffer
  simp only []
  rw [h]
  rfl

/-- C20, the failing input. On the empty buffer, and on the two-byte buffer `137 80`, the
first out-of-range `view.getUint8(i)` of `validateSignature` throws: `parseBuffer` fails
with a `RangeError`, not with the bad-signature error `无效的PNG文件格式`. The same holds
for every buffer shorter than 8 bytes that agrees with the signature on all its bytes. -/
theorem parseBuffer_short_buffer_range_error :
    parseBuffer [] = .error "RangeError" ∧
      parseBuffer [137, 80] = .error "RangeError" ∧
      (.error "RangeError" : Except String ParseResult) ≠ .error "无效的PNG文件格式" ∧
      ∀ buffer : List Nat, buffer.length < 8 →
        (∀ j < buffer.length, buffer[j]? = some (PNG_SIGNATURE.getD j 0)) →
        parseBuffer buffer = .error "RangeError" := by
  have key : ∀ buffer : List Nat, buffer.length < 8 →
      (∀ j < buffer.length, buffer[j]? = some (PNG_SIGNATURE.getD j 0)) →
      parseBuffer buffer = .error "RangeError" := fun buffer hlen hpre =>
    parseBuffer_of_range_error buffer (validateSignature_of_short buffer hlen hpre)
  refine ⟨key [] (by simp) (by simp), key [137, 80] (by simp) ?_, by decide, key⟩
  intro j hj
  simp at hj
  interval_cases j <;> rfl

/-- C12, witness: the theorem at `sampleImage`. -/
theorem parseSourceNinePatch_three_by_three_witness :
    sampleImage.width = 3 ∧ sampleImage.height = 3 ∧ sampleImage.data.length = 36 ∧
      alphaAt sampleImage 2 2 = 0 ∧ rgbaAt sampleImage 1 0 = [0, 0, 0, 255] ∧
      rgbaAt sampleImage 0 1 = [0, 0, 0, 255] ∧
      (parseSourceNinePatch sampleImage).stretchRegionsX = [⟨0, 0⟩] ∧
      (parseSourceNinePatch sampleImage).stretchRegionsY = [⟨0, 0⟩] ∧
      (parseSourceNinePatch sampleImage).errors = [] ∧
      (parseSourceNinePatch sampleImage).isValid = true :=
  ⟨rfl, rfl, by decide, by decide, by decide, by decide,
    parseSourceNinePatch_three_by_three sampleImage rfl rfl (by decide) (by decide) (by decide)
      (by decide) (by decide) (by decide) (by decide)⟩

theorem parseIHDR_short (data : List Nat) (h : data.length < 13) :
    parseIHDR data = .error "RangeError" := by
  unfold parseIHDR getUint32 getUint8
  simp only [bind, Except.bind, pure, Except.pure, throw, throwThe, MonadExceptOf.throw]
  split_ifs <;> rfl

theorem getUint32_ok (view : List Nat) (offset : Nat) (h : offset + 4 ≤ view.length) :
    getUint32 view offset =
      .ok (u32be (view.getD offset 0) (view.getD (offset + 1) 0) (view.getD (offset + 2) 0)
        (view.getD (offset + 3) 0)) := by
  unfold getUint32
  rw [if_neg (by omega)]
  rfl

theorem getUint8_ok (view : List Nat) (offset : Nat) (h : offset + 1 ≤ view.length) :
    getUint8 view offset = .ok (view.getD offset 0) := by
  unfold getUint8
  rw [if_neg (by omega)]
  rfl

theorem parseIHDR_long (b0 b1 b2 b3 b4 b5 b6 b7 b8 b9 b10 b11 b12 : Nat) (rest : List Nat) :
    parseIHDR (b0 :: b1 :: b2 :: b3 :: b4 :: b5 :: b6 :: b7 :: b8 :: b9 :: b10 :: b11 ::
        b12 :: rest) =
      .ok { width := u32be b0 b1 b2 b3
            height := u32be b4 b5 b6 b7
            bitDepth := b8
            colorType := b9
            compressionMethod := b10
            filterMethod := b11
            interlaceMethod := b12 } := by
  unfold parseIHDR
  rw [getUint32_ok _ 0 (by simp), getUint32_ok _ 4 (by simp), getUint8_ok _ 8 (by simp),
    getUint8_ok _ 9 (by simp), getUint8_ok _ 10 (by simp), getUint8_ok _ 11 (by simp),
    getUint8_ok _ 12 (by simp)]
  rfl

/-- C24. For every IHDR data block of at least 13 bytes, `parseIHDR` returns `width` = the
big-endian u32 of bytes 0..3, `height` = the big-endian u32 of bytes 4..7, and `bitDepth`,
`colorType`, `compressionMethod`, `filterMethod`, `interlaceMethod` = bytes 8, 9, 10, 11,
12; for a block shorter than 13 bytes it fails (with a `RangeError`) and returns no
fields. -/
theorem parseIHDR_fields :
    (∀ (b0 b1 b2 b3 b4 b5 b6 b7 b8 b9 b10 b11 b12 : Nat) (rest : List Nat),
      parseIHDR (b0 :: b1 :: b2 :: b3 :: b4 :: b5 :: b6 :: b7 :: b8 :: b9 :: b10 :: b11 ::
          b12 :: rest) =
        .ok { width := u32be b0 b1 b2 b3
              height := u32be b4 b5 b6 b7
              bitDepth := b8
              colorType := b9
              compressionMethod := b10
              filterMethod := b11
              interlaceMethod := b12 }) ∧
    (∀ data : List Nat, 13 ≤ data.length → ∃ info, parseIHDR data = .ok info) ∧
    (∀ data : List Nat, data.length < 13 → parseIHDR data = .error "RangeError") := by
  refine ⟨parseIHDR_long, ?_, parseIHDR_short⟩
  intro data h
  match data, h with
  | b0 :: b1 :: b2 :: b3 :: b4 :: b5 :: b6 :: b7 :: b8 :: b9 :: b10 :: b11 :: b12 :: rest, _ =>
    exact ⟨_, parseIHDR_long b0 b1 b2 b3 b4 b5 b6 b7 b8 b9 b10 b11 b12 rest⟩

theorem parseIHDR_ok_or_range (data : List Nat) :
    (∃ info, parseIHDR data = .ok info) ∨ parseIHDR data = .error "RangeError" := by
  by_cases h : data.length < 13
  · exact Or.inr (parseIHDR_short data h)
  · left
    match data, h with
    | b0 :: b1 :: b2 :: b3 :: b4 :: b5 :: b6 :: b7 :: b8 :: b9 :: b10 :: b11 :: b12 :: rest, _ =>
      exact ⟨_, parseIHDR_long b0 b1 b2 b3 b4 b5 b6 b7 b8 b9 b10 b11 b12 rest⟩
    | [], h => simp at h
    | [_], h => simp at h
    | [_, _], h => simp at h
    | [_, _, _], h => simp at h
    | [_, _, _, _], h => simp at h
    | [_, _, _, _, _], h => simp at h
    | [_, _, _, _, _, _], h => simp at h
    | [_, _, _, _, _, _, _], h => simp at h
    | [_, _, _, _, _, _, _, _], h => simp at h
    | [_, _, _, _, _, _, _, _, _], h => simp at h
    | [_, _, _, _, _, _, _, _, _, _], h => simp at h
    | [_, _, _, _, _, _, _, _, _, _, _], h => simp at h
    | [_, _, _, _, _, _, _, _, _, _, _, _], h => simp at h

theorem parseIHDR_ok_of_length (data : List Nat) (h : 13 ≤ data.length) :
    ∃ info, parseIHDR data = .ok info := by
  match data, h with
  | b0 :: b1 :: b2 :: b3 :: b4 :: b5 :: b6 :: b7 :: b8 :: b9 :: b10 :: b11 :: b12 :: rest, _ =>
    exact ⟨_, parseIHDR_long b0 b1 b2 b3 b4 b5 b6 b7 b8 b9 b10 b11 b12 rest⟩

theorem parseBuffer_of_chunks (buffer : List Nat) (chunks : List PNGChunk)
    (hsig : validateSignature buffer = .ok true) (hchunks : parseChunks buffer = .ok chunks) :
    parseBuffer buffer =
      match chunks.find? (fun chunk => chunk.type_ = "IHDR") with
      | none => .error "缺少IHDR chunk"
      | some ihdr =>
        match parseIHDR ihdr.data with
        | .error e => .error e
        | .ok imageInfo =>
          .ok { imageInfo := imageInfo, chunks := chunks,
                ninePatchChunk := chunks.find? (fun chunk => chunk.type_ = "npTc"),
                isNinePatch := (chunks.find? (fun chunk => chunk.type_ = "npTc")).isSome,
                buffer := buffer } := by
  unfold parseBuffer
  simp only []
  rw [hsig, hchunks]
  cases hfind : chunks.find? (fun chunk => chunk.type_ = "IHDR") with
  | none =>
    simp [bind, Except.bind, pure, Except.pure, throw, throwThe, MonadExceptOf.throw, hfind]
  | some ihdr =>
    cases h : parseIHDR ihdr.data with
    | error e =>
      simp [bind, Except.bind, pure, Except.pure, throw, throwThe, MonadExceptOf.throw, hfind, h]
    | ok info =>
      simp [bind, Except.bind, pure, Except.pure, throw, throwThe, MonadExceptOf.throw, hfind, h]

/-- C23. For every buffer with a valid signature whose chunk sequence parses to `chunks`,
`parseBuffer` fails with the missing-IHDR error iff no parsed chunk has type `IHDR`; when
the first `IHDR` chunk carries at least 13 data bytes, `parseBuffer` returns the object of
the decoded header, `chunks`, the first `npTc` chunk and the buffer; and whenever it
succeeds, the returned `chunks` field is the full parsed chunk sequence and `isNinePatch`
is true iff some parsed chunk has type `npTc`. -/
theorem parseBuffer_missing_ihdr (buffer : List Nat) (chunks : List PNGChunk)
    (hsig : PNG_SIGNATURE <+: buffer) (hchunks : parseChunks buffer = .ok chunks) :
    (parseBuffer buffer = .error "缺少IHDR chunk" ↔ ∀ c ∈ chunks, c.type_ ≠ "IHDR") ∧
      (∀ ihdr, chunks.find? (fun chunk => chunk.type_ = "IHDR") = some ihdr →
        13 ≤ ihdr.data.length →
        ∃ info, parseIHDR ihdr.data = .ok info ∧
          parseBuffer buffer = .ok
            { imageInfo := info, chunks := chunks,
              ninePatchChunk := chunks.find? (fun chunk => chunk.type_ = "npTc"),
              isNinePatch := (chunks.find? (fun chunk => chunk.type_ = "npTc")).isSome,
              buffer := buffer }) ∧
      ∀ r, parseBuffer buffer = .ok r →
        r.chunks = chunks ∧ (r.isNinePatch = true ↔ ∃ c ∈ chunks, c.type_ = "npTc") := by
  obtain ⟨rest, rfl⟩ := hsig
  rw [parseBuffer_of_chunks _ chunks (validateSignature_of_signature rest) hchunks]
  cases hfind : chunks.find? (fun chunk => chunk.type_ = "IHDR") with
  | none =>
    refine ⟨⟨fun _ c hc => ?_, fun _ => rfl⟩, fun ihdr h => by simp at h,
      fun r hr => by simp at hr⟩
    have := List.find?_eq_none.1 hfind c hc
    simpa using this
  | some ihdr =>
    have hmem := List.mem_of_find?_eq_some hfind
    have htype : ihdr.type_ = "IHDR" := by
      have := List.find?_some hfind
      simpa using this
    simp only []
    refine ⟨?_, ?_, ?_⟩
    · constructor
      · intro herr
        rcases parseIHDR_ok_or_range ihdr.data with ⟨info, h⟩ | h
        · rw [h] at herr; simp at herr
        · rw [h] at herr
          simp only [Except.error.injEq] at herr
          exact absurd herr (by decide)
      · intro hall
        exact absurd htype (hall ihdr hmem)
    · intro ihdr2 h2 hlen
      simp only [Option.some.injEq] at h2
      subst h2
      obtain ⟨info, h⟩ := parseIHDR_ok_of_length ihdr.data hlen
      exact ⟨info, h, by rw [h]⟩
    · intro r hr
      rcases parseIHDR_ok_or_range ihdr.data with ⟨info, h⟩ | h
      · rw [h] at hr
        simp only [Except.ok.injEq] at hr
        subst hr
        refine ⟨rfl, ?_⟩
        simp only [Option.isSome_iff_exists]
        constructor
        · rintro ⟨c, hc⟩
          exact ⟨c, List.mem_of_find?_eq_some hc, by simpa using List.find?_some hc⟩
        · rintro ⟨c, hc, ht⟩
          cases hf : chunks.find? (fun chunk => chunk.type_ = "npTc") with
          | some c' => exact ⟨c', rfl⟩
          | none =>
            have := List.find?_eq_none.1 hf c hc
            simp [ht] at this
      · rw [h] at hr; simp at hr

theorem encodeChunk_length (c : PNGChunk) (h : WellFormedChunk c) :
    (encodeChunk c).length = 12 + c.length := by
  obtain ⟨h1, _, h3, _⟩ := h
  have h3' : c.type_.toList.length = 4 := h3
  simp only [encodeChunk, List.length_append, be32_length, List.length_map, h3', ← h1]
  omega

theorem flatMap_encodeChunk_length (cs : List PNGChunk) (h : ∀ c ∈ cs, WellFormedChunk c) :
    cs.length ≤ (cs.flatMap encodeChunk).length := by
  induction cs with
  | nil => simp
  | cons c t ih =>
    have h1 := encodeChunk_length c (h c (List.mem_cons_self _ _))
    have h2 := ih (fun d hd => h d (List.mem_cons_of_mem _ hd))
    simp only [List.flatMap_cons, List.length_append, List.length_cons, h1]
    omega

theorem getUint32_append_be32 (pre rest : List Nat) (n off : Nat) (hn : n < 4294967296)
    (ho : off = pre.length) : getUint32 (pre ++ (be32 (n : Nat) ++ rest)) off = .ok n := by
  subst ho
  rw [getUint32_ok _ _ (by simp only [List.length_append, be32_length]; omega)]
  have e0 := getD_append_add pre (be32 (n : Nat) ++ rest) 0
  rw [Nat.add_zero] at e0
  rw [e0, getD_append_add, getD_append_add, getD_append_add]
  simp only [be32, u32be, List.cons_append, List.nil_append, List.getD_cons_zero,
    List.getD_cons_succ]
  congr 1
  omega

theorem subView_append (pre mid rest : List Nat) (off len : Nat) (ho : off = pre.length)
    (hl : len = mid.length) : subView (pre ++ (mid ++ rest)) off len = .ok mid := by
  subst ho hl
  unfold subView
  rw [if_neg (by simp only [List.length_append]; omega)]
  rw [List.drop_left' rfl, List.take_left' rfl]
  rfl

theorem string_of_bytes (s : String) :
    String.mk ((s.toList.map Char.toNat).map Char.ofNat) = s := by
  have : (s.toList.map Char.toNat).map Char.ofNat = s.toList := by
    rw [List.map_map]
    conv_rhs => rw [← List.map_id s.toList]
    apply List.map_congr_left
    intro c _
    simp
  rw [this]
  rfl

theorem parseChunksLoop_step (pre rest : List Nat) (c : PNGChunk) (h : WellFormedChunk c)
    (fuel : Nat) (acc : List PNGChunk) :
    parseChunksLoop (pre ++ (encodeChunk c ++ rest)) (fuel + 1) pre.length acc =
      if c.type_ = "IEND" then .ok (acc ++ [c])
      else parseChunksLoop (pre ++ (encodeChunk c ++ rest)) fuel
        (pre.length + (encodeChunk c).length) (acc ++ [c]) := by
  have hlen := encodeChunk_length c h
  obtain ⟨h1, h2, h3, h4⟩ := h
  have h3' : (c.type_.toList.map Char.toNat).length = 4 := by
    rw [List.length_map]; exact h3
  have r1 : getUint32 (pre ++ (encodeChunk c ++ rest)) pre.length = .ok c.length := by
    have : pre ++ (encodeChunk c ++ rest) =
        pre ++ (be32 (c.length : Nat) ++
          (c.type_.toList.map Char.toNat ++ c.data ++ be32 c.crc ++ rest)) := by
      simp only [encodeChunk, List.append_assoc]
    rw [this]
    exact getUint32_append_be32 _ _ _ _ h2 rfl
  have r2 : subView (pre ++ (encodeChunk c ++ rest)) (pre.length + 4) 4 =
      .ok (c.type_.toList.map Char.toNat) := by
    have : pre ++ (encodeChunk c ++ rest) =
        (pre ++ be32 (c.length : Nat)) ++
          (c.type_.toList.map Char.toNat ++ (c.data ++ be32 c.crc ++ rest)) := by
      simp only [encodeChunk, List.append_assoc]
    rw [this]
    exact subView_append _ _ _ _ _ (by simp [be32_length]) h3'.symm
  have r3 : subView (pre ++ (encodeChunk c ++ rest)) (pre.length + 4 + 4) c.length =
      .ok c.data := by
    have : pre ++ (encodeChunk c ++ rest) =
        (pre ++ be32 (c.length : Nat) ++ c.type_.toList.map Char.toNat) ++
          (c.data ++ (be32 c.crc ++ rest)) := by
      simp only [encodeChunk, List.append_assoc]
    rw [this]
    exact subView_append _ _ _ _ _ (by simp only [List.length_append, be32_length, h3']) h1
  have r4 : getUint32 (pre ++ (encodeChunk c ++ rest)) (pre.length + 4 + 4 + c.length) =
      .ok c.crc := by
    have : pre ++ (encodeChunk c ++ rest) =
        (pre ++ be32 (c.length : Nat) ++ c.type_.toList.map Char.toNat ++ c.data) ++
          (be32 (c.crc : Nat) ++ rest) := by
      simp only [encodeChunk, List.append_assoc]
    rw [this]
    exact getUint32_append_be32 _ _ _ _ h4
      (by simp only [List.length_append, be32_length, h3', h1])
  have hlt : pre.length < (pre ++ (encodeChunk c ++ rest)).length := by
    simp only [List.length_append, hlen]; omega
  rw [parseChunksLoop, if_pos hlt]
  simp only [r1, r2, r3, r4, except_ok_bind, string_of_bytes]
  have e : pre.length + 4 + 4 + c.length + 4 = pre.length + (encodeChunk c).length := by
    rw [hlen]; omega
  rw [e]
  rfl

theorem parseChunksLoop_encoded (cs : List PNGChunk) (trailing : List Nat)
    (hwf : ∀ c ∈ cs, WellFormedChunk c)
    (hend : (∃ c ∈ cs, c.type_ = "IEND") ∨ trailing = []) :
    ∀ (pre : List Nat) (fuel : Nat) (acc : List PNGChunk), cs.length ≤ fuel →
      parseChunksLoop (pre ++ (cs.flatMap encodeChunk ++ trailing)) fuel pre.length acc =
        .ok (acc ++ upToIEND cs) := by
  induction cs with
  | nil =>
    intro pre fuel acc _
    rcases hend with ⟨c, hc, _⟩ | rfl
    · simp at hc
    · unfold parseChunksLoop
      rw [if_neg (by simp)]
      simp [upToIEND, pure, Except.pure]
  | cons c t ih =>
    intro pre fuel acc hfuel
    obtain ⟨fuel, rfl⟩ : ∃ f, fuel = f + 1 := ⟨fuel - 1, by simp at hfuel; omega⟩
    have hc := hwf c (List.mem_cons_self _ _)
    rw [List.flatMap_cons, List.append_assoc, parseChunksLoop_step pre _ c hc]
    by_cases hty : c.type_ = "IEND"
    · rw [if_pos hty, upToIEND, if_pos hty]
    · rw [if_neg hty, upToIEND, if_neg hty]
      have hend' : (∃ d ∈ t, d.type_ = "IEND") ∨ trailing = [] := by
        rcases hend with ⟨d, hd, hdt⟩ | h
        · rcases List.mem_cons.1 hd with rfl | hd
          · exact absurd hdt hty
          · exact Or.inl ⟨d, hd, hdt⟩
        · exact Or.inr h
      have := ih (fun d hd => hwf d (List.mem_cons_of_mem _ hd)) hend' (pre ++ encodeChunk c)
        fuel (acc ++ [c]) (by simp at hfuel; omega)
      rw [List.length_append, List.append_assoc] at this
      rw [this, List.append_assoc]
      rfl

/-- C21. For every buffer made of the 8-byte signature followed by the concatenated
encodings of well-formed chunks `c1..cn` and then `trailing` bytes, where some chunk is
`IEND` or there are no trailing bytes, `parseChunks` returns exactly `c1..ck` (length, type,
data and crc), `ck` being the first chunk of type `IEND`, or `c1..cn` when none is. -/
theorem parseChunks_encoded (cs : List PNGChunk) (trailing : List Nat)
    (hwf : ∀ c ∈ cs, WellFormedChunk c)
    (hend : (∃ c ∈ cs, c.type_ = "IEND") ∨ trailing = []) :
    parseChunks (PNG_SIGNATURE ++ (cs.flatMap encodeChunk ++ trailing)) = .ok (upToIEND cs) := by
  unfold parseChunks
  have h := parseChunksLoop_encoded cs trailing hwf hend PNG_SIGNATURE
    (PNG_SIGNATURE ++ (cs.flatMap encodeChunk ++ trailing)).length []
    (by
      have := flatMap_encodeChunk_length cs hwf
      simp only [List.length_append]
      omega)
  exact h

theorem getUint32_error (view : List Nat) (offset : Nat) (h : view.length < offset + 4) :
    getUint32 view offset = .error "RangeError" := by
  unfold getUint32
  rw [if_pos (by omega)]
  rfl

theorem subView_error (view : List Nat) (offset length : Nat)
    (h : view.length < offset + length) : subView view offset length = .error "RangeError" := by
  unfold subView
  rw [if_pos (by omega)]
  rfl

theorem subView_ok (view : List Nat) (offset length : Nat)
    (h : offset + length ≤ view.length) :
    subView view offset length = .ok ((view.drop offset).take length) := by
  unfold subView
  rw [if_neg (by omega)]
  rfl

theorem except_error_bind {ε α β : Type} (e : ε) (f : α → Except ε β) :
    ((Except.error e : Except ε α) >>= f) = Except.error e := rfl

theorem parseChunksLoop_truncated_head (pre fragment : List Nat) (hne : fragment ≠ [])
    (htrunc : fragment.length < 12 + declaredLength fragment) (fuel : Nat)
    (acc : List PNGChunk) :
    parseChunksLoop (pre ++ fragment) (fuel + 1) pre.length acc = .error "RangeError" := by
  have hpos : 0 < fragment.length := List.length_pos.2 hne
  have hlt : pre.length < (pre ++ fragment).length := by
    simp only [List.length_append]; omega
  rw [parseChunksLoop, if_pos hlt]
  by_cases h4 : fragment.length < 4
  · rw [getUint32_error _ _ (by simp only [List.length_append]; omega)]
    rfl
  · have r1 : getUint32 (pre ++ fragment) pre.length = .ok (declaredLength fragment) := by
      rw [getUint32_ok _ _ (by simp only [List.length_append]; omega)]
      have e0 := getD_append_add pre fragment 0
      rw [Nat.add_zero] at e0
      rw [e0, getD_append_add, getD_append_add, getD_append_add]
      rfl
    simp only [r1, except_ok_bind]
    by_cases h8 : fragment.length < 8
    · rw [subView_error _ _ _ (by simp only [List.length_append]; omega)]
      rfl
    · rw [subView_ok _ _ _ (by simp only [List.length_append]; omega)]
      simp only [except_ok_bind]
      by_cases hd : fragment.length < 8 + declaredLength fragment
      · rw [subView_error _ _ _ (by simp only [List.length_append]; omega)]
        rfl
      · rw [subView_ok _ _ _ (by simp only [List.length_append]; omega)]
        simp only [except_ok_bind]
        rw [getUint32_error _ _ (by simp only [List.length_append]; omega)]
        rfl

theorem parseChunksLoop_truncated (cs : List PNGChunk) (fragment : List Nat)
    (hwf : ∀ c ∈ cs, WellFormedChunk c) (hno : ∀ c ∈ cs, c.type_ ≠ "IEND")
    (hne : fragment ≠ []) (htrunc : fragment.length < 12 + declaredLength fragment) :
    ∀ (pre : List Nat) (fuel : Nat) (acc : List PNGChunk), cs.length < fuel →
      parseChunksLoop (pre ++ (cs.flatMap encodeChunk ++ fragment)) fuel pre.length acc =
        .error "RangeError" := by
  induction cs with
  | nil =>
    intro pre fuel acc hfuel
    obtain ⟨fuel, rfl⟩ : ∃ f, fuel = f + 1 := ⟨fuel - 1, by simp at hfuel; omega⟩
    exact parseChunksLoop_truncated_head pre fragment hne htrunc fuel acc
  | cons c t ih =>
    intro pre fuel acc hfuel
    obtain ⟨fuel, rfl⟩ : ∃ f, fuel = f + 1 := ⟨fuel - 1, by simp at hfuel; omega⟩
    have hc := hwf c (List.mem_cons_self _ _)
    rw [List.flatMap_cons, List.append_assoc, parseChunksLoop_step pre _ c hc,
      if_neg (hno c (List.mem_cons_self _ _))]
    have := ih (fun d hd => hwf d (List.mem_cons_of_mem _ hd))
      (fun d hd => hno d (List.mem_cons_of_mem _ hd)) (pre ++ encodeChunk c)
      fuel (acc ++ [c]) (by simp at hfuel; omega)
    rw [List.length_append, List.append_assoc] at this
    exact this

theorem parseChunksLoop_data_length (view : List Nat) :
    ∀ (fuel offset : Nat) (acc chunks : List PNGChunk),
      (∀ c ∈ acc, c.data.length = c.length) →
      parseChunksLoop view fuel offset acc = .ok chunks →
      ∀ c ∈ chunks, c.data.length = c.length := by
  intro fuel
  induction fuel with
  | zero =>
    intro offset acc chunks hacc h
    unfold parseChunksLoop at h
    by_cases hlt : offset < view.length
    · rw [if_pos hlt] at h
      exact absurd h (by simp [throw, throwThe, MonadExceptOf.throw])
    · rw [if_neg hlt] at h
      simp only [pure, Except.pure, Except.ok.injEq] at h
      subst h
      exact hacc
  | succ fuel ih =>
    intro offset acc chunks hacc h
    rw [parseChunksLoop] at h
    by_cases hlt : offset < view.length
    · rw [if_pos hlt] at h
      cases h1 : getUint32 view offset with
      | error e => rw [h1] at h; exact absurd h (by simp [except_error_bind])
      | ok len =>
        rw [h1] at h
        simp only [except_ok_bind] at h
        cases h2 : subView view (offset + 4) 4 with
        | error e => rw [h2] at h; exact absurd h (by simp [except_error_bind])
        | ok typeBytes =>
          rw [h2] at h
          simp only [except_ok_bind] at h
          by_cases hb : offset + 4 + 4 + len ≤ view.length
          · rw [subView_ok _ _ _ hb] at h
            simp only [except_ok_bind] at h
            cases h4 : getUint32 view (offset + 4 + 4 + len) with
            | error e => rw [h4] at h; exact absurd h (by simp [except_error_bind])
            | ok crc =>
              rw [h4] at h
              simp only [except_ok_bind] at h
              have hacc' : ∀ c ∈ acc ++ [PNGChunk.mk len (String.mk (typeBytes.map Char.ofNat))
                  ((view.drop (offset + 4 + 4)).take len) crc], c.data.length = c.length := by
                intro c hc
                rcases List.mem_append.1 hc with hc | hc
                · exact hacc c hc
                · rw [List.mem_singleton] at hc
                  subst hc
                  simp only [List.length_take, List.length_drop]
                  omega
              split at h
              · simp only [pure, Except.pure, Except.ok.injEq] at h
                subst h
                exact hacc'
              · exact ih _ _ _ hacc' h
          · rw [subView_error _ _ _ (by omega)] at h
            exact absurd h (by simp [except_error_bind])
    · rw [if_neg hlt] at h
      simp only [pure, Except.pure, Except.ok.injEq] at h
      subst h
      exact hacc

theorem parseBuffer_of_chunks_error (buffer : List Nat) (e : String)
    (hsig : validateSignature buffer = .ok true) (h : parseChunks buffer = .error e) :
    parseBuffer buffer = .error e := by
  unfold parseBuffer
  simp only []
  rw [hsig, h]
  rfl

/-- C22. For every buffer made of the signature, the encodings of well-formed chunks none
of which is `IEND`, and a non-empty `fragment` in which the 8-byte header, the declared data
bytes or the 4-byte CRC of the next chunk would extend past the end of the buffer,
`parseChunks` and `parseBuffer` fail with a `RangeError` instead of returning a chunk list;
and `parseChunks` never returns a chunk whose data is shorter than its declared length. -/
theorem parseChunks_truncated (cs : List PNGChunk) (fragment : List Nat)
    (hwf : ∀ c ∈ cs, WellFormedChunk c) (hno : ∀ c ∈ cs, c.type_ ≠ "IEND")
    (hne : fragment ≠ [])
    (htrunc : fragment.length < 8 ∨ fragment.length < 8 + declaredLength fragment ∨
      fragment.length < 12 + declaredLength fragment) :
    parseChunks (PNG_SIGNATURE ++ (cs.flatMap encodeChunk ++ fragment)) = .error "RangeError" ∧
      parseBuffer (PNG_SIGNATURE ++ (cs.flatMap encodeChunk ++ fragment)) =
        .error "RangeError" ∧
      ∀ (buffer : List Nat) (chunks : List PNGChunk), parseChunks buffer = .ok chunks →
        ∀ c ∈ chunks, c.data.length = c.length := by
  have hpos : 0 < fragment.length := List.length_pos.2 hne
  have h1 : parseChunks (PNG_SIGNATURE ++ (cs.flatMap encodeChunk ++ fragment)) =
      .error "RangeError" := by
    unfold parseChunks
    exact parseChunksLoop_truncated cs fragment hwf hno hne (by omega) PNG_SIGNATURE _ []
      (by
        have := flatMap_encodeChunk_length cs hwf
        simp only [List.length_append]
        omega)
  refine ⟨h1, parseBuffer_of_chunks_error _ _ (validateSignature_of_signature _) h1, ?_⟩
  intro buffer chunks h
  exact parseChunksLoop_data_length buffer _ _ _ _ (by simp) h

/-- C21, witness: the theorem at a `tEXt` chunk, an `IEND` chunk, a further `tEXt` chunk and
two trailing bytes; the parse stops after `IEND`. -/
theorem parseChunks_encoded_witness :
    (∀ c ∈ sampleChunksExtended, WellFormedChunk c) ∧
      ((∃ c ∈ sampleChunksExtended, c.type_ = "IEND") ∨
        ([7, 7] : List Nat) = []) ∧
      parseChunks (PNG_SIGNATURE ++
          ((sampleChunksExtended).flatMap encodeChunk ++ [7, 7])) =
        .ok (upToIEND (sampleChunksExtended)) ∧
      upToIEND (sampleChunksExtended) = sampleChunks :=
  ⟨by decide, Or.inl (by decide), parseChunks_encoded _ _ (by decide) (Or.inl (by decide)),
    by decide⟩

/-- C22, witness: the theorem at a `tEXt` chunk followed by `truncatedFragment`, a header
that declares 5 data bytes of which 2 are present. -/
theorem parseChunks_truncated_witness :
    truncatedFragment ≠ [] ∧
      truncatedFragment.length < 8 + declaredLength truncatedFragment ∧
      parseChunks (PNG_SIGNATURE ++ ([(⟨1, "tEXt", [65], 5⟩ : PNGChunk)].flatMap encodeChunk ++
        truncatedFragment)) = .error "RangeError" ∧
      parseBuffer (PNG_SIGNATURE ++ ([(⟨1, "tEXt", [65], 5⟩ : PNGChunk)].flatMap encodeChunk ++
        truncatedFragment)) = .error "RangeError" :=
  ⟨by decide, by decide,
    (parseChunks_truncated [⟨1, "tEXt", [65], 5⟩] truncatedFragment
      (by decide) (by decide) (by decide) (Or.inr (Or.inl (by decide)))).1,
    (parseChunks_truncated [⟨1, "tEXt", [65], 5⟩] truncatedFragment
      (by decide) (by decide) (by decide) (Or.inr (Or.inl (by decide)))).2.1⟩

theorem foldl_pushChunk (chunks : List PNGChunk) (buffers : List (List Nat)) :
    chunks.foldl pushChunk buffers =
      buffers ++ chunks.flatMap
        (fun c => [be32 c.length, textEncode c.type_, c.data, be32 c.crc]) := by
  induction chunks generalizing buffers with
  | nil => simp
  | cons c t ih =>
    rw [List.foldl_cons, ih]
    simp [pushChunk]

theorem foldl_length_sum (buffers : List (List Nat)) (s : Nat) :
    buffers.foldl (fun sum buf => sum + buf.length) s = s + buffers.flatten.length := by
  induction buffers generalizing s with
  | nil => simp
  | cons b t ih =>
    rw [List.foldl_cons, ih]
    simp only [List.flatten_cons, List.length_append]
    omega

theorem foldlM_arraySet (buffers : List (List Nat)) :
    ∀ (pre : List Nat) (n : Nat), buffers.flatten.length ≤ n →
      buffers.foldlM
          (fun (st : List Nat × Nat) buf => do
            let result ← arraySet st.1 buf st.2
            pure (result, st.2 + buf.length))
          (pre ++ List.replicate n 0, pre.length) =
        (.ok (pre ++ buffers.flatten ++ List.replicate (n - buffers.flatten.length) 0,
          pre.length + buffers.flatten.length) : Except String (List Nat × Nat)) := by
  induction buffers with
  | nil =>
    intro pre n _
    simp [pure, Except.pure]
  | cons b t ih =>
    intro pre n hn
    simp only [List.flatten_cons, List.length_append] at hn
    rw [List.foldlM_cons]
    simp only []
    rw [arraySet_zeros pre b n pre.length rfl (by omega)]
    have := ih (pre ++ b) (n - b.length) (by omega)
    rw [List.length_append] at this
    simp only [except_ok_bind, pure, Except.pure] at this ⊢
    rw [this]
    simp only [List.flatten_cons, List.length_append, List.append_assoc, Nat.sub_sub,
      Nat.add_assoc]

theorem flatten_chunk_buffers (chunks : List PNGChunk) :
    (chunks.flatMap
      (fun c => [be32 c.length, textEncode c.type_, c.data, be32 c.crc])).flatten =
      chunks.flatMap serializeChunk := by
  induction chunks with
  | nil => rfl
  | cons c t ih =>
    simp only [List.flatMap_cons, List.flatten_append, ih, serializeChunk]
    simp

theorem createPNG_eq (imageData : List Nat) (chunks : List PNGChunk) :
    createPNG imageData chunks = .ok (PNG_SIGNATURE ++ chunks.flatMap serializeChunk) := by
  unfold createPNG
  simp only [foldl_pushChunk, foldl_length_sum, Nat.zero_add]
  have h := foldlM_arraySet
    ([PNG_SIGNATURE] ++ chunks.flatMap
      (fun c => [be32 c.length, textEncode c.type_, c.data, be32 c.crc])) [] _ (le_refl _)
  simp only [List.nil_append, List.length_nil, Nat.sub_self, List.replicate_zero,
    List.append_nil, Nat.zero_add] at h
  rw [h]
  simp only [except_ok_bind, pure, Except.pure, List.flatten_append, flatten_chunk_buffers]
  simp

theorem textEncode_ascii (s : String) (h : ∀ ch ∈ s.toList, ch.toNat < 128) :
    textEncode s = s.toList.map Char.toNat := by
  unfold textEncode
  generalize s.toList = l at h
  induction l with
  | nil => rfl
  | cons c t ih =>
    have hc := h c (List.mem_cons_self _ _)
    rw [List.flatMap_cons, List.map_cons, ih (fun d hd => h d (List.mem_cons_of_mem _ hd))]
    simp only [utf8EncodeChar]
    rw [if_pos (by omega)]
    rfl

theorem serializeChunk_ascii (c : PNGChunk) (h : AsciiType c) :
    serializeChunk c = encodeChunk c := by
  unfold serializeChunk encodeChunk
  rw [textEncode_ascii _ h]

theorem flatMap_serializeChunk_ascii (cs : List PNGChunk) (h : ∀ c ∈ cs, AsciiType c) :
    cs.flatMap serializeChunk = cs.flatMap encodeChunk := by
  induction cs with
  | nil => rfl
  | cons c t ih =>
    rw [List.flatMap_cons, List.flatMap_cons,
      serializeChunk_ascii c (h c (List.mem_cons_self _ _)),
      ih (fun d hd => h d (List.mem_cons_of_mem _ hd))]

theorem upToIEND_last (cs : List PNGChunk) (last : PNGChunk)
    (hno : ∀ c ∈ cs, c.type_ ≠ "IEND") (hlast : last.type_ = "IEND") :
    upToIEND (cs ++ [last]) = cs ++ [last] := by
  induction cs with
  | nil => simp [upToIEND, hlast]
  | cons c t ih =>
    rw [List.cons_append, upToIEND, if_neg (hno c (List.mem_cons_self _ _)),
      ih (fun d hd => hno d (List.mem_cons_of_mem _ hd))]

/-- C25, counterexample. For the `IEND` chunk with stored CRC 0, `createPNG` writes the CRC
bytes `0 0 0 0`, not the CRC-32 `AE 42 60 82` of the type bytes; and changing only the
stored `crc` field of the input chunk to 1 changes the bytes written. -/
theorem createPNG_writes_stored_crc :
    createPNG [] [iendZeroCrc] =
        .ok [137, 80, 78, 71, 13, 10, 26, 10, 0, 0, 0, 0, 73, 69, 78, 68, 0, 0, 0, 0] ∧
      be32 (calculateCRC32 ([73, 69, 78, 68] ++ iendZeroCrc.data)) = [174, 66, 96, 130] ∧
      createPNG [] [iendOneCrc] =
        .ok [137, 80, 78, 71, 13, 10, 26, 10, 0, 0, 0, 0, 73, 69, 78, 68, 0, 0, 0, 1] := by
  refine ⟨?_, ?_, ?_⟩
  · rw [createPNG_eq]; decide
  · decide
  · rw [createPNG_eq]; decide

/-- C25, amended. For every chunk list, `createPNG` emits the 8-byte signature followed,
for each chunk in order, by the big-endian stored `length` field, the UTF-8 bytes of the
type, the data, and the big-endian `crc` field stored in the input chunk: no CRC is
computed at write time. -/
theorem createPNG_stored_fields (imageData : List Nat) (chunks : List PNGChunk) :
    createPNG imageData chunks =
      .ok (PNG_SIGNATURE ++
        chunks.flatMap (fun c => be32 c.length ++ textEncode c.type_ ++ c.data ++ be32 c.crc)) :=
  createPNG_eq imageData chunks

/-- C25, witness: the amended theorem at the two chunks of `sampleChunks`. -/
theorem createPNG_stored_fields_witness :
    createPNG [] sampleChunks =
      .ok [137, 80, 78, 71, 13, 10, 26, 10, 0, 0, 0, 1, 116, 69, 88, 116, 65, 0, 0, 0, 5,
        0, 0, 0, 0, 73, 69, 78, 68, 174, 66, 96, 130] :=
  (createPNG_stored_fields [] sampleChunks).trans (by decide)

/-- C26. For every well-formed container `b` (the signature, then well-formed chunks with
4-character ASCII type codes, the last and only the last being `IEND`, no trailing bytes),
serialising the parsed chunks reproduces the input byte for byte, and parsing that output
gives the chunk sequence of `b`, which is the sequence of the encoded chunks. -/
theorem createPNG_parseChunks_roundtrip (imageData : List Nat) (cs : List PNGChunk)
    (last : PNGChunk) (hwf : ∀ c ∈ cs ++ [last], WellFormedChunk c)
    (hascii : ∀ c ∈ cs ++ [last], AsciiType c) (hno : ∀ c ∈ cs, c.type_ ≠ "IEND")
    (hlast : last.type_ = "IEND") :
    (parseChunks (PNG_SIGNATURE ++ (cs ++ [last]).flatMap encodeChunk) >>=
        createPNG imageData) = .ok (PNG_SIGNATURE ++ (cs ++ [last]).flatMap encodeChunk) ∧
      (parseChunks (PNG_SIGNATURE ++ (cs ++ [last]).flatMap encodeChunk) >>=
          createPNG imageData >>= parseChunks) =
        parseChunks (PNG_SIGNATURE ++ (cs ++ [last]).flatMap encodeChunk) ∧
      parseChunks (PNG_SIGNATURE ++ (cs ++ [last]).flatMap encodeChunk) =
        .ok (cs ++ [last]) := by
  have hp : parseChunks (PNG_SIGNATURE ++ (cs ++ [last]).flatMap encodeChunk) =
      .ok (cs ++ [last]) := by
    have h := parseChunksLoop_encoded (cs ++ [last]) [] hwf (Or.inr rfl) PNG_SIGNATURE
      (PNG_SIGNATURE ++ ((cs ++ [last]).flatMap encodeChunk ++ [])).length []
      (by
        have := flatMap_encodeChunk_length (cs ++ [last]) hwf
        simp only [List.length_append, List.length_nil] at this ⊢
        omega)
    rw [List.append_nil, upToIEND_last cs last hno hlast] at h
    exact h
  have hc : createPNG imageData (cs ++ [last]) =
      .ok (PNG_SIGNATURE ++ (cs ++ [last]).flatMap encodeChunk) := by
    rw [createPNG_eq, flatMap_serializeChunk_ascii _ hascii]
  refine ⟨?_, ?_, hp⟩
  · rw [hp, except_ok_bind, hc]
  · rw [hp, except_ok_bind, hc, except_ok_bind, hp]

/-- C26, witness: the theorem at the container of the two chunks of `sampleChunks`. -/
theorem createPNG_parseChunks_roundtrip_witness :
    (parseChunks (PNG_SIGNATURE ++ sampleChunks.flatMap encodeChunk) >>= createPNG []) =
        .ok (PNG_SIGNATURE ++ sampleChunks.flatMap encodeChunk) ∧
      (parseChunks (PNG_SIGNATURE ++ sampleChunks.flatMap encodeChunk) >>= createPNG [] >>=
          parseChunks) = parseChunks (PNG_SIGNATURE ++ sampleChunks.flatMap encodeChunk) ∧
      parseChunks (PNG_SIGNATURE ++ sampleChunks.flatMap encodeChunk) = .ok sampleChunks :=
  createPNG_parseChunks_roundtrip [] [⟨1, "tEXt", [65], 5⟩] ⟨0, "IEND", [], 2923585666⟩
    (by decide) (by decide) (by decide) (by decide)

theorem shiftRight_xor (a b k : Nat) : (a ^^^ b) >>> k = (a >>> k) ^^^ (b >>> k) := by
  apply Nat.eq_of_testBit_eq
  intro j
  simp only [Nat.testBit_shiftRight, Nat.testBit_xor]

theorem crcShift_xor (poly a b : Nat) :
    crcShift poly (a ^^^ b) = crcShift poly a ^^^ crcShift poly b := by
  have hd : (a ^^^ b) / 2 = (a / 2) ^^^ (b / 2) := by
    have := shiftRight_xor a b 1
    simpa only [Nat.shiftRight_eq_div_pow, Nat.pow_one] using this
  have hm : (a ^^^ b) % 2 = (a + b) % 2 := Nat.xor_mod_two_eq
  unfold crcShift
  rw [hd]
  by_cases ha : a % 2 = 1 <;> by_cases hb : b % 2 = 1
  · rw [if_pos ha, if_pos hb, if_neg (by omega)]
    rw [Nat.xor_assoc, Nat.xor_comm poly, Nat.xor_assoc, Nat.xor_self, Nat.xor_zero]
  · rw [if_pos ha, if_neg hb, if_pos (by omega)]
    rw [Nat.xor_assoc, Nat.xor_assoc, Nat.xor_comm poly]
  · rw [if_neg ha, if_pos hb, if_pos (by omega)]
    rw [Nat.xor_assoc]
  · rw [if_neg ha, if_neg hb, if_neg (by omega)]

theorem crcShift_iterate_xor (poly : Nat) (n a b : Nat) :
    (crcShift poly)^[n] (a ^^^ b) = (crcShift poly)^[n] a ^^^ (crcShift poly)^[n] b := by
  induction n generalizing a b with
  | zero => rfl
  | succ n ih => rw [Function.iterate_succ_apply, crcShift_xor, ih]; rfl

theorem crcShift_double (poly m : Nat) : crcShift poly (2 * m) = m := by
  unfold crcShift
  rw [if_neg (by omega)]
  omega

theorem crcShift_iterate_shifted (poly : Nat) (n h : Nat) :
    (crcShift poly)^[n] (2 ^ n * h) = h := by
  induction n with
  | zero => simp
  | succ n ih =>
    rw [Function.iterate_succ_apply, Nat.pow_succ, Nat.mul_comm (2 ^ n) 2, Nat.mul_assoc,
      crcShift_double, ih]

theorem split_low_byte (x : Nat) : x = (x % 2 ^ 8) ^^^ (2 ^ 8 * (x / 2 ^ 8)) := by
  apply Nat.eq_of_testBit_eq
  intro j
  rw [Nat.testBit_xor, Nat.testBit_mod_two_pow, Nat.testBit_mul_pow_two,
    ← Nat.shiftRight_eq_div_pow, Nat.testBit_shiftRight]
  by_cases hj : j < 8
  · simp [hj, Nat.not_le_of_lt hj]
  · have : 8 + (j - 8) = j := by omega
    simp [hj, Nat.le_of_not_lt hj, this]

theorem crcShift_iterate_low_byte (poly x : Nat) :
    (crcShift poly)^[8] x = (crcShift poly)^[8] (x % 256) ^^^ (x / 256) := by
  conv_lhs => rw [split_low_byte x]
  rw [crcShift_iterate_xor, crcShift_iterate_shifted]
  rfl

theorem foldl_range_iterate (g : Nat → Nat) (n x : Nat) :
    (List.range n).foldl (fun crc _ => g crc) x = g^[n] x := by
  induction n with
  | zero => rfl
  | succ n ih =>
    rw [List.range_succ, List.foldl_append, ih, Function.iterate_succ_apply']
    rfl

theorem crcTableEntry_eq (i : Nat) : crcTableEntry i = (crcShift 0xEDB88320)^[8] i := by
  unfold crcTableEntry
  rw [← foldl_range_iterate]
  congr 1
  funext crc _
  simp only [Nat.and_one_is_mod, Nat.shiftRight_eq_div_pow, Nat.pow_one, crcShift]
  by_cases h : crc % 2 = 1
  · rw [if_pos (by omega), if_pos h]
  · rw [if_neg (by omega), if_neg h]

theorem bitLoop_eq (x : Nat) :
    (List.range 8).foldl
        (fun crc _ => (crc >>> 1) ^^^ (if crc &&& 1 ≠ 0 then 0xEDB88320 else 0)) x =
      (crcShift 0xEDB88320)^[8] x := by
  rw [← foldl_range_iterate]
  congr 1
  funext crc _
  simp only [Nat.and_one_is_mod, Nat.shiftRight_eq_div_pow, Nat.pow_one, crcShift]
  by_cases h : crc % 2 = 1
  · rw [if_pos (by omega), if_pos h]
  · rw [if_neg (by omega), if_neg h, Nat.xor_zero]

theorem crcTable_getD (i : Nat) (h : i < 256) : crcTable.getD i 0 = crcTableEntry i := by
  simp [crcTable, List.getD_eq_getElem?_getD, List.getElem?_map, List.getElem?_range h]

theorem tableStep_eq (crc byte : Nat) (hb : byte < 256) :
    crcTable.getD ((crc ^^^ byte) &&& 0xFF) 0 ^^^ (crc >>> 8) =
      (crcShift 0xEDB88320)^[8] (crc ^^^ byte) := by
  have hand : (crc ^^^ byte) &&& 0xFF = (crc ^^^ byte) % 256 :=
    Nat.and_pow_two_sub_one_eq_mod _ 8
  have hhi : (crc ^^^ byte) / 256 = crc >>> 8 := by
    have h1 := shiftRight_xor crc byte 8
    have h2 : byte >>> 8 = 0 := by
      rw [Nat.shiftRight_eq_div_pow]
      exact Nat.div_eq_of_lt hb
    rw [h2, Nat.xor_zero] at h1
    rw [← h1, Nat.shiftRight_eq_div_pow]
  rw [hand, crcTable_getD _ (Nat.mod_lt _ (by decide)), crcTableEntry_eq,
    crcShift_iterate_low_byte _ (crc ^^^ byte), hhi]

theorem foldl_congr_mem {α β : Type} (f g : β → α → β) (l : List α) (init : β)
    (h : ∀ b, ∀ a ∈ l, f b a = g b a) : l.foldl f init = l.foldl g init := by
  induction l generalizing init with
  | nil => rfl
  | cons a t ih =>
    rw [List.foldl_cons, List.foldl_cons, h init a (List.mem_cons_self _ _)]
    exact ih _ (fun b c hc => h b c (List.mem_cons_of_mem _ hc))

theorem calculateCRC32_eq_reference (data : List Nat) (hbytes : ∀ b ∈ data, b < 256) :
    calculateCRC32 data = crcReference 0xEDB88320 0xFFFFFFFF 0xFFFFFFFF data := by
  unfold calculateCRC32 crcReference
  simp only []
  rw [foldl_congr_mem _ (fun reg byte => (crcShift 0xEDB88320)^[8] (reg ^^^ byte))]
  intro crc byte hbyte
  exact tableStep_eq crc byte (hbytes byte hbyte)

theorem bitwiseCRC32_eq_reference (data : List Nat) :
    PNGParser.calculateCRC32 data = crcReference 0xEDB88320 0xFFFFFFFF 0xFFFFFFFF data := by
  unfold PNGParser.calculateCRC32 crcReference
  simp only [bitLoop_eq]

theorem crcShift_lt (reg : Nat) (h : reg < 2 ^ 32) : crcShift 0xEDB88320 reg < 2 ^ 32 := by
  unfold crcShift
  split
  · exact Nat.xor_lt_two_pow (by omega) (by decide)
  · omega

theorem crcShift_iterate_lt (n reg : Nat) (h : reg < 2 ^ 32) :
    (crcShift 0xEDB88320)^[n] reg < 2 ^ 32 := by
  induction n generalizing reg with
  | zero => exact h
  | succ n ih => rw [Function.iterate_succ_apply]; exact ih _ (crcShift_lt reg h)

theorem crcReference_lt (data : List Nat) (hbytes : ∀ b ∈ data, b < 256) :
    crcReference 0xEDB88320 0xFFFFFFFF 0xFFFFFFFF data < 2 ^ 32 := by
  unfold crcReference
  have key : ∀ (l : List Nat) (init : Nat), (∀ b ∈ l, b < 256) → init < 2 ^ 32 →
      l.foldl (fun reg byte => (crcShift 0xEDB88320)^[8] (reg ^^^ byte)) init < 2 ^ 32 := by
    intro l
    induction l with
    | nil => intro init _ h; exact h
    | cons a t ih =>
      intro init hl h
      rw [List.foldl_cons]
      apply ih _ (fun b hb => hl b (List.mem_cons_of_mem _ hb))
      apply crcShift_iterate_lt
      have ha := hl a (List.mem_cons_self _ _)
      exact Nat.xor_lt_two_pow h (by omega)
  exact Nat.xor_lt_two_pow (key data _ hbytes (by decide)) (by decide)

set_option maxRecDepth 100000 in
/-- C27. For every byte sequence, the table-driven `NinePatchProcessor.calculateCRC32` and
the bit-by-bit `PNGParser.calculateCRC32` return the same value, the CRC-32 with reflected
polynomial `0xEDB88320`, initial register `0xFFFFFFFF` and final XOR `0xFFFFFFFF`, which
lies in `[0, 2^32)`; the empty sequence gives `0x00000000` and the bytes of `IDAT` give
`0x35AF061E`. -/
theorem calculateCRC32_agree (data : List Nat) (hbytes : ∀ b ∈ data, b < 256) :
    calculateCRC32 data = PNGParser.calculateCRC32 data ∧
      calculateCRC32 data = crcReference 0xEDB88320 0xFFFFFFFF 0xFFFFFFFF data ∧
      calculateCRC32 data < 2 ^ 32 ∧
      calculateCRC32 [] = 0x00000000 ∧ PNGParser.calculateCRC32 [] = 0x00000000 ∧
      calculateCRC32 [0x49, 0x44, 0x41, 0x54] = 0x35AF061E ∧
      PNGParser.calculateCRC32 [0x49, 0x44, 0x41, 0x54] = 0x35AF061E := by
  have h1 := calculateCRC32_eq_reference data hbytes
  refine ⟨?_, h1, ?_, by decide, by decide, by decide, by decide⟩
  · rw [h1, bitwiseCRC32_eq_reference]
  · rw [h1]; exact crcReference_lt data hbytes

set_option maxRecDepth 100000 in
/-- C27, witness: the theorem at the ASCII bytes of `123456789`, whose CRC-32 is the
published check value `0xCBF43926`. -/
theorem calculateCRC32_agree_witness :
    (∀ b ∈ [49, 50, 51, 52, 53, 54, 55, 56, 57], b < 256) ∧
      calculateCRC32 [49, 50, 51, 52, 53, 54, 55, 56, 57] = 0xCBF43926 ∧
      PNGParser.calculateCRC32 [49, 50, 51, 52, 53, 54, 55, 56, 57] = 0xCBF43926 ∧
      calculateCRC32 [49, 50, 51, 52, 53, 54, 55, 56, 57] =
        PNGParser.calculateCRC32 [49, 50, 51, 52, 53, 54, 55, 56, 57] :=
  ⟨by decide, by decide, by decide,
    (calculateCRC32_agree [49, 50, 51, 52, 53, 54, 55, 56, 57] (by decide)).1⟩

theorem crcTable_getD_lt (i : Nat) : crcTable.getD i 0 < 2 ^ 32 := by
  by_cases h : i < 256
  · rw [crcTable_getD i h, crcTableEntry_eq]
    exact crcShift_iterate_lt 8 i (by omega)
  · have : crcTable.length = 256 := by simp [crcTable]
    rw [List.getD_eq_default _ _ (by omega)]
    decide

theorem calculateCRC32_lt (data : List Nat) : calculateCRC32 data < 2 ^ 32 := by
  unfold calculateCRC32
  have key : ∀ (l : List Nat) (init : Nat), init < 2 ^ 32 →
      l.foldl (fun crc byte => crcTable.getD ((crc ^^^ byte) &&& 0xFF) 0 ^^^ (crc >>> 8))
        init < 2 ^ 32 := by
    intro l
    induction l with
    | nil => intro init h; exact h
    | cons a t ih =>
      intro init h
      rw [List.foldl_cons]
      apply ih
      apply Nat.xor_lt_two_pow (crcTable_getD_lt _)
      rw [Nat.shiftRight_eq_div_pow]
      exact lt_of_le_of_lt (Nat.div_le_self _ _) h
  exact Nat.xor_lt_two_pow (key data _ (by decide)) (by decide)

theorem be32_mod (n : Nat) : be32 ((n % 4294967296 : Nat) : Int) = be32 (n : Int) := by
  unfold be32
  have : (((n % 4294967296 : Nat) : Int) % 4294967296).toNat = ((n : Int) % 4294967296).toNat := by
    omega
  simp only [this]

theorem getUint32_be32_head (n : Nat) (rest : List Nat) :
    getUint32 (be32 (n : Int) ++ rest) 0 = .ok (n % 4294967296) := by
  rw [← be32_mod]
  exact getUint32_append_be32 [] rest _ 0 (Nat.mod_lt _ (by decide)) rfl

theorem getUint32_colors (m : Nat) (l : List Nat) :
    ∀ (pre rest : List Nat) (k : Nat) (hk : k < l.length),
      getUint32
          (pre ++ (l.flatMap (fun i => be32 (if i = m then 0xFF06070A else 0x00000001)) ++ rest))
          (pre.length + 4 * k) =
        .ok (if l[k] = m then 0xFF06070A else 0x00000001) := by
  induction l with
  | nil => intro pre rest k hk; simp at hk
  | cons a t ih =>
    intro pre rest k hk
    cases k with
    | zero =>
      rw [List.flatMap_cons, List.append_assoc, List.getElem_cons_zero]
      by_cases ha : a = m
      · simp only [if_pos ha]
        exact getUint32_append_be32 pre _ 0xFF06070A _ (by decide) rfl
      · simp only [if_neg ha]
        exact getUint32_append_be32 pre _ 0x00000001 _ (by decide) rfl
    | succ j =>
      rw [List.flatMap_cons, List.append_assoc, List.getElem_cons_succ]
      have h := ih (pre ++ be32 (if a = m then 0xFF06070A else 0x00000001)) rest j
        (by simpa using hk)
      rw [List.length_append, be32_length, List.append_assoc] at h
      rw [← h]
      congr 1
      omega

theorem createNpTcChunk_colors_layout (info : NinePatchInfo) :
    ∃ pre crc : List Nat, pre.length = colorsOffset info ∧ crc.length = 4 ∧
      createNpTcChunk info = .ok (pre ++ (colorsOf (numColorsOf info) ++ crc)) := by
  refine ⟨be32 ((payloadBytes info).length : Nat) ++ [0x6E, 0x70, 0x54, 0x63] ++
    ([0, (((divsOf info.stretchRegionsX).length : Int) % 256).toNat,
      (((divsOf info.stretchRegionsY).length : Int) % 256).toNat,
      ((numColorsOf info : Int) % 256).toNat] ++
    be32 32 ++ be32 40 ++ be32 info.paddingBox.left ++ be32 info.paddingBox.right ++
    be32 info.paddingBox.top ++ be32 info.paddingBox.bottom ++ be32 48 ++
    (divsOf info.stretchRegionsX).flatMap be32 ++ (divsOf info.stretchRegionsY).flatMap be32),
    be32 (calculateCRC32 ([0x6E, 0x70, 0x54, 0x63] ++ payloadBytes info) : Nat), ?_, rfl, ?_⟩
  · simp only [List.length_append, be32_length, List.length_cons, List.length_nil,
      flatMap_be32_length, divsOf_eq, flattenRegions_length, colorsOffset]
    omega
  · rw [createNpTcChunk_eq]
    have e1 : 2 * info.stretchRegionsX.length / 2 + 1 = info.stretchRegionsX.length + 1 := by
      omega
    have e2 : 2 * info.stretchRegionsY.length / 2 + 1 = info.stretchRegionsY.length + 1 := by
      omega
    have hp : payloadBytes info =
        [0, (((divsOf info.stretchRegionsX).length : Int) % 256).toNat,
          (((divsOf info.stretchRegionsY).length : Int) % 256).toNat,
          ((numColorsOf info : Int) % 256).toNat] ++
        be32 32 ++ be32 40 ++ be32 info.paddingBox.left ++ be32 info.paddingBox.right ++
        be32 info.paddingBox.top ++ be32 info.paddingBox.bottom ++ be32 48 ++
        (divsOf info.stretchRegionsX).flatMap be32 ++
        (divsOf info.stretchRegionsY).flatMap be32 ++ colorsOf (numColorsOf info) := by
      simp only [payloadBytes, numColorsOf, divsOf_eq, flattenRegions_length, e1, e2]
    have key : ∀ (p h c : List Nat), p = h ++ c → ∀ l t crcb : List Nat,
        l ++ t ++ p ++ crcb = (l ++ t ++ h) ++ (c ++ crcb) := by
      intro p h c e l t crcb
      subst e
      simp only [List.append_assoc]
    exact congrArg Except.ok (key _ _ _ hp _ _ _)

theorem chunk_parts (l t p k : List Nat) (hl : l.length = 4) (ht : t.length = 4)
    (hk : k.length = 4) :
    (l ++ t ++ p ++ k).length = 12 + p.length ∧ (l ++ t ++ p ++ k).take 4 = l ∧
      ((l ++ t ++ p ++ k).drop 4).take 4 = t ∧
      ((l ++ t ++ p ++ k).drop 4).take ((l ++ t ++ p ++ k).length - 8) = t ++ p ∧
      (l ++ t ++ p ++ k).drop ((l ++ t ++ p ++ k).length - 4) = k := by
  have hlen : (l ++ t ++ p ++ k).length = 12 + p.length := by
    simp only [List.length_append, hl, ht, hk]; omega
  refine ⟨hlen, ?_, ?_, ?_, ?_⟩
  · rw [List.append_assoc, List.append_assoc, List.take_left' hl]
  · rw [List.append_assoc, List.append_assoc, List.drop_left' hl, List.take_left' ht]
  · rw [hlen, List.append_assoc, List.append_assoc, List.drop_left' hl, ← List.append_assoc,
      List.take_left' (by simp only [List.length_append, ht]; omega)]
  · rw [hlen, List.drop_left' (by simp only [List.length_append, hl, ht]; omega)]

/-- C28. For every document, `createNpTcChunk` returns a byte array `c` that is a
well-formed chunk: its first 4 bytes are the big-endian encoding of `c.length - 12`, the
payload length `32 + 4 * (|xDivs| + |yDivs| + numColors)`; bytes 4..7 are the ASCII codes
of `npTc`; and its last 4 bytes are the big-endian CRC-32 of bytes `4..c.length-5`. -/
theorem createNpTcChunk_well_formed (info : NinePatchInfo) :
    ∃ c, createNpTcChunk info = .ok c ∧ 12 ≤ c.length ∧
      c.length - 12 =
        32 + 4 * ((divsOf info.stretchRegionsX).length + (divsOf info.stretchRegionsY).length +
          ((divsOf info.stretchRegionsX).length / 2 + 1) *
            ((divsOf info.stretchRegionsY).length / 2 + 1)) ∧
      c.take 4 = be32 ((c.length - 12 : Nat) : Int) ∧
      getUint32 c 0 = .ok ((c.length - 12) % 4294967296) ∧
      (c.drop 4).take 4 = [0x6E, 0x70, 0x54, 0x63] ∧
      c.drop (c.length - 4) = be32 (calculateCRC32 ((c.drop 4).take (c.length - 8)) : Nat) ∧
      getUint32 c (c.length - 4) = .ok (calculateCRC32 ((c.drop 4).take (c.length - 8))) := by
  refine ⟨_, createNpTcChunk_eq info, ?_⟩
  obtain ⟨h1, h2, h3, h4, h5⟩ := chunk_parts (be32 ((payloadBytes info).length : Nat))
    [0x6E, 0x70, 0x54, 0x63] (payloadBytes info)
    (be32 (calculateCRC32 ([0x6E, 0x70, 0x54, 0x63] ++ payloadBytes info) : Nat))
    (be32_length _) rfl (be32_length _)
  have h12 : 12 + (payloadBytes info).length - 12 = (payloadBytes info).length := by omega
  rw [h4, h5, h3, h2, h1, h12]
  refine ⟨by omega, ?_, rfl, ?_, rfl, rfl, ?_⟩
  · rw [payloadBytes_length]; ring
  · rw [List.append_assoc, List.append_assoc]
    exact getUint32_be32_head _ _
  · have h := getUint32_append_be32
      (be32 ((payloadBytes info).length : Nat) ++ [0x6E, 0x70, 0x54, 0x63] ++ payloadBytes info)
      [] (calculateCRC32 ([0x6E, 0x70, 0x54, 0x63] ++ payloadBytes info))
      (12 + (payloadBytes info).length - 4) (calculateCRC32_lt _)
      (by simp only [List.length_append, be32_length, List.length_cons, List.length_nil]; omega)
    rw [List.append_nil] at h
    exact h

/-- C29. For every document, with `numColors = (nx + 1) * (ny + 1)`, the chunk returned by
`createNpTcChunk` ends with the `colors` array of `numColors` big-endian u32 entries and the
4 CRC bytes; entry `i` is `0xFF06070A` when `i = ⌊numColors / 2⌋` and `0x00000001`
otherwise, so exactly one entry carries the special value. -/
theorem createNpTcChunk_colors (info : NinePatchInfo) :
    ∃ c, createNpTcChunk info = .ok c ∧
      c.length = colorsOffset info + 4 * numColorsOf info + 4 ∧
      (∀ i, i < numColorsOf info →
        getUint32 c (colorsOffset info + 4 * i) =
          .ok (if i = numColorsOf info / 2 then 0xFF06070A else 0x00000001)) ∧
      ∃! i, i < numColorsOf info ∧
        getUint32 c (colorsOffset info + 4 * i) = .ok 0xFF06070A := by
  obtain ⟨pre, crc, hpre, hcrc, hc⟩ := createNpTcChunk_colors_layout info
  have hentry : ∀ i, i < numColorsOf info →
      getUint32 (pre ++ (colorsOf (numColorsOf info) ++ crc)) (colorsOffset info + 4 * i) =
        .ok (if i = numColorsOf info / 2 then 0xFF06070A else 0x00000001) := by
    intro i hi
    have h := getUint32_colors (numColorsOf info / 2) (List.range (numColorsOf info)) pre crc i
      (by simpa using hi)
    rw [List.getElem_range, hpre] at h
    exact h
  have hpos : 0 < numColorsOf info := Nat.mul_pos (Nat.succ_pos _) (Nat.succ_pos _)
  refine ⟨_, hc, ?_, hentry, numColorsOf info / 2, ⟨Nat.div_lt_self hpos (by decide), ?_⟩, ?_⟩
  · simp only [List.length_append, colorsOf_length, hpre, hcrc]
    omega
  · rw [hentry _ (Nat.div_lt_self hpos (by decide)), if_pos rfl]
  · rintro i ⟨hi, h⟩
    rw [hentry i hi] at h
    by_contra hne
    rw [if_neg hne] at h
    exact absurd h (by decide)

theorem wideImage_width : wideImage.width = 255 := rfl

theorem wideImage_height : wideImage.height = 3 := rfl

theorem alternatingRegions_length (n : Nat) : (alternatingRegions n).length = n := by
  unfold alternatingRegions
  rw [List.length_map, List.length_range]

theorem wideImage_read (n : Nat) (hn : n < 3060) (i : Int) (hi : i = (n : Int)) :
    readByte wideImage.data i = some (wideImageByte n) := by
  rw [readByte_natCast _ n i hi]
  simp [wideImage, List.getElem?_map, List.getElem?_range hn]

theorem wideImage_marker (p : Nat) (hp : p < 765) (i : Int) (hi : i = 4 * (p : Int)) :
    isBlackPixel wideImage.data i = decide ((p < 255 ∧ p % 2 = 1) ∨ p = 255) := by
  unfold isBlackPixel
  rw [wideImage_read (4 * p) (by omega) i (by omega),
    wideImage_read (4 * p + 1) (by omega) (i + 1) (by omega),
    wideImage_read (4 * p + 2) (by omega) (i + 2) (by omega),
    wideImage_read (4 * p + 3) (by omega) (i + 3) (by omega)]
  have h0 : wideImageByte (4 * p) = 0 := by
    unfold wideImageByte; rw [if_neg (by omega)]
  have h1 : wideImageByte (4 * p + 1) = 0 := by
    unfold wideImageByte; rw [if_neg (by omega)]
  have h2 : wideImageByte (4 * p + 2) = 0 := by
    unfold wideImageByte; rw [if_neg (by omega)]
  rw [h0, h1, h2]
  by_cases h : (p < 255 ∧ p % 2 = 1) ∨ p = 255
  · have h3 : wideImageByte (4 * p + 3) = 255 := by
      unfold wideImageByte; rw [if_pos (by omega)]
    rw [h3]
    simp [h]
  · have h3 : wideImageByte (4 * p + 3) = 0 := by
      unfold wideImageByte; rw [if_neg (by omega)]
    rw [h3]
    simp [h]

theorem alternatingRegions_succ (n : Nat) :
    alternatingRegions (n + 1) =
      alternatingRegions n ++ [⟨2 * (n : Int), 2 * (n : Int)⟩] := by
  simp [alternatingRegions, List.range_succ]

theorem scanLoop_alternating (f : Nat → Bool) (m : Nat)
    (hf : ∀ x, 1 ≤ x → x ≤ m → f x = decide (x % 2 = 1)) :
    ∀ k, 2 * k + 1 ≤ m →
      scanLoop f (2 * k + 1) = ⟨alternatingRegions k, some (2 * (k : Int))⟩ := by
  intro k
  induction k with
  | zero =>
    intro h
    rw [scanLoop_succ, scanLoop_zero, hf 1 (by omega) (by omega)]
    rfl
  | succ k ih =>
    intro h
    have e : 2 * (k + 1) + 1 = (2 * k + 1) + 1 + 1 := by omega
    rw [e, scanLoop_succ, scanLoop_succ, ih (by omega),
      hf (2 * k + 1 + 1) (by omega) (by omega), hf (2 * k + 1 + 1 + 1) (by omega) (by omega)]
    have d1 : decide ((2 * k + 1 + 1) % 2 = 1) = false := by
      rw [decide_eq_false_iff_not]; omega
    have d2 : decide ((2 * k + 1 + 1 + 1) % 2 = 1) = true := by
      rw [decide_eq_true_iff]; omega
    rw [d1, d2]
    simp only [scanStep, alternatingRegions_succ]
    simp only [Bool.false_eq_true, if_false, if_true]
    congr 2
    · congr 2
      push_cast
      omega
    · push_cast
      omega

theorem wideImage_regionsX :
    parseStretchRegions wideImage "horizontal" = alternatingRegions 127 := by
  rw [parseStretchRegions_horizontal]
  have hf : ∀ x, 1 ≤ x → x ≤ 253 →
      (fun x : Nat => isBlackPixel wideImage.data ((x : Int) * 4)) x = decide (x % 2 = 1) := by
    intro x h1 h2
    simp only []
    rw [wideImage_marker x (by omega) _ (by omega)]
    have : ((x < 255 ∧ x % 2 = 1) ∨ x = 255) ↔ x % 2 = 1 := by omega
    simp only [this]
  have h := scanLoop_alternating _ 253 hf 126 (by omega)
  have hw : wideImage.width - 2 = 2 * 126 + 1 := rfl
  rw [hw, h, alternatingRegions_succ]
  rfl

theorem wideImage_regionsY : parseStretchRegions wideImage "vertical" = [⟨0, 0⟩] := by
  rw [parseStretchRegions_vertical]
  have hh : wideImage.height - 2 = 0 + 1 := rfl
  rw [hh, scanLoop_succ, scanLoop_zero]
  have : isBlackPixel wideImage.data (((0 + 1 : Nat) : Int) * (wideImage.width : Int) * 4) =
      true := by
    rw [wideImage_marker 255 (by omega) _ (by rw [wideImage_width]; norm_num)]
    decide
  rw [this]
  rfl

theorem parseSourceNinePatch_errors_nil (img : ImageData)
    (hx : parseStretchRegions img "horizontal" ≠ [])
    (hy : parseStretchRegions img "vertical" ≠ []) (hw : 3 ≤ img.width) (hh : 3 ≤ img.height)
    (c1 : readByte img.data (((0 : Int) * img.width + 0) * 4 + 3) = some 0)
    (c2 : readByte img.data (((0 : Int) * img.width + ((img.width : Int) - 1)) * 4 + 3) =
      some 0)
    (c3 : readByte img.data ((((img.height : Int) - 1) * img.width + 0) * 4 + 3) = some 0)
    (c4 : readByte img.data
      ((((img.height : Int) - 1) * img.width + ((img.width : Int) - 1)) * 4 + 3) = some 0) :
    (parseSourceNinePatch img).errors = [] := by
  rw [parseSourceNinePatch_errors, validateNinePatch_errors_raw]
  simp only []
  rw [if_neg hx, if_neg hy, if_neg (by omega), c1, c2, c3, c4]
  simp

theorem wideImage_regionsX_ne : parseStretchRegions wideImage "horizontal" ≠ [] := by
  intro h
  have h2 := congrArg List.length (wideImage_regionsX.symm.trans h)
  rw [alternatingRegions_length] at h2
  exact absurd h2 (by decide)

theorem wideImage_regionsY_ne : parseStretchRegions wideImage "vertical" ≠ [] := by
  intro h
  exact absurd (wideImage_regionsY.symm.trans h) (List.cons_ne_nil _ _)

theorem wideImage_corners :
    readByte wideImage.data (((0 : Int) * wideImage.width + 0) * 4 + 3) = some 0 ∧
      readByte wideImage.data
        (((0 : Int) * wideImage.width + ((wideImage.width : Int) - 1)) * 4 + 3) = some 0 ∧
      readByte wideImage.data
        ((((wideImage.height : Int) - 1) * wideImage.width + 0) * 4 + 3) = some 0 ∧
      readByte wideImage.data
        ((((wideImage.height : Int) - 1) * wideImage.width +
          ((wideImage.width : Int) - 1)) * 4 + 3) = some 0 := by
  rw [wideImage_width, wideImage_height]
  exact ⟨wideImage_read 3 (by omega) _ (by norm_num),
    wideImage_read 1019 (by omega) _ (by norm_num),
    wideImage_read 2043 (by omega) _ (by norm_num),
    wideImage_read 3059 (by omega) _ (by norm_num)⟩

theorem wideImage_isValid : (parseSourceNinePatch wideImage).isValid = true :=
  (parseSourceNinePatch_isValid wideImage).2
    (parseSourceNinePatch_errors_nil wideImage wideImage_regionsX_ne wideImage_regionsY_ne
      (le_of_eq_of_le rfl (by decide : 3 ≤ 255)) (le_refl 3)
      wideImage_corners.1 wideImage_corners.2.1 wideImage_corners.2.2.1
      wideImage_corners.2.2.2)

theorem chunk_getD (l t p k : List Nat) (j : Nat) (hl : l.length = 4) (ht : t.length = 4) :
    (l ++ t ++ p ++ k).getD (8 + j) 0 = (p ++ k).getD j 0 := by
  rw [List.append_assoc (l ++ t)]
  have h := getD_append_add (l ++ t) (p ++ k) j
  rw [List.length_append, hl, ht] at h
  exact h

theorem payloadBytes_counts (info : NinePatchInfo) (k : List Nat) :
    (payloadBytes info ++ k).getD 1 0 =
        (((divsOf info.stretchRegionsX).length : Int) % 256).toNat ∧
      (payloadBytes info ++ k).getD 2 0 =
        (((divsOf info.stretchRegionsY).length : Int) % 256).toNat ∧
      (payloadBytes info ++ k).getD 3 0 =
        (((((divsOf info.stretchRegionsX).length / 2 + 1) *
          ((divsOf info.stretchRegionsY).length / 2 + 1) : Nat) : Int) % 256).toNat := by
  simp only [payloadBytes, List.append_assoc, List.cons_append, List.getD_cons_succ,
    List.getD_cons_zero, and_self]

theorem createNpTcChunk_count_bytes (info : NinePatchInfo) :
    ∃ c, createNpTcChunk info = .ok c ∧ c.length = 12 + (payloadBytes info).length ∧
      c.getD 9 0 = (((divsOf info.stretchRegionsX).length : Int) % 256).toNat ∧
      c.getD 10 0 = (((divsOf info.stretchRegionsY).length : Int) % 256).toNat ∧
      c.getD 11 0 =
        (((((divsOf info.stretchRegionsX).length / 2 + 1) *
          ((divsOf info.stretchRegionsY).length / 2 + 1) : Nat) : Int) % 256).toNat := by
  obtain ⟨h1, h2, h3⟩ := payloadBytes_counts info
    (be32 (calculateCRC32 ([0x6E, 0x70, 0x54, 0x63] ++ payloadBytes info) : Nat))
  refine ⟨_, createNpTcChunk_eq info, ?_, ?_, ?_, ?_⟩
  · simp only [List.length_append, be32_length, List.length_cons, List.length_nil]
    omega
  · exact (chunk_getD _ [0x6E, 0x70, 0x54, 0x63] _ _ 1 (be32_length _) rfl).trans h1
  · exact (chunk_getD _ [0x6E, 0x70, 0x54, 0x63] _ _ 2 (be32_length _) rfl).trans h2
  · exact (chunk_getD _ [0x6E, 0x70, 0x54, 0x63] _ _ 3 (be32_length _) rfl).trans h3

theorem createNpTcChunk_counts_of_lengths (info : NinePatchInfo)
    (hx : info.stretchRegionsX.length = 127) (hy : info.stretchRegionsY.length = 1) :
    (divsOf info.stretchRegionsX).length = 254 ∧ (divsOf info.stretchRegionsY).length = 2 ∧
      numColorsOf info = 256 ∧
      ∃ c, createNpTcChunk info = .ok c ∧
        c.length = 12 + (32 + 4 * 254 + 4 * 2 + 4 * 256) ∧
        c.getD 9 0 = 254 ∧ c.getD 10 0 = 2 ∧ c.getD 11 0 = 0 := by
  have dX : (divsOf info.stretchRegionsX).length = 254 := by
    rw [divsOf_eq, flattenRegions_length, hx]
  have dY : (divsOf info.stretchRegionsY).length = 2 := by
    rw [divsOf_eq, flattenRegions_length, hy]
  refine ⟨dX, dY, ?_, ?_⟩
  · unfold numColorsOf
    rw [hx, hy]
  · obtain ⟨c, hc, hlen, h9, h10, h11⟩ := createNpTcChunk_count_bytes info
    rw [payloadBytes_length, dX, dY] at hlen
    rw [dX] at h9
    rw [dY] at h10
    rw [dX, dY] at h11
    exact ⟨c, hc, hlen, h9, h10, h11⟩

/-- C30, the failing input. The image `wideImage` is 255×3 with 127 horizontal stretch
regions and one vertical stretch region; the analysis pipeline gives a valid document with
254 `xDivs` entries, 2 `yDivs` entries and `numColors = 128 * 2 = 256`. In the chunk that
`createNpTcChunk` returns, whose payload holds the 256 color entries, the count byte
`numColors` (chunk byte 11, payload byte 3) is `0`: `setUint8` stores `256 mod 256`. -/
theorem createNpTcChunk_numColors_wraps :
    (parseSourceNinePatch wideImage).isValid = true ∧
      (divsOf (parseSourceNinePatch wideImage).stretchRegionsX).length = 254 ∧
      (divsOf (parseSourceNinePatch wideImage).stretchRegionsY).length = 2 ∧
      numColorsOf (parseSourceNinePatch wideImage) = 256 ∧
      ∃ c, createNpTcChunk (parseSourceNinePatch wideImage) = .ok c ∧
        c.length = 12 + (32 + 4 * 254 + 4 * 2 + 4 * 256) ∧
        c.getD 9 0 = 254 ∧ c.getD 10 0 = 2 ∧ c.getD 11 0 = 0 :=
  ⟨wideImage_isValid,
    createNpTcChunk_counts_of_lengths (parseSourceNinePatch wideImage)
      ((congrArg List.length
        ((parseSourceNinePatch_regions wideImage).1.trans wideImage_regionsX)).trans
        (alternatingRegions_length 127))
      (congrArg List.length
        ((parseSourceNinePatch_regions wideImage).2.trans wideImage_regionsY))⟩

set_option maxRecDepth 100000 in
/-- C23, witness: the theorem at `pngNoIdat` (chunks `IHDR`, `IEND`), which parses to an
object that is not a nine-patch; at `tinyPngCompiled` (chunks `IHDR`, `npTc`, `IDAT`,
`IEND`), which parses to an object that is a nine-patch; and at the encoding of
`sampleChunks` (chunks `tEXt`, `IEND`), where `parseBuffer` fails for the missing
`IHDR`. -/
theorem parseBuffer_missing_ihdr_witness :
    (PNG_SIGNATURE <+: pngNoIdat ∧ parseChunks pngNoIdat = .ok pngNoIdatChunks ∧
      ∃ r, parseBuffer pngNoIdat = .ok r ∧ r.chunks = pngNoIdatChunks ∧
        r.isNinePatch = false ∧ r.imageInfo = ⟨1, 1, 8, 6, 0, 0, 0⟩) ∧
    (PNG_SIGNATURE <+: tinyPngCompiled ∧
      parseChunks tinyPngCompiled = .ok tinyPngCompiledChunks ∧
      ∃ r, parseBuffer tinyPngCompiled = .ok r ∧ r.chunks = tinyPngCompiledChunks ∧
        r.isNinePatch = true) ∧
    (PNG_SIGNATURE <+: PNG_SIGNATURE ++ sampleChunks.flatMap encodeChunk ∧
      parseChunks (PNG_SIGNATURE ++ sampleChunks.flatMap encodeChunk) = .ok sampleChunks ∧
      parseBuffer (PNG_SIGNATURE ++ sampleChunks.flatMap encodeChunk) =
        .error "缺少IHDR chunk") := by
  have h1 : parseChunks pngNoIdat = .ok pngNoIdatChunks := by decide
  have h2 : parseChunks tinyPngCompiled = .ok tinyPngCompiledChunks := by decide
  have h3 : parseChunks (PNG_SIGNATURE ++ sampleChunks.flatMap encodeChunk) =
      .ok sampleChunks := by decide
  refine ⟨⟨by decide, h1, ?_⟩, ⟨by decide, h2, ?_⟩, ⟨by decide, h3, ?_⟩⟩
  · obtain ⟨info, hinfo, hr⟩ :=
      (parseBuffer_missing_ihdr pngNoIdat pngNoIdatChunks (by decide) h1).2.1
        ⟨13, "IHDR", [0, 0, 0, 1, 0, 0, 0, 1, 8, 6, 0, 0, 0], 521520265⟩ (by decide) (by decide)
    have hi : parseIHDR [0, 0, 0, 1, 0, 0, 0, 1, 8, 6, 0, 0, 0] = .ok ⟨1, 1, 8, 6, 0, 0, 0⟩ := by
      decide
    rw [hi] at hinfo
    simp only [Except.ok.injEq] at hinfo
    have hn : (pngNoIdatChunks.find? (fun chunk => chunk.type_ = "npTc")).isSome = false := by
      decide
    exact ⟨_, hr, rfl, hn, hinfo.symm⟩
  · obtain ⟨info, _, hr⟩ :=
      (parseBuffer_missing_ihdr tinyPngCompiled tinyPngCompiledChunks (by decide) h2).2.1
        ⟨13, "IHDR", [0, 0, 0, 1, 0, 0, 0, 1, 8, 6, 0, 0, 0], 521520265⟩ (by decide) (by decide)
    have hn : (tinyPngCompiledChunks.find? (fun chunk => chunk.type_ = "npTc")).isSome =
        true := by
      decide
    exact ⟨_, hr, rfl, hn⟩
  · exact (parseBuffer_missing_ihdr _ sampleChunks (by decide) h3).1.2 (by decide)

/-- C40. For every document, `PreviewRenderer.getCleanImageData(doc)` and
`NinePatchProcessor.removeNinePatchBorders(doc.imageData)` give the same outcome: they fail
together, and when they return images these have identical width, height and pixel bytes. -/
theorem getCleanImageData_eq_removeNinePatchBorders (info : NinePatchInfo) :
    getCleanImageData info = removeNinePatchBorders info.imageData ∧
      ∀ a b, getCleanImageData info = .ok a → removeNinePatchBorders info.imageData = .ok b →
        a.width = b.width ∧ a.height = b.height ∧ a.data = b.data := by
  have h : getCleanImageData info = removeNinePatchBorders info.imageData := rfl
  refine ⟨h, fun a b ha hb => ?_⟩
  rw [h, hb] at ha
  simp only [Except.ok.injEq] at ha
  subst ha
  exact ⟨rfl, rfl, rfl⟩

theorem parseStretchRegions_horizontal_narrow (img : ImageData) (h : img.width < 3) :
    parseStretchRegions img "horizontal" = [] := by
  rw [parseStretchRegions_horizontal]
  have : img.width - 2 = 0 := by omega
  rw [this, scanLoop_zero]
  rfl

theorem parseStretchRegions_vertical_low (img : ImageData) (h : img.height < 3) :
    parseStretchRegions img "vertical" = [] := by
  rw [parseStretchRegions_vertical]
  have : img.height - 2 = 0 := by omega
  rw [this, scanLoop_zero]
  rfl

theorem parseSourceNinePatch_errors_raw (img : ImageData) :
    (parseSourceNinePatch img).errors =
      (if parseStretchRegions img "horizontal" = [] then ["缺少水平拉伸区域标记（顶部边缘）"]
        else []) ++
      ((if parseStretchRegions img "vertical" = [] then ["缺少垂直拉伸区域标记（左侧边缘）"]
        else []) ++
      ((if img.width < 3 ∨ img.height < 3 then ["图片尺寸太小，至少需要3x3像素"] else []) ++
      ((if readByte img.data (((0 : Int) * img.width + 0) * 4 + 3) ≠ some 0
        then ["左上角必须为透明像素"] else []) ++
      ((if readByte img.data (((0 : Int) * img.width + ((img.width : Int) - 1)) * 4 + 3) ≠ some 0
        then ["右上角必须为透明像素"] else []) ++
      ((if readByte img.data ((((img.height : Int) - 1) * img.width + 0) * 4 + 3) ≠ some 0
        then ["左下角必须为透明像素"] else []) ++
      (if readByte img.data
          ((((img.height : Int) - 1) * img.width + ((img.width : Int) - 1)) * 4 + 3) ≠ some 0
        then ["右下角必须为透明像素"] else [])))))) := by
  rw [parseSourceNinePatch_errors, validateNinePatch_errors_raw]

/-- C38. For every document produced by the analysis pipeline: `width < 3` forces
`stretchRegionsX` to be empty and `height < 3` forces `stretchRegionsY` to be empty, and if
the errors list holds the image-too-small error then it also holds the missing-horizontal
or the missing-vertical stretch error. -/
theorem parseSourceNinePatch_size_error_not_alone (img : ImageData) :
    (img.width < 3 → (parseSourceNinePatch img).stretchRegionsX = []) ∧
      (img.height < 3 → (parseSourceNinePatch img).stretchRegionsY = []) ∧
      ("图片尺寸太小，至少需要3x3像素" ∈ (parseSourceNinePatch img).errors →
        "缺少水平拉伸区域标记（顶部边缘）" ∈ (parseSourceNinePatch img).errors ∨
          "缺少垂直拉伸区域标记（左侧边缘）" ∈ (parseSourceNinePatch img).errors) := by
  refine ⟨fun h => (parseSourceNinePatch_regions img).1.trans
      (parseStretchRegions_horizontal_narrow img h),
    fun h => (parseSourceNinePatch_regions img).2.trans
      (parseStretchRegions_vertical_low img h), ?_⟩
  rw [parseSourceNinePatch_errors_raw]
  intro hmem
  have hsize : img.width < 3 ∨ img.height < 3 := by
    by_contra hn
    rw [if_neg hn] at hmem
    simp only [List.mem_append, List.nil_append, List.not_mem_nil, false_or] at hmem
    rcases hmem with h | h | h | h | h | h <;>
      · split at h
        · rw [List.mem_singleton] at h
          exact absurd h (by decide)
        · exact absurd h (List.not_mem_nil _)
  rcases hsize with h | h
  · left
    rw [if_pos (parseStretchRegions_horizontal_narrow img h)]
    simp
  · right
    rw [if_pos (parseStretchRegions_vertical_low img h)]
    simp

/-- C38, witness: the theorem at `narrowImage`, a 1×3 image, whose errors hold the size
error together with the missing-horizontal stretch error. -/
theorem parseSourceNinePatch_size_error_not_alone_witness :
    narrowImage.width < 3 ∧
      "图片尺寸太小，至少需要3x3像素" ∈ (parseSourceNinePatch narrowImage).errors ∧
      (parseSourceNinePatch narrowImage).stretchRegionsX = [] ∧
      ("缺少水平拉伸区域标记（顶部边缘）" ∈ (parseSourceNinePatch narrowImage).errors ∨
        "缺少垂直拉伸区域标记（左侧边缘）" ∈ (parseSourceNinePatch narrowImage).errors) :=
  ⟨by decide, by decide,
    (parseSourceNinePatch_size_error_not_alone narrowImage).1 (by decide),
    (parseSourceNinePatch_size_error_not_alone narrowImage).2.2 (by decide)⟩

/-- C36, counterexample. For three stretchable segments with `start ≤ end`
(`staticSize = 0`, `stretchableCount = 3 ≥ 1`) and the integer
`targetSize = 13510798882111490 ≥ staticSize + stretchableCount`, each segment receives
the double quotient `4503599627370497`, so the sum of the sizes returned by
`calculateTargetSizes` is `13510798882111491`, which exceeds `targetSize`. -/
theorem calculateTargetSizes_sum_exceeds_target :
    1 ≤ stretchableCountOf threeStretchable ∧
      (∀ s ∈ threeStretchable, s.start ≤ s.stop) ∧
      staticSizeOf threeStretchable + stretchableCountOf threeStretchable ≤
        (13510798882111490 : Int) ∧
      (calculateTargetSizes threeStretchable 13510798882111490).sum = 13510798882111491 ∧
      ¬ (calculateTargetSizes threeStretchable 13510798882111490).sum ≤ 13510798882111490 := by
  obtain ⟨hs, hn, hc, _⟩ := calculateTargetSizes_threeStretchable
  refine ⟨by rw [hn]; decide, by decide, by rw [hs, hn]; decide, by rw [hc]; decide,
    by rw [hc]; decide⟩

/-- C36, amended. For every segment list with `stretchableCount ≥ 1` whose segments have
`start ≤ end` and every integer `targetSize` with
`staticSize + stretchableCount ≤ targetSize < 2 ^ 53`, the sum `S` of the sizes returned
by `calculateTargetSizes` satisfies `targetSize - stretchableCount < S ≤ targetSize`, with
`S = targetSize` iff `stretchableCount` divides `targetSize - staticSize`; the shortfall
`targetSize - S` is at most `stretchableCount - 1`. -/
theorem calculateTargetSizes_sum_bounds (segs : List Boundary) (targetSize : Int)
    (hn : 1 ≤ stretchableCountOf segs) (hseg : ∀ s ∈ segs, s.start ≤ s.stop)
    (h : staticSizeOf segs + stretchableCountOf segs ≤ targetSize)
    (hT : targetSize < 2 ^ 53) :
    targetSize - stretchableCountOf segs < (calculateTargetSizes segs targetSize).sum ∧
      (calculateTargetSizes segs targetSize).sum ≤ targetSize ∧
      ((calculateTargetSizes segs targetSize).sum = targetSize ↔
        (stretchableCountOf segs : Int) ∣ targetSize - staticSizeOf segs) ∧
      targetSize - (calculateTargetSizes segs targetSize).sum ≤ stretchableCountOf segs - 1 := by
  have hsafe : targetSize - staticSizeOf segs < 2 ^ 53 := by
    have := staticSizeOf_nonneg segs hseg
    omega
  have hsum := calculateTargetSizes_sum_fit segs targetSize hn h hsafe
  have hpos : (0 : Int) < (stretchableCountOf segs : Int) := by exact_mod_cast hn
  have h1 := Int.emod_nonneg (targetSize - staticSizeOf segs) (ne_of_gt hpos)
  have h2 := Int.emod_lt_of_pos (targetSize - staticSizeOf segs) hpos
  rw [hsum, Int.dvd_iff_emod_eq_zero]
  refine ⟨by omega, by omega, ?_, by omega⟩
  constructor <;> intro h0 <;> omega

/-- C36, witness: the amended theorem at the partition of the regions `[0, 0]`, `[2, 2]`
of a content extent of 3, with `targetSize = 4`: the sum is 3. -/
theorem calculateTargetSizes_sum_bounds_witness :
    1 ≤ stretchableCountOf (getRegionBoundaries separatedRegions 3) ∧
      (∀ s ∈ getRegionBoundaries separatedRegions 3, s.start ≤ s.stop) ∧
      staticSizeOf (getRegionBoundaries separatedRegions 3) +
        stretchableCountOf (getRegionBoundaries separatedRegions 3) ≤ (4 : Int) ∧
      (4 : Int) < 2 ^ 53 ∧
      (4 : Int) - stretchableCountOf (getRegionBoundaries separatedRegions 3) <
        (calculateTargetSizes (getRegionBoundaries separatedRegions 3) 4).sum ∧
      (calculateTargetSizes (getRegionBoundaries separatedRegions 3) 4).sum ≤ 4 :=
  ⟨by rw [calculateTargetSizes_separated.2.2.1]; decide,
    by rw [calculateTargetSizes_separated.1]; decide,
    by rw [calculateTargetSizes_separated.2.1, calculateTargetSizes_separated.2.2.1]; decide,
    by decide,
    (calculateTargetSizes_sum_bounds (getRegionBoundaries separatedRegions 3) 4
      (by rw [calculateTargetSizes_separated.2.2.1]; decide)
      (by rw [calculateTargetSizes_separated.1]; decide)
      (by rw [calculateTargetSizes_separated.2.1, calculateTargetSizes_separated.2.2.1]
          decide)
      (by decide)).1,
    (calculateTargetSizes_sum_bounds (getRegionBoundaries separatedRegions 3) 4
      (by rw [calculateTargetSizes_separated.2.2.1]; decide)
      (by rw [calculateTargetSizes_separated.1]; decide)
      (by rw [calculateTargetSizes_separated.2.1, calculateTargetSizes_separated.2.2.1]
          decide)
      (by decide)).2.1⟩

theorem scanFinal_chain {f : Nat → Bool} {n : Nat} {l : List StretchRegion}
    (h : ScanFinal f n l) : l.Chain' (fun a b => a.stop + 2 ≤ b.start) :=
  List.Pairwise.chain' h.sorted

theorem scanFinal_regionsFrom {f : Nat → Bool} {n : Nat} {l : List StretchRegion}
    (h : ScanFinal f n l) (total : Int) (ht : (n : Int) ≤ total) : RegionsFrom 0 total l := by
  refine ⟨fun r hr => ?_, h.sorted.imp (fun hab => by omega)⟩
  have := h.bounds r hr
  omega

theorem boundaries_of_scanFinal {f : Nat → Bool} {n : Nat} {l : List StretchRegion}
    (h : ScanFinal f n l) (total : Int) (ht : (n : Int) = total) (hpos : 1 ≤ total) :
    l.Chain' (fun a b => a.stop + 2 ≤ b.start) ∧
      IsPartition total (getRegionBoundaries l total) ∧
      Alternates (getRegionBoundaries l total) := by
  have hr := scanFinal_regionsFrom h total (by omega)
  rw [getRegionBoundaries_eq]
  refine ⟨scanFinal_chain h, ⟨?_, boundariesFrom_head _ _ _ hr, boundariesFrom_positive _ _ _ hr,
    boundariesFrom_contiguous _ _ _ hr, boundariesFrom_last _ _ _ hr, ?_⟩,
    boundariesFrom_alternates total 0 l (scanFinal_chain h)⟩
  · intro hnil
    have := (boundariesFrom_nil_iff _ _ _).1 hnil
    omega
  · have := boundariesFrom_sum _ _ _ hr (by omega)
    simpa using this

/-- C34. For every image with `width ≥ 3`, any two consecutive regions `r, r'` returned by
`parseStretchRegions(img, 'horizontal')` satisfy `r'.start ≥ r.end + 2`, and
`getRegionBoundaries` of these regions with `totalSize = width - 2` is a gap-free partition
of `[0, width-2)` whose segments alternate between static and stretchable; the same holds
for `'vertical'` with `height ≥ 3` and `height - 2`. -/
theorem parseStretchRegions_separated (img : ImageData) :
    (3 ≤ img.width →
      (parseStretchRegions img "horizontal").Chain' (fun r r' => r.stop + 2 ≤ r'.start) ∧
      IsPartition ((img.width : Int) - 2)
        (getRegionBoundaries (parseStretchRegions img "horizontal") ((img.width : Int) - 2)) ∧
      Alternates
        (getRegionBoundaries (parseStretchRegions img "horizontal") ((img.width : Int) - 2))) ∧
    (3 ≤ img.height →
      (parseStretchRegions img "vertical").Chain' (fun r r' => r.stop + 2 ≤ r'.start) ∧
      IsPartition ((img.height : Int) - 2)
        (getRegionBoundaries (parseStretchRegions img "vertical") ((img.height : Int) - 2)) ∧
      Alternates
        (getRegionBoundaries (parseStretchRegions img "vertical") ((img.height : Int) - 2))) :=
  ⟨fun hw => boundaries_of_scanFinal (horizontal_scanFinal img) _ (by omega) (by omega),
    fun hh => boundaries_of_scanFinal (vertical_scanFinal img) _ (by omega) (by omega)⟩

/-- C34, witness: the theorem at `framedImage`, a 3×3 image with one marker on each edge. -/
theorem parseStretchRegions_separated_witness :
    3 ≤ framedImage.width ∧ 3 ≤ framedImage.height ∧
      IsPartition ((framedImage.width : Int) - 2)
        (getRegionBoundaries (parseStretchRegions framedImage "horizontal")
          ((framedImage.width : Int) - 2)) ∧
      Alternates
        (getRegionBoundaries (parseStretchRegions framedImage "vertical")
          ((framedImage.height : Int) - 2)) :=
  ⟨by decide, by decide,
    ((parseStretchRegions_separated framedImage).1 (by decide)).2.1,
    ((parseStretchRegions_separated framedImage).2 (by decide)).2.2⟩

theorem find?_range_first (p : Nat → Bool) (i : Nat) (hp : p i = true) :
    ∀ (s n : Nat), s ≤ i → i < s + n → (∀ j, s ≤ j → j < i → p j = false) →
      (List.range' s n).find? p = some i := by
  intro s n
  induction n generalizing s with
  | zero => intro h1 h2 _; omega
  | succ n ih =>
    intro h1 h2 hmin
    rw [List.range'_succ, List.find?_cons]
    by_cases hs : s = i
    · subst hs
      rw [hp]
    · rw [hmin s (le_refl _) (by omega)]
      exact ih (s + 1) (by omega) (by omega) (fun j hj1 hj2 => hmin j (by omega) hj2)

theorem findIdatPos_first (pngData : List Nat) (i : Nat) (hi : 8 ≤ i)
    (hlt : i + 4 < pngData.length) (hb : idatBytesAt pngData i)
    (hmin : ∀ j, 8 ≤ j → j < i → ¬ idatBytesAt pngData j) :
    findIdatPos pngData = some (i - 4) := by
  unfold findIdatPos
  rw [find?_range_first _ i _ 8 _ hi (by omega)]
  · rfl
  · intro j hj1 hj2
    have := hmin j hj1 hj2
    simpa [idatBytesAt, and_assoc] using this
  · simpa [idatBytesAt, and_assoc] using hb

/-- C37. For every byte array `png` in which the bytes `49 44 41 54` start at an index `i`
with `8 ≤ i < png.length - 4` and at no smaller index from 8 on, with `p = i - 4` and
`c = createNpTcChunk(doc)`: `insertNpTcChunk(png, doc)` is `png[0..p) ++ c ++ png[p..)`; the
output has length `png.length + c.length`, its first `p` bytes and its bytes from
`p + c.length` on are those of `png` in order, and deleting the `c.length` bytes starting
at `p` restores `png`. -/
theorem insertNpTcChunk_splice (pngData : List Nat) (info : NinePatchInfo) (i : Nat)
    (hi : 8 ≤ i) (hlt : i + 4 < pngData.length) (hb : idatBytesAt pngData i)
    (hmin : ∀ j, 8 ≤ j → j < i → ¬ idatBytesAt pngData j) :
    ∃ c out, createNpTcChunk info = .ok c ∧ insertNpTcChunk pngData info = .ok out ∧
      out = pngData.take (i - 4) ++ c ++ pngData.drop (i - 4) ∧
      out.length = pngData.length + c.length ∧
      out.take (i - 4) = pngData.take (i - 4) ∧
      (out.drop (i - 4)).take c.length = c ∧
      out.drop (i - 4 + c.length) = pngData.drop (i - 4) ∧
      out.take (i - 4) ++ out.drop (i - 4 + c.length) = pngData := by
  obtain ⟨c, hc⟩ : ∃ c, createNpTcChunk info = .ok c := ⟨_, createNpTcChunk_eq info⟩
  have hfind := findIdatPos_first pngData i hi hlt hb hmin
  have hlen : (pngData.take (i - 4)).length = i - 4 := by
    rw [List.length_take]; omega
  have h1 : (pngData.take (i - 4) ++ c ++ pngData.drop (i - 4)).take (i - 4) =
      pngData.take (i - 4) := by
    rw [List.append_assoc, List.take_left' hlen]
  have h2 : (pngData.take (i - 4) ++ c ++ pngData.drop (i - 4)).drop (i - 4) =
      c ++ pngData.drop (i - 4) := by
    rw [List.append_assoc, List.drop_left' hlen]
  have h3 : (pngData.take (i - 4) ++ c ++ pngData.drop (i - 4)).drop (i - 4 + c.length) =
      pngData.drop (i - 4) := by
    rw [List.drop_left' (by rw [List.length_append, hlen])]
  refine ⟨c, _, hc, insertNpTcChunk_of_some pngData info (i - 4) c hc hfind, rfl, ?_, h1, ?_,
    h3, ?_⟩
  · simp only [List.length_append, List.length_take, List.length_drop]
    omega
  · rw [h2, List.take_left' rfl]
  · rw [h1, h3, List.take_append_drop]

set_option maxRecDepth 100000 in
/-- C37, witness: the theorem at `tinyPng`, whose bytes `IDAT` start at index 37 and nowhere
before, with the document `blankDoc`. -/
theorem insertNpTcChunk_splice_witness :
    idatBytesAt tinyPng 37 ∧ (∀ j, 8 ≤ j → j < 37 → ¬ idatBytesAt tinyPng j) ∧
      ∃ c out, createNpTcChunk blankDoc = .ok c ∧ insertNpTcChunk tinyPng blankDoc = .ok out ∧
        out = tinyPng.take (37 - 4) ++ c ++ tinyPng.drop (37 - 4) ∧
        out.length = tinyPng.length + c.length ∧
        out.take (37 - 4) = tinyPng.take (37 - 4) ∧
        (out.drop (37 - 4)).take c.length = c ∧
        out.drop (37 - 4 + c.length) = tinyPng.drop (37 - 4) ∧
        out.take (37 - 4) ++ out.drop (37 - 4 + c.length) = tinyPng :=
  have hmin : ∀ j, 8 ≤ j → j < 37 → ¬ idatBytesAt tinyPng j := by
    intro j h1 h2
    interval_cases j <;> simp [idatBytesAt, tinyPng]
  ⟨by simp [idatBytesAt, tinyPng], hmin,
    insertNpTcChunk_splice tinyPng blankDoc 37 (by decide) (by decide)
      (by simp [idatBytesAt, tinyPng]) hmin⟩

theorem getUint32_ok_bound {view : List Nat} {offset v : Nat}
    (h : getUint32 view offset = .ok v) : offset + 4 ≤ view.length := by
  unfold getUint32 at h
  by_contra hn
  rw [if_pos (by omega)] at h
  exact absurd h (by simp [throw, throwThe, MonadExceptOf.throw])

theorem subView_ok_bound {view : List Nat} {offset length : Nat} {l : List Nat}
    (h : subView view offset length = .ok l) :
    offset + length ≤ view.length ∧ l.length = length := by
  by_cases hb : offset + length ≤ view.length
  · rw [subView_ok _ _ _ hb] at h
    simp only [Except.ok.injEq] at h
    subst h
    refine ⟨hb, ?_⟩
    simp only [List.length_take, List.length_drop]
    omega
  · rw [subView_error _ _ _ (by omega)] at h
    exact absurd h (by simp)

theorem getUint32_cases (view : List Nat) (offset : Nat) :
    getUint32 view offset = .error "RangeError" ∨ ∃ v, getUint32 view offset = .ok v := by
  by_cases h : offset + 4 ≤ view.length
  · exact Or.inr ⟨_, getUint32_ok view offset h⟩
  · exact Or.inl (getUint32_error view offset (by omega))

theorem subView_cases (view : List Nat) (offset length : Nat) :
    subView view offset length = .error "RangeError" ∨
      ∃ l, subView view offset length = .ok l := by
  by_cases h : offset + length ≤ view.length
  · exact Or.inr ⟨_, subView_ok view offset length h⟩
  · exact Or.inl (subView_error view offset length (by omega))

theorem parseChunksLoop_iteration (view : List Nat) (offset : Nat)
    (hlt : offset < view.length) :
    (∀ (fuel : Nat) (acc : List PNGChunk),
        parseChunksLoop view (fuel + 1) offset acc = .error "RangeError") ∨
      ∃ c : PNGChunk, offset + (12 + c.length) ≤ view.length ∧ c.data.length = c.length ∧
        ∀ (fuel : Nat) (acc : List PNGChunk),
          parseChunksLoop view (fuel + 1) offset acc =
            if c.type_ = "IEND" then .ok (acc ++ [c])
            else parseChunksLoop view fuel (offset + (12 + c.length)) (acc ++ [c]) := by
  rcases getUint32_cases view offset with h1 | ⟨len, h1⟩
  · left; intro fuel acc
    rw [parseChunksLoop, if_pos hlt]
    simp only [h1]
    rfl
  rcases subView_cases view (offset + 4) 4 with h2 | ⟨typeBytes, h2⟩
  · left; intro fuel acc
    rw [parseChunksLoop, if_pos hlt]
    simp only [h1, except_ok_bind, h2]
    rfl
  rcases subView_cases view (offset + 4 + 4) len with h3 | ⟨data, h3⟩
  · left; intro fuel acc
    rw [parseChunksLoop, if_pos hlt]
    simp only [h1, except_ok_bind, h2, h3]
    rfl
  rcases getUint32_cases view (offset + 4 + 4 + len) with h4 | ⟨crc, h4⟩
  · left; intro fuel acc
    rw [parseChunksLoop, if_pos hlt]
    simp only [h1, except_ok_bind, h2, h3, h4]
    rfl
  right
  refine ⟨⟨len, String.mk (typeBytes.map Char.ofNat), data, crc⟩, ?_, (subView_ok_bound h3).2, ?_⟩
  · have := getUint32_ok_bound h4
    show offset + (12 + len) ≤ view.length
    omega
  · intro fuel acc
    rw [parseChunksLoop, if_pos hlt]
    simp only [h1, except_ok_bind, h2, h3, h4]
    have e : offset + 4 + 4 + len + 4 = offset + (12 + len) := by omega
    rw [e]
    rfl

theorem parseChunksLoop_done (view : List Nat) (fuel offset : Nat) (acc : List PNGChunk)
    (h : ¬ offset < view.length) : parseChunksLoop view fuel offset acc = .ok acc := by
  unfold parseChunksLoop
  rw [if_neg h]
  rfl

theorem parseChunksLoop_returns (view : List Nat) :
    ∀ (fuel offset : Nat) (acc : List PNGChunk), view.length ≤ offset + 12 * fuel →
      (∃ chunks, parseChunksLoop view fuel offset acc = .ok chunks) ∨
        parseChunksLoop view fuel offset acc = .error "RangeError" := by
  intro fuel
  induction fuel with
  | zero =>
    intro offset acc h
    exact Or.inl ⟨acc, parseChunksLoop_done view 0 offset acc (by omega)⟩
  | succ fuel ih =>
    intro offset acc h
    by_cases hlt : offset < view.length
    · rcases parseChunksLoop_iteration view offset hlt with he | ⟨c, hc, _, hstep⟩
      · exact Or.inr (he fuel acc)
      · rw [hstep]
        by_cases hty : c.type_ = "IEND"
        · rw [if_pos hty]; exact Or.inl ⟨_, rfl⟩
        · rw [if_neg hty]; exact ih _ _ (by omega)
    · exact Or.inl ⟨acc, parseChunksLoop_done view _ offset acc hlt⟩

theorem parseChunksLoop_fuel (view : List Nat) :
    ∀ (fuel1 fuel2 offset : Nat) (acc : List PNGChunk), view.length ≤ offset + 12 * fuel1 →
      view.length ≤ offset + 12 * fuel2 →
      parseChunksLoop view fuel1 offset acc = parseChunksLoop view fuel2 offset acc := by
  intro fuel1
  induction fuel1 with
  | zero =>
    intro fuel2 offset acc h1 _
    rw [parseChunksLoop_done view 0 offset acc (by omega),
      parseChunksLoop_done view fuel2 offset acc (by omega)]
  | succ fuel1 ih =>
    intro fuel2 offset acc h1 h2
    by_cases hlt : offset < view.length
    · obtain ⟨fuel2, rfl⟩ : ∃ f, fuel2 = f + 1 := ⟨fuel2 - 1, by omega⟩
      rcases parseChunksLoop_iteration view offset hlt with he | ⟨c, hc, _, hstep⟩
      · rw [he, he]
      · rw [hstep, hstep]
        by_cases hty : c.type_ = "IEND"
        · rw [if_pos hty, if_pos hty]
        · rw [if_neg hty, if_neg hty]
          exact ih fuel2 _ _ (by omega) (by omega)
    · rw [parseChunksLoop_done view _ offset acc hlt,
        parseChunksLoop_done view fuel2 offset acc hlt]

theorem parseChunksLoop_count (view : List Nat) :
    ∀ (fuel offset : Nat) (acc chunks : List PNGChunk),
      parseChunksLoop view fuel offset acc = .ok chunks →
      chunks.length ≤ acc.length + (view.length - offset + 11) / 12 := by
  intro fuel
  induction fuel with
  | zero =>
    intro offset acc chunks h
    by_cases hlt : offset < view.length
    · unfold parseChunksLoop at h
      rw [if_pos hlt] at h
      exact absurd h (by simp [throw, throwThe, MonadExceptOf.throw])
    · rw [parseChunksLoop_done view 0 offset acc hlt] at h
      simp only [Except.ok.injEq] at h
      subst h
      omega
  | succ fuel ih =>
    intro offset acc chunks h
    by_cases hlt : offset < view.length
    · rcases parseChunksLoop_iteration view offset hlt with he | ⟨c, hc, _, hstep⟩
      · rw [he] at h; exact absurd h (by simp)
      · rw [hstep] at h
        by_cases hty : c.type_ = "IEND"
        · rw [if_pos hty] at h
          simp only [Except.ok.injEq] at h
          subst h
          simp only [List.length_append, List.length_singleton]
          omega
        · rw [if_neg hty] at h
          have := ih _ _ _ h
          simp only [List.length_append, List.length_singleton] at this
          omega
    · rw [parseChunksLoop_done view _ offset acc hlt] at h
      simp only [Except.ok.injEq] at h
      subst h
      omega

/-- C39. On every buffer `parseChunks` returns, with a chunk list or with a `RangeError`:
every iteration of its loop either fails or advances the read offset by `12 + length ≥ 12`
while staying inside the buffer, so for a buffer of `n` bytes `⌈(n - 8) / 12⌉` iterations
are enough (any larger iteration budget gives the same result) and at most that many
chunks are returned. -/
theorem parseChunks_terminates (view : List Nat) :
    ((∃ chunks, parseChunks view = .ok chunks) ∨ parseChunks view = .error "RangeError") ∧
      (∀ (fuel offset : Nat) (acc : List PNGChunk), offset < view.length →
        parseChunksLoop view (fuel + 1) offset acc = .error "RangeError" ∨
          ∃ c : PNGChunk, offset + (12 + c.length) ≤ view.length ∧
            parseChunksLoop view (fuel + 1) offset acc =
              if c.type_ = "IEND" then .ok (acc ++ [c])
              else parseChunksLoop view fuel (offset + (12 + c.length)) (acc ++ [c])) ∧
      (∀ fuel, iterationBound view.length ≤ fuel →
        parseChunksLoop view fuel 8 [] = parseChunks view) ∧
      ∀ chunks, parseChunks view = .ok chunks → chunks.length ≤ iterationBound view.length := by
  refine ⟨parseChunksLoop_returns view _ _ _ (by omega), ?_, ?_, ?_⟩
  · intro fuel offset acc hlt
    rcases parseChunksLoop_iteration view offset hlt with he | ⟨c, hc, _, hstep⟩
    · exact Or.inl (he fuel acc)
    · exact Or.inr ⟨c, hc, hstep fuel acc⟩
  · intro fuel hfuel
    unfold iterationBound at hfuel
    exact parseChunksLoop_fuel view _ _ _ _ (by omega) (by omega)
  · intro chunks h
    have := parseChunksLoop_count view _ _ _ _ h
    simpa [iterationBound] using this

theorem payloadBytes_congr (a b : NinePatchInfo) (hx : a.stretchRegionsX = b.stretchRegionsX)
    (hy : a.stretchRegionsY = b.stretchRegionsY) (hp : a.paddingBox = b.paddingBox) :
    payloadBytes a = payloadBytes b := by
  unfold payloadBytes
  rw [hx, hy, hp]

theorem createNpTcChunk_congr (a b : NinePatchInfo) (hx : a.stretchRegionsX = b.stretchRegionsX)
    (hy : a.stretchRegionsY = b.stretchRegionsY) (hp : a.paddingBox = b.paddingBox) :
    createNpTcChunk a = createNpTcChunk b := by
  rw [createNpTcChunk_eq, createNpTcChunk_eq, payloadBytes_congr a b hx hy hp]

set_option maxRecDepth 100000 in
theorem sampleChunk_decoded :
    decodeXDivs (chunkPayload sampleChunk) = [0, 1] ∧
      decodeYDivs (chunkPayload sampleChunk) = [0, 1] ∧
      decodeNumColors (chunkPayload sampleChunk) = 4 ∧
      (chunkPayload sampleChunk).length = 32 + 4 * 2 + 4 * 2 + 4 * 4 := by
  decide

set_option maxRecDepth 100000 in
/-- C31, counterexample. The document `sampleDoc` has `stretchRegionsX = [{start:0,end:0}]`,
`stretchRegionsY = [{start:0,end:0}]` and padding `{0,0,0,0}`; the chunk that
`createNpTcChunk` produces for it decodes to `xDivs = [0,1]`, `yDivs = [0,1]` and
`numColors = 4`, not 1. -/
theorem createNpTcChunk_sample_numColors_four :
    sampleDoc.stretchRegionsX = [⟨0, 0⟩] ∧ sampleDoc.stretchRegionsY = [⟨0, 0⟩] ∧
      sampleDoc.paddingBox = ⟨0, 0, 0, 0⟩ ∧
      createNpTcChunk sampleDoc = .ok sampleChunk ∧
      decodeXDivs (chunkPayload sampleChunk) = [0, 1] ∧
      decodeYDivs (chunkPayload sampleChunk) = [0, 1] ∧
      decodeNumColors (chunkPayload sampleChunk) = 4 ∧
      decodeNumColors (chunkPayload sampleChunk) ≠ 1 :=
  ⟨rfl, rfl, rfl, createNpTcChunk_sampleDoc, sampleChunk_decoded.1, sampleChunk_decoded.2.1,
    sampleChunk_decoded.2.2.1, by rw [sampleChunk_decoded.2.2.1]; decide⟩

/-- C31, amended. For a document with `stretchRegionsX = [{start:0,end:0}]`,
`stretchRegionsY = [{start:0,end:0}]` and padding `{0,0,0,0}`, decoding the `npTc` chunk
produced by `createNpTcChunk` gives `xDivs = [0,1]`, `yDivs = [0,1]` and
`numColors = (1 + 1) * (1 + 1) = 4`, the payload holding 4 color entries. -/
theorem createNpTcChunk_single_region_roundtrip (info : NinePatchInfo)
    (hx : info.stretchRegionsX = [⟨0, 0⟩]) (hy : info.stretchRegionsY = [⟨0, 0⟩])
    (hp : info.paddingBox = ⟨0, 0, 0, 0⟩) :
    ∃ c, createNpTcChunk info = .ok c ∧
      decodeXDivs (chunkPayload c) = [0, 1] ∧ decodeYDivs (chunkPayload c) = [0, 1] ∧
      decodeNumColors (chunkPayload c) = 4 ∧
      (chunkPayload c).length = 32 + 4 * 2 + 4 * 2 + 4 * 4 := by
  refine ⟨sampleChunk, ?_, sampleChunk_decoded⟩
  rw [createNpTcChunk_congr info sampleDoc hx hy hp]
  exact createNpTcChunk_sampleDoc

/-- C31, witness: the amended theorem at `sampleDoc`. -/
theorem createNpTcChunk_single_region_roundtrip_witness :
    sampleDoc.stretchRegionsX = [⟨0, 0⟩] ∧ sampleDoc.stretchRegionsY = [⟨0, 0⟩] ∧
      sampleDoc.paddingBox = ⟨0, 0, 0, 0⟩ ∧
      ∃ c, createNpTcChunk sampleDoc = .ok c ∧
        decodeXDivs (chunkPayload c) = [0, 1] ∧ decodeYDivs (chunkPayload c) = [0, 1] ∧
        decodeNumColors (chunkPayload c) = 4 ∧
        (chunkPayload c).length = 32 + 4 * 2 + 4 * 2 + 4 * 4 :=
  ⟨rfl, rfl, rfl, createNpTcChunk_single_region_roundtrip sampleDoc rfl rfl rfl⟩

theorem padLoop_contentLoop (f : Nat → Bool) (n : Nat) :
    (NoMarker f n ∧ padLoop f n = ⟨0, 0, false⟩ ∧ contentLoop f n = (none, none)) ∨
      ∃ a b : Nat, IsFirstMarker f n a ∧ IsLastMarker f n b ∧
        padLoop f n = ⟨(a : Int) - 1, (b : Int) - 1, true⟩ ∧
        contentLoop f n = (some ((a : Int) - 1), some ((b : Int) - 1)) := by
  rcases padLoop_spec f n with ⟨h, hp⟩ | ⟨a, b, ha, hb, hp⟩ <;>
    rcases contentLoop_spec f n with ⟨h', hc⟩ | ⟨a', b', ha', hb', hc⟩
  · exact Or.inl ⟨h, hp, hc⟩
  · have := h a' ha'.1 ha'.2.1
    rw [ha'.2.2.1] at this
    exact absurd this (by simp)
  · have := h' a ha.1 ha.2.1
    rw [ha.2.2.1] at this
    exact absurd this (by simp)
  · have e1 := isFirstMarker_unique ha ha'
    have e2 := isLastMarker_unique hb hb'
    subst e1 e2
    exact Or.inr ⟨a, b, ha, hb, hp, hc⟩

theorem padding_of_axis (f : Nat → Bool) (n : Nat) (full : Int) :
    (padLoop f n).first = (contentLoop f n).1.getD 0 ∧
      ((∃ x, 1 ≤ x ∧ x ≤ n ∧ f x = true) →
        full - (padLoop f n).last = full - (contentLoop f n).2.getD full) ∧
      ((∀ x, 1 ≤ x → x ≤ n → f x = false) →
        full - (padLoop f n).last = full ∧ (contentLoop f n).2.getD full = full) := by
  rcases padLoop_contentLoop f n with ⟨h, hp, hc⟩ | ⟨a, b, ha, hb, hp, hc⟩
  · rw [hp, hc]
    refine ⟨rfl, ?_, fun _ => ⟨by simp, rfl⟩⟩
    rintro ⟨x, h1, h2, h3⟩
    have := h x h1 h2
    rw [h3] at this
    exact absurd this (by simp)
  · rw [hp, hc]
    refine ⟨rfl, fun _ => rfl, ?_⟩
    intro hno
    have := hno a ha.1 ha.2.1
    rw [ha.2.2.1] at this
    exact absurd this (by simp)

theorem padding_of_edges (img : ImageData) (hw : 3 ≤ img.width) (hh : 3 ≤ img.height) :
    (calculatePadding img).left = (parseContentRegion img).left ∧
      (calculatePadding img).top = (parseContentRegion img).top ∧
      ((∃ x, 1 ≤ x ∧ x ≤ img.width - 2 ∧ isMarkerPixel img x (img.height - 1) = true) →
        (calculatePadding img).right =
          ((img.width : Int) - 3) - (parseContentRegion img).right) ∧
      ((∀ x, 1 ≤ x → x ≤ img.width - 2 → isMarkerPixel img x (img.height - 1) = false) →
        (calculatePadding img).right = (img.width : Int) - 3 ∧
          (parseContentRegion img).right = (img.width : Int) - 3) ∧
      ((∃ y, 1 ≤ y ∧ y ≤ img.height - 2 ∧ isMarkerPixel img (img.width - 1) y = true) →
        (calculatePadding img).bottom =
          ((img.height : Int) - 3) - (parseContentRegion img).bottom) ∧
      ((∀ y, 1 ≤ y → y ≤ img.height - 2 → isMarkerPixel img (img.width - 1) y = false) →
        (calculatePadding img).bottom = (img.height : Int) - 3 ∧
          (parseContentRegion img).bottom = (img.height : Int) - 3) := by
  rw [calculatePadding_eq img (by omega) (by omega),
    parseContentRegion_eq img (by omega) (by omega)]
  obtain ⟨b1, b2, b3⟩ := padding_of_axis (fun x => isMarkerPixel img x (img.height - 1))
    (img.width - 2) ((img.width : Int) - 3)
  obtain ⟨r1, r2, r3⟩ := padding_of_axis (fun y => isMarkerPixel img (img.width - 1) y)
    (img.height - 2) ((img.height : Int) - 3)
  exact ⟨b1, r1, b2, b3, r2, r3⟩

set_option maxRecDepth 100000 in
/-- C35, the failing input. The image `stretchOnlyImage` is a valid 4×4 nine-patch source
without content markers; its content region is the full content extent
`{left: 0, top: 0, right: 1, bottom: 1}`, whose margins are all 0, but `calculatePadding`
returns `right = 1` and `bottom = 1`. For every image
with `width ≥ 3` and `height ≥ 3`: `left` and `top` agree with the content region; `right`
is the margin `(width-3) - content.right` when the bottom row has a marker and is
`width - 3` when it has none, although the content region then reaches `width - 3`; and
the same holds for `bottom` with the right column. -/
theorem calculatePadding_no_marker_not_margin :
    (parseSourceNinePatch stretchOnlyImage).isValid = true ∧
      parseContentRegion stretchOnlyImage = ⟨0, 0, 1, 1⟩ ∧
      calculatePadding stretchOnlyImage = ⟨0, 0, 1, 1⟩ ∧
      (calculatePadding stretchOnlyImage).right ≠
        ((stretchOnlyImage.width : Int) - 3) - (parseContentRegion stretchOnlyImage).right ∧
      (calculatePadding stretchOnlyImage).bottom ≠
        ((stretchOnlyImage.height : Int) - 3) - (parseContentRegion stretchOnlyImage).bottom ∧
      ∀ img : ImageData, 3 ≤ img.width → 3 ≤ img.height →
        (calculatePadding img).left = (parseContentRegion img).left ∧
        (calculatePadding img).top = (parseContentRegion img).top ∧
        ((∃ x, 1 ≤ x ∧ x ≤ img.width - 2 ∧ isMarkerPixel img x (img.height - 1) = true) →
          (calculatePadding img).right =
            ((img.width : Int) - 3) - (parseContentRegion img).right) ∧
        ((∀ x, 1 ≤ x → x ≤ img.width - 2 → isMarkerPixel img x (img.height - 1) = false) →
          (calculatePadding img).right = (img.width : Int) - 3 ∧
            (parseContentRegion img).right = (img.width : Int) - 3) ∧
        ((∃ y, 1 ≤ y ∧ y ≤ img.height - 2 ∧ isMarkerPixel img (img.width - 1) y = true) →
          (calculatePadding img).bottom =
            ((img.height : Int) - 3) - (parseContentRegion img).bottom) ∧
        ((∀ y, 1 ≤ y → y ≤ img.height - 2 → isMarkerPixel img (img.width - 1) y = false) →
          (calculatePadding img).bottom = (img.height : Int) - 3 ∧
            (parseContentRegion img).bottom = (img.height : Int) - 3) :=
  ⟨by decide, by decide, by decide, by decide, by decide, padding_of_edges⟩

theorem createNpTcChunkBody_loops (info : NinePatchInfo) :
    createNpTcChunkBody info = (do
      let (chunk, offset) ← writeDivs "xDivs" (divsOf info.stretchRegionsX)
        (headerBuffer info, 40)
      let (chunk, offset) ← writeDivs "yDivs" (divsOf info.stretchRegionsY) (chunk, offset)
      let (chunk, offset) ← writeColors
        (((divsOf info.stretchRegionsX).length / 2 + 1) *
          ((divsOf info.stretchRegionsY).length / 2 + 1)) (chunk, offset)
      let crc := calculateCRC32 ((chunk.take offset).drop 4)
      let chunk ← setUint32 chunk offset crc
      pure chunk) := by
  unfold createNpTcChunkBody headerBuffer chunkDataSizeOf
  simp only []
  generalize divsOf info.stretchRegionsX = xDivs
  generalize divsOf info.stretchRegionsY = yDivs
  generalize (xDivs.length / 2 + 1) * (yDivs.length / 2 + 1) = numColors
  rw [← List.nil_append (List.replicate _ 0)]
  simp (disch := first | omega | (simp only [List.length_append, List.length_cons, List.length_nil,
      List.length_singleton, be32_length] <;> omega)) only
    [setUint32_zeros, setInt32_zeros, setUint8_zeros, set_zeros, except_ok_bind]
  have hZ : 4 + 4 + (4 + 8 + 16 + 4 + xDivs.length * 4 + yDivs.length * 4 + numColors * 4) + 4
      - 4 - 1 - 1 - 1 - 1 - 1 - 1 - 1 - 1 - 4 - 4 - 4 - 4 - 4 - 4 - 4 =
      12 + (4 + 8 + 16 + 4 + xDivs.length * 4 + yDivs.length * 4 + numColors * 4) - 40 := by
    omega
  rw [hZ]
  simp [be32]

theorem setUint32_fits (chunk : List Nat) (offset : Nat) (value : Int)
    (h : offset + 4 ≤ chunk.length) :
    ∃ c, setUint32 chunk offset value = .ok c ∧ c.length = chunk.length := by
  unfold setUint32
  rw [if_neg (by omega)]
  exact ⟨_, rfl, by simp⟩

theorem writeDivs_fits (label : String) (divs : List Int) :
    ∀ (chunk : List Nat) (offset : Nat), offset + 4 * divs.length ≤ chunk.length →
      ∃ c, writeDivs label divs (chunk, offset) = .ok (c, offset + 4 * divs.length) ∧
        c.length = chunk.length := by
  induction divs with
  | nil => intro chunk offset _; exact ⟨chunk, rfl, rfl⟩
  | cons d t ih =>
    intro chunk offset h
    simp only [List.length_cons] at h
    obtain ⟨c1, h1, hl1⟩ := setUint32_fits chunk offset d (by omega)
    obtain ⟨c, hc, hl⟩ := ih c1 (offset + 4) (by omega)
    refine ⟨c, ?_, by omega⟩
    unfold writeDivs at hc ⊢
    rw [List.foldlM_cons]
    simp only []
    have h1' : setInt32 chunk offset d = .ok c1 := h1
    rw [if_neg (by omega), h1']
    simp only [except_ok_bind, bind_assoc, pure_bind]
    rw [hc]
    simp only [List.length_cons]
    congr 2
    omega

theorem writeColors_list_fits (numColors : Nat) (is : List Nat) :
    ∀ (chunk : List Nat) (offset : Nat), offset + 4 * is.length ≤ chunk.length →
      ∃ c, List.foldlM
          (fun (st : List Nat × Nat) i =>
            if st.2 + 4 > st.1.length then
              (throw "colors写入越界" : Except String (List Nat × Nat))
            else do
              let colorValue : Int := if i = numColors / 2 then 0xFF06070A else 0x00000001
              let chunk ← setUint32 st.1 st.2 colorValue
              pure (chunk, st.2 + 4))
          (chunk, offset) is = .ok (c, offset + 4 * is.length) ∧
        c.length = chunk.length := by
  induction is with
  | nil => intro chunk offset _; exact ⟨chunk, rfl, rfl⟩
  | cons d t ih =>
    intro chunk offset h
    simp only [List.length_cons] at h
    obtain ⟨c1, h1, hl1⟩ := setUint32_fits chunk offset
      (if d = numColors / 2 then 0xFF06070A else 0x00000001) (by omega)
    obtain ⟨c, hc, hl⟩ := ih c1 (offset + 4) (by omega)
    refine ⟨c, ?_, by omega⟩
    rw [List.foldlM_cons]
    simp only []
    rw [if_neg (by omega), h1]
    simp only [except_ok_bind, bind_assoc, pure_bind]
    rw [hc]
    simp only [List.length_cons]
    congr 2
    omega

theorem writeColorsUpTo_fits (numColors k : Nat) (chunk : List Nat) (offset : Nat)
    (h : offset + 4 * k ≤ chunk.length) :
    ∃ c, writeColorsUpTo numColors k (chunk, offset) = .ok (c, offset + 4 * k) ∧
      c.length = chunk.length := by
  have := writeColors_list_fits numColors (List.range k) chunk offset
    (by rw [List.length_range]; exact h)
  rw [List.length_range] at this
  exact this

/-- C33. For every document, none of the three out-of-bounds checks of `createNpTcChunk`
fires. From the buffer of `12 + chunkDataSize` bytes and the offset 40 at which the `xDivs`
loop starts, each loop reaches each of its writes with `offset + 4 ≤ 8 + chunkDataSize`
(the state before write `k` is the loop run on the first `k` entries), the offset after
the last `colors` entry is exactly `8 + chunkDataSize`, which leaves 4 bytes for the CRC,
and `createNpTcChunk` returns a chunk of `12 + chunkDataSize` bytes. -/
theorem createNpTcChunk_no_overflow (info : NinePatchInfo) :
    (∃ c, createNpTcChunk info = .ok c ∧ c.length = 12 + chunkDataSizeOf info) ∧
      createNpTcChunkBody info = (do
        let (chunk, offset) ← writeDivs "xDivs" (divsOf info.stretchRegionsX)
          (headerBuffer info, 40)
        let (chunk, offset) ← writeDivs "yDivs" (divsOf info.stretchRegionsY) (chunk, offset)
        let (chunk, offset) ← writeColors
          (((divsOf info.stretchRegionsX).length / 2 + 1) *
            ((divsOf info.stretchRegionsY).length / 2 + 1)) (chunk, offset)
        let crc := calculateCRC32 ((chunk.take offset).drop 4)
        let chunk ← setUint32 chunk offset crc
        pure chunk) ∧
      (headerBuffer info).length = 12 + chunkDataSizeOf info ∧
      (∀ (numColors : Nat) (st : List Nat × Nat),
        writeColors numColors st = writeColorsUpTo numColors numColors st) ∧
      40 + 4 * (divsOf info.stretchRegionsX).length + 4 * (divsOf info.stretchRegionsY).length +
          4 * (((divsOf info.stretchRegionsX).length / 2 + 1) *
            ((divsOf info.stretchRegionsY).length / 2 + 1)) = 8 + chunkDataSizeOf info ∧
      ∀ chunk : List Nat, chunk.length = 12 + chunkDataSizeOf info →
        (∀ k, k ≤ (divsOf info.stretchRegionsX).length →
          (k < (divsOf info.stretchRegionsX).length → 40 + 4 * k + 4 ≤ 8 + chunkDataSizeOf info) ∧
          ∃ c, writeDivs "xDivs" ((divsOf info.stretchRegionsX).take k) (chunk, 40) =
              .ok (c, 40 + 4 * k) ∧ c.length = 12 + chunkDataSizeOf info) ∧
        (∀ k, k ≤ (divsOf info.stretchRegionsY).length →
          (k < (divsOf info.stretchRegionsY).length →
            40 + 4 * (divsOf info.stretchRegionsX).length + 4 * k + 4 ≤
              8 + chunkDataSizeOf info) ∧
          ∃ c, writeDivs "yDivs" ((divsOf info.stretchRegionsY).take k)
              (chunk, 40 + 4 * (divsOf info.stretchRegionsX).length) =
              .ok (c, 40 + 4 * (divsOf info.stretchRegionsX).length + 4 * k) ∧
            c.length = 12 + chunkDataSizeOf info) ∧
        (∀ k, k ≤ ((divsOf info.stretchRegionsX).length / 2 + 1) *
            ((divsOf info.stretchRegionsY).length / 2 + 1) →
          (k < ((divsOf info.stretchRegionsX).length / 2 + 1) *
              ((divsOf info.stretchRegionsY).length / 2 + 1) →
            40 + 4 * (divsOf info.stretchRegionsX).length +
              4 * (divsOf info.stretchRegionsY).length + 4 * k + 4 ≤
              8 + chunkDataSizeOf info) ∧
          ∃ c, writeColorsUpTo
              (((divsOf info.stretchRegionsX).length / 2 + 1) *
                ((divsOf info.stretchRegionsY).length / 2 + 1)) k
              (chunk, 40 + 4 * (divsOf info.stretchRegionsX).length +
                4 * (divsOf info.stretchRegionsY).length) =
              .ok (c, 40 + 4 * (divsOf info.stretchRegionsX).length +
                4 * (divsOf info.stretchRegionsY).length + 4 * k) ∧
            c.length = 12 + chunkDataSizeOf info) := by
  have hD : chunkDataSizeOf info =
      32 + 4 * (divsOf info.stretchRegionsX).length + 4 * (divsOf info.stretchRegionsY).length +
        4 * (((divsOf info.stretchRegionsX).length / 2 + 1) *
          ((divsOf info.stretchRegionsY).length / 2 + 1)) := by
    unfold chunkDataSizeOf; omega
  refine ⟨⟨_, createNpTcChunk_eq info, ?_⟩, createNpTcChunkBody_loops info, ?_,
    fun _ _ => rfl, by omega, ?_⟩
  · simp only [List.length_append, be32_length, List.length_cons, List.length_nil,
      payloadBytes_length]
    omega
  · simp only [headerBuffer, List.length_append, be32_length, List.length_cons,
      List.length_nil, List.length_replicate]
    omega
  · intro chunk hlen
    generalize (divsOf info.stretchRegionsX) = xDivs at hD ⊢
    generalize (divsOf info.stretchRegionsY) = yDivs at hD ⊢
    generalize (xDivs.length / 2 + 1) * (yDivs.length / 2 + 1) = numColors at hD ⊢
    refine ⟨fun k hk => ⟨fun _ => by omega, ?_⟩, fun k hk => ⟨fun _ => by omega, ?_⟩,
      fun k hk => ⟨fun _ => by omega, ?_⟩⟩
    · obtain ⟨c, hc, hl⟩ := writeDivs_fits "xDivs" (xDivs.take k) chunk 40
        (by rw [List.length_take]; omega)
      rw [List.length_take, Nat.min_eq_left hk] at hc
      exact ⟨c, hc, by omega⟩
    · obtain ⟨c, hc, hl⟩ := writeDivs_fits "yDivs" (yDivs.take k) chunk (40 + 4 * xDivs.length)
        (by rw [List.length_take]; omega)
      rw [List.length_take, Nat.min_eq_left hk] at hc
      exact ⟨c, hc, by omega⟩
    · obtain ⟨c, hc, hl⟩ := writeColorsUpTo_fits numColors k chunk
        (40 + 4 * xDivs.length + 4 * yDivs.length) (by omega)
      exact ⟨c, hc, by omega⟩

/-- C33, witness: the theorem at `sampleDoc`, whose chunk has `12 + 64` bytes. -/
theorem createNpTcChunk_no_overflow_witness :
    chunkDataSizeOf sampleDoc = 64 ∧
      ∃ c, createNpTcChunk sampleDoc = .ok c ∧ c.length = 12 + chunkDataSizeOf sampleDoc :=
  ⟨by decide, (createNpTcChunk_no_overflow sampleDoc).1⟩

theorem storeClamped_zeros (g : Nat → Nat) (m n : Nat) (i : Int) (v : Option Nat)
    (hi : i = (m : Int)) (hn : 1 ≤ n) (hv : v.getD 0 = g m) :
    storeClamped ((List.range m).map g ++ List.replicate n 0) i v =
      (List.range (m + 1)).map g ++ List.replicate (n - 1) 0 := by
  subst hi
  unfold storeClamped
  rw [if_neg (by omega), Int.toNat_natCast,
    set_zeros _ n m _ (by rw [List.length_map, List.length_range]) hn, hv, List.range_succ,
    List.map_append]
  rfl

theorem storePixel_zeros (g : Nat → Nat) (m n : Nat) (i : Int) (v0 v1 v2 v3 : Option Nat)
    (hi : i = (m : Int)) (hn : 4 ≤ n) (h0 : v0.getD 0 = g m) (h1 : v1.getD 0 = g (m + 1))
    (h2 : v2.getD 0 = g (m + 2)) (h3 : v3.getD 0 = g (m + 3)) :
    storeClamped (storeClamped (storeClamped (storeClamped
        ((List.range m).map g ++ List.replicate n 0) i v0) (i + 1) v1) (i + 2) v2) (i + 3) v3 =
      (List.range (m + 4)).map g ++ List.replicate (n - 4) 0 := by
  rw [storeClamped_zeros g m n i v0 hi (by omega) h0,
    storeClamped_zeros g (m + 1) (n - 1) (i + 1) v1 (by omega) (by omega) h1,
    storeClamped_zeros g (m + 1 + 1) (n - 1 - 1) (i + 2) v2 (by omega) (by omega) h2,
    storeClamped_zeros g (m + 1 + 1 + 1) (n - 1 - 1 - 1) (i + 3) v3 (by omega) (by omega) h3]
  have e : n - 1 - 1 - 1 - 1 = n - 4 := by omega
  rw [e]

theorem readByte_getD (data : List Nat) (k : Nat) (i : Int) (hi : i = (k : Int)) :
    (readByte data i).getD 0 = data.getD k 0 := by
  rw [readByte_natCast data k i hi, List.getD_eq_getElem?_getD]

theorem strippedByte_pixel (img : ImageData) (x y j : Nat) (hx : x < img.width - 2)
    (hj : j < 4) :
    strippedByte img (4 * (y * (img.width - 2) + x) + j) =
      img.data.getD (((y + 1) * img.width + (x + 1)) * 4 + j) 0 := by
  unfold strippedByte
  have h1 : (4 * (y * (img.width - 2) + x) + j) / 4 = x + y * (img.width - 2) := by omega
  have h2 : (4 * (y * (img.width - 2) + x) + j) % 4 = j := by omega
  rw [h1, h2, Nat.add_mul_div_right _ _ (by omega), Nat.add_mul_mod_self_right,
    Nat.div_eq_of_lt hx, Nat.mod_eq_of_lt hx, Nat.zero_add]

theorem stripRow_zeros (img : ImageData) (hw : 3 ≤ img.width) (y : Nat) :
    ∀ (c n : Nat), c ≤ img.width - 2 → 4 * c ≤ n →
      (List.range c).foldl
        (fun newData (x : Nat) =>
          let oldIndex := (((y : Int) + 1) * (img.width : Int) + ((x : Int) + 1)) * 4
          let newIndex := ((y : Int) * ((img.width : Int) - 2) + (x : Int)) * 4
          let newData := storeClamped newData newIndex (readByte img.data oldIndex)
          let newData := storeClamped newData (newIndex + 1) (readByte img.data (oldIndex + 1))
          let newData := storeClamped newData (newIndex + 2) (readByte img.data (oldIndex + 2))
          storeClamped newData (newIndex + 3) (readByte img.data (oldIndex + 3)))
        ((List.range (4 * (y * (img.width - 2)))).map (strippedByte img) ++
          List.replicate n 0) =
      (List.range (4 * (y * (img.width - 2) + c))).map (strippedByte img) ++
        List.replicate (n - 4 * c) 0 := by
  intro c
  induction c with
  | zero => intro n _ _; rfl
  | succ c ih =>
    intro n hc hn
    rw [List.range_succ, List.foldl_append, ih n (by omega) (by omega)]
    simp only [List.foldl_cons, List.foldl_nil]
    have hcast : ((img.width - 2 : Nat) : Int) = (img.width : Int) - 2 := by omega
    rw [storePixel_zeros (strippedByte img) (4 * (y * (img.width - 2) + c)) (n - 4 * c) _ _ _ _ _
      (by rw [← hcast]; push_cast; ring) (by omega)
      ((readByte_getD _ (((y + 1) * img.width + (c + 1)) * 4) _ (by push_cast; ring)).trans
        (strippedByte_pixel img c y 0 (by omega) (by omega)).symm)
      ((readByte_getD _ (((y + 1) * img.width + (c + 1)) * 4 + 1) _ (by push_cast; ring)).trans
        (strippedByte_pixel img c y 1 (by omega) (by omega)).symm)
      ((readByte_getD _ (((y + 1) * img.width + (c + 1)) * 4 + 2) _ (by push_cast; ring)).trans
        (strippedByte_pixel img c y 2 (by omega) (by omega)).symm)
      ((readByte_getD _ (((y + 1) * img.width + (c + 1)) * 4 + 3) _ (by push_cast; ring)).trans
        (strippedByte_pixel img c y 3 (by omega) (by omega)).symm)]
    have e1 : 4 * (y * (img.width - 2) + c) + 4 = 4 * (y * (img.width - 2) + (c + 1)) := by omega
    have e2 : n - 4 * c - 4 = n - 4 * (c + 1) := by omega
    rw [e1, e2]

theorem stripRows_zeros (img : ImageData) (hw : 3 ≤ img.width) :
    ∀ (r n : Nat), 4 * (r * (img.width - 2)) ≤ n →
      (List.range r).foldl
        (fun newData (y : Nat) =>
          (List.range (img.width - 2)).foldl
            (fun newData (x : Nat) =>
              let oldIndex := (((y : Int) + 1) * (img.width : Int) + ((x : Int) + 1)) * 4
              let newIndex := ((y : Int) * ((img.width : Int) - 2) + (x : Int)) * 4
              let newData := storeClamped newData newIndex (readByte img.data oldIndex)
              let newData :=
                storeClamped newData (newIndex + 1) (readByte img.data (oldIndex + 1))
              let newData :=
                storeClamped newData (newIndex + 2) (readByte img.data (oldIndex + 2))
              storeClamped newData (newIndex + 3) (readByte img.data (oldIndex + 3)))
            newData)
        (List.replicate n 0) =
      (List.range (4 * (r * (img.width - 2)))).map (strippedByte img) ++
        List.replicate (n - 4 * (r * (img.width - 2))) 0 := by
  intro r
  induction r with
  | zero => intro n _; simp
  | succ r ih =>
    intro n hn
    have hmul : (r + 1) * (img.width - 2) = r * (img.width - 2) + (img.width - 2) := by ring
    rw [hmul] at hn
    rw [List.range_succ, List.foldl_append, ih n (by omega)]
    simp only [List.foldl_cons, List.foldl_nil]
    rw [stripRow_zeros img hw r (img.width - 2) _ (le_refl _) (by omega), hmul]
    congr 2
    omega

theorem removeNinePatchBorders_eq (img : ImageData) (hw : 3 ≤ img.width)
    (hh : 3 ≤ img.height) :
    removeNinePatchBorders img = .ok ⟨img.width - 2, img.height - 2, strippedData img⟩ := by
  have h1 : ((img.width : Int) - 2).natAbs = img.width - 2 := by omega
  have h2 : ((img.height : Int) - 2).natAbs = img.height - 2 := by omega
  have h3 : ((img.width : Int) - 2).toNat = img.width - 2 := by omega
  have h4 : ((img.height : Int) - 2).toNat = img.height - 2 := by omega
  unfold removeNinePatchBorders createImageData
  simp only []
  rw [if_neg (by omega)]
  simp only [except_ok_bind, pure, Except.pure, h1, h2, h3, h4]
  rw [stripRows_zeros img hw (img.height - 2) _ (by
    have : (img.height - 2) * (img.width - 2) = (img.width - 2) * (img.height - 2) := by ring
    rw [this, Nat.mul_assoc])]
  have e : 4 * ((img.height - 2) * (img.width - 2)) = 4 * (img.width - 2) * (img.height - 2) := by
    ring
  rw [e, Nat.sub_self]
  simp [strippedData]

theorem drop_take_getElem? (l : List Nat) (a j : Nat) :
    ((l.drop a).take 4)[j]? = if j < 4 then l[a + j]? else none := by
  by_cases hj : j < 4
  · rw [if_pos hj, List.getElem?_take_of_lt hj, List.getElem?_drop]
  · rw [if_neg hj, List.getElem?_eq_none]
    rw [List.length_take]
    omega

theorem pixel_index_lt (w h x y : Nat) (hx : x + 1 < w) (hy : y + 1 < h) :
    ((y + 1) * w + (x + 1)) * 4 + 3 < 4 * w * h := by
  have h1 : (y + 2) * w ≤ h * w := Nat.mul_le_mul_right w (by omega)
  have h2 : (y + 2) * w = (y + 1) * w + w := by ring
  have h3 : 4 * w * h = 4 * (h * w) := by ring
  omega

/-- C32. For every image with `width ≥ 3`, `height ≥ 3` and `data.length = 4*width*height`,
`removeNinePatchBorders` returns an image of `width-2` by `height-2` pixels, with
`4*(width-2)*(height-2)` bytes, whose pixel `(x, y)` has the same four RGBA bytes as input
pixel `(x+1, y+1)` for all `x < width-2`, `y < height-2`. The function writes to the new
array only: the input image is a value that it reads. -/
theorem removeNinePatchBorders_pixels (img : ImageData) (hw : 3 ≤ img.width)
    (hh : 3 ≤ img.height) (hlen : img.data.length = 4 * img.width * img.height) :
    ∃ out, removeNinePatchBorders img = .ok out ∧
      out.width = img.width - 2 ∧ out.height = img.height - 2 ∧
      out.data.length = 4 * out.width * out.height ∧
      ∀ x y, x < img.width - 2 → y < img.height - 2 →
        rgbaAt out x y = rgbaAt img (x + 1) (y + 1) ∧ (rgbaAt out x y).length = 4 := by
  refine ⟨_, removeNinePatchBorders_eq img hw hh, rfl, rfl, ?_, ?_⟩
  · simp [strippedData]
  · intro x y hx hy
    have hsrc := pixel_index_lt img.width img.height x y (by omega) (by omega)
    have hdst := pixel_index_lt (img.width - 2 + 1) (img.height - 2 + 1) x y (by omega) (by omega)
    have hk : (y * (img.width - 2) + x) * 4 + 3 < 4 * (img.width - 2) * (img.height - 2) := by
      have h1 : (y + 1) * (img.width - 2) ≤ (img.height - 2) * (img.width - 2) :=
        Nat.mul_le_mul_right _ (by omega)
      have h2 : (y + 1) * (img.width - 2) = y * (img.width - 2) + (img.width - 2) := by ring
      have h3 : 4 * (img.width - 2) * (img.height - 2) =
          4 * ((img.height - 2) * (img.width - 2)) := by ring
      omega
    have heq : rgbaAt ⟨img.width - 2, img.height - 2, strippedData img⟩ x y =
        rgbaAt img (x + 1) (y + 1) := by
      unfold rgbaAt
      apply List.ext_getElem?
      intro j
      rw [drop_take_getElem?, drop_take_getElem?]
      by_cases hj : j < 4
      · rw [if_pos hj, if_pos hj]
        simp only [strippedData]
        rw [List.getElem?_map, List.getElem?_range (by omega), Option.map_some']
        have e : (y * (img.width - 2) + x) * 4 + j = 4 * (y * (img.width - 2) + x) + j := by
          omega
        rw [e, strippedByte_pixel img x y j hx hj, List.getD_eq_getElem?_getD,
          List.getElem?_eq_getElem (by omega)]
        rfl
      · rw [if_neg hj, if_neg hj]
    refine ⟨heq, ?_⟩
    rw [heq]
    unfold rgbaAt
    rw [List.length_take, List.length_drop]
    omega

set_option maxRecDepth 100000 in
/-- C32, witness: the theorem at `framedImage`, a 3×3 image whose centre pixel is
`(9, 9, 9, 9)`; the result is the 1×1 image of that pixel. -/
theorem removeNinePatchBorders_pixels_witness :
    3 ≤ framedImage.width ∧ 3 ≤ framedImage.height ∧
      framedImage.data.length = 4 * framedImage.width * framedImage.height ∧
      removeNinePatchBorders framedImage = .ok ⟨1, 1, [9, 9, 9, 9]⟩ ∧
      ∃ out, removeNinePatchBorders framedImage = .ok out ∧
        out.width = framedImage.width - 2 ∧ out.height = framedImage.height - 2 ∧
        out.data.length = 4 * out.width * out.height ∧
        ∀ x y, x < framedImage.width - 2 → y < framedImage.height - 2 →
          rgbaAt out x y = rgbaAt framedImage (x + 1) (y + 1) ∧
            (rgbaAt out x y).length = 4 :=
  ⟨by decide, by decide, by decide, by decide,
    removeNinePatchBorders_pixels framedImage (by decide) (by decide) (by decide)⟩

end NinePatch
